import Mathlib

/-!
# snapper: comparing two directory trees (`snapper/Compare.cc`)

A shallow embedding of the comparison engine of `snapper/Compare.cc` and the
properties of it that the specification states.

Conventions of the embedding.

* A C++ `std::string` is a Lean `String`, one `Char` per byte; `<` on names is
  the lexicographic order of `std::string::operator<`.
* The file system is read-only during a run.  A directory entry is a `Node`: the
  `struct stat` that `fstatat(.., AT_SYMLINK_NOFOLLOW)` fills in for it, the
  answers `openat`, `read` and `readlinkat` give for it, and, for a directory,
  its listing.  The listing is kept in the order in which `SDir::entries()`
  returns it, that is after its `sort`; properties that depend on the order
  assume it explicitly.
* `stat` of a listed entry succeeds: the source does not check its result (`TODO error
  check`), and a `struct stat` that was not filled in has no defined content.
* The notification sink `cb` is the list `Run.log`; a call of `cb` appends to it.
* `boost::this_thread::interruption_point()` throws when an interruption has
  been requested.  The request is a predicate `intr` on the number of
  interruption points the run has passed so far (`Run.visits`).
* A C++ exception ends the run; the functions return the exception (if any)
  together with the state reached, so that what was notified before the throw
  stays visible.
-/

namespace snapper

/-! ## Constants of `<sys/stat.h>` (Linux values) -/

/-- Bit mask of the file type bits of `st_mode` -/
def S_IFMT : Nat := 0o170000
/-- File type: directory -/
def S_IFDIR : Nat := 0o040000
/-- File type: regular file -/
def S_IFREG : Nat := 0o100000
/-- File type: symbolic link -/
def S_IFLNK : Nat := 0o120000
/-- Owner permission bits -/
def S_IRWXU : Nat := 0o700
/-- Group permission bits -/
def S_IRWXG : Nat := 0o070
/-- Others permission bits -/
def S_IRWXO : Nat := 0o007
/-- Set-user-id bit -/
def S_ISUID : Nat := 0o4000
/-- Set-group-id bit -/
def S_ISGID : Nat := 0o2000
/-- Sticky bit -/
def S_ISVTX : Nat := 0o1000

/-- The test `S_ISDIR(m)` -/
def S_ISDIR (m : Nat) : Bool := decide (m &&& S_IFMT = S_IFDIR)

/-! ## Status flags -/

/-- Modelled from the spec: the header declaring the status flags (`snapper/File.h`)
is not among the sources.  The spec describes a bitmask over the independent flags
CREATED, DELETED, TYPE, CONTENT, PERMISSIONS, USER, GROUP; they are distinct single
bits, in the order the spec lists them. -/
def CREATED : Nat := 1
/-- Modelled from the spec: see `CREATED` -/
def DELETED : Nat := 2
/-- Modelled from the spec: see `CREATED` -/
def TYPE : Nat := 4
/-- Modelled from the spec: see `CREATED` -/
def CONTENT : Nat := 8
/-- Modelled from the spec: see `CREATED` -/
def PERMISSIONS : Nat := 16
/-- Modelled from the spec: see `CREATED` -/
def USER : Nat := 32
/-- Modelled from the spec: see `CREATED` -/
def GROUP : Nat := 64

/-! ## Data model -/

/-- The exceptions that leave the comparison -/
inductive Exception where
  | IOErrorException
  | LogicErrorException
  | thread_interrupted
  deriving DecidableEq, Repr

/-- The fields of `struct stat` that the comparison reads -/
structure Stat where
  st_dev : Nat
  st_ino : Nat
  st_mode : Nat
  st_uid : Nat
  st_gid : Nat
  st_size : Nat
  tv_sec : Int
  tv_nsec : Int
  deriving DecidableEq, Repr

/-- A file reference `SFile(dir, name)`, given by the answers of the kernel to the
operations the comparison performs on it.  `fd` is the result of
`open(O_RDONLY | O_NOFOLLOW | O_NOATIME)`: `none` when the descriptor is negative,
otherwise the bytes that successive `read` calls on the descriptor deliver before
they run short.  `target` is the result of `readlinkat`: `none` when it fails,
otherwise the link target. -/
structure SFile where
  fd : Option (List Nat)
  target : Option String
  deriving DecidableEq, Repr

/-- A directory entry: its `stat`, its file reference, whether listing it as a
directory works (`dup` and `fdopendir` in `SDir::entries`), and its listing -/
inductive Node where
  | mk (stat : Stat) (file : SFile) (listable : Bool) (kids : List (String × Node))

/-- The stat snapshot of an entry -/
def Node.stat : Node → Stat
  | .mk st _ _ _ => st

/-- The file reference of an entry -/
def Node.file : Node → SFile
  | .mk _ f _ _ => f

/-- Whether `SDir::entries` works on the entry -/
def Node.listable : Node → Bool
  | .mk _ _ l _ => l

/-- The listing of an entry -/
def Node.kids : Node → List (String × Node)
  | .mk _ _ _ k => k

/-- An open directory handle `SDir`: the path relative to the root (`path`), the
result of `stat(".")`, and the listing that `entries()` returns -/
structure SDir where
  path : String
  dot : Option Stat
  listable : Bool
  kids : List (String × Node)

/-- The function `SDir::fullname(name, false)` -/
def SDir.fullname (dir : SDir) (name : String) : String :=
  dir.path ++ "/" ++ name

/-- The constructor `SDir::SDir(dir, name)`: `openat` of the child, which throws
`IOErrorException` when the descriptor is negative -/
def SDir.sub (dir : SDir) (name : String) (node : Node) : Except Exception SDir :=
  if node.file.fd.isSome then
    .ok ⟨dir.path ++ "/" ++ name, some node.stat, node.listable, node.kids⟩
  else
    .error .IOErrorException

/-- The function `SDir::entries`: the sorted listing, or `IOErrorException` -/
def SDir.entries (dir : SDir) : Except Exception (List (String × Node)) :=
  if dir.listable then .ok dir.kids else .error .IOErrorException

/-- The state of a run: the notifications passed to the sink so far, in order, and
the number of interruption points passed -/
structure Run where
  log : List (String × Nat)
  visits : Nat
  deriving DecidableEq, Repr

/-- A call `cb(path, status)` of the notification sink -/
def Run.cb (s : Run) (path : String) (status : Nat) : Run :=
  { s with log := s.log ++ [(path, status)] }

/-- The exception thrown, if any, and the state reached -/
abbrev Result := Option Exception × Run

/-- The call `boost::this_thread::interruption_point()` -/
def interruption_point (intr : Nat → Bool) (s : Run) : Result :=
  if intr s.visits then (some .thread_interrupted, s)
  else (none, { s with visits := s.visits + 1 })

/-! ## Content comparison -/

/-- The block size of `cmpFilesContentReg` -/
def block_size : Nat := 4096

/-- The call `read(fd, block, t)` on a descriptor that still delivers the bytes
`fd`: the count returned, the bytes placed in the block, and the descriptor
afterwards -/
def read (fd : List Nat) (t : Nat) : Nat × List Nat × List Nat :=
  ((fd.take t).length, fd.take t, fd.drop t)

/-- The `while (length > 0)` loop of `cmpFilesContentReg`; the result is the
variable `equal` on leaving the loop -/
def cmpBlocks (fd1 fd2 : List Nat) (length : Nat) : Bool :=
  if 0 < length then
    let t := min block_size length
    let r1 := read fd1 t
    if r1.1 ≠ t then false
    else
      let r2 := read fd2 t
      if r2.1 ≠ t then false
      else if r1.2.1 ≠ r2.2.1 then false
      else cmpBlocks r1.2.2 r2.2.2 (length - t)
  else true
termination_by length
decreasing_by
  simp only [block_size]
  omega

/-- The function `cmpFilesContentReg` -/
def cmpFilesContentReg (file1 : SFile) (stat1 : Stat) (file2 : SFile) (stat2 : Stat) : Bool :=
  if stat1.tv_sec = stat2.tv_sec ∧ stat1.tv_nsec = stat2.tv_nsec then true
  else if stat1.st_size ≠ stat2.st_size then false
  else if stat1.st_size = 0 ∧ stat2.st_size = 0 then true
  else if stat1.st_dev = stat2.st_dev ∧ stat1.st_ino = stat2.st_ino then true
  else
    match file1.fd with
    | none => false
    | some fd1 =>
      match file2.fd with
      | none => false
      | some fd2 => cmpBlocks fd1 fd2 stat1.st_size

/-- The function `SDir::readlink` (through `SFile::readlink`) called with an empty
`buf`: `readlinkat` into a buffer of 1024 bytes; the value returned and `buf`
afterwards -/
def SFile.readlink (file : SFile) : Int × String :=
  match file.target with
  | none => (-1, "")
  | some t => (((t.data.take 1024).length : Nat), String.mk (t.data.take 1024))

/-- The function `cmpFilesContentLnk`; the `int` that `readlink` returns is
converted to `bool`, which is true for every value but 0 -/
def cmpFilesContentLnk (file1 : SFile) (stat1 : Stat) (file2 : SFile) (stat2 : Stat) : Bool :=
  if stat1.tv_sec = stat2.tv_sec ∧ stat1.tv_nsec = stat2.tv_nsec then true
  else
    let l1 := file1.readlink
    let r1 : Bool := decide (l1.1 ≠ 0)
    if !r1 then false
    else
      let l2 := file2.readlink
      let r2 : Bool := decide (l2.1 ≠ 0)
      if !r2 then false
      else decide (l1.2 = l2.2)

/-- The function `cmpFilesContent` -/
def cmpFilesContent (file1 : SFile) (stat1 : Stat) (file2 : SFile) (stat2 : Stat) :
    Except Exception Bool :=
  if stat1.st_mode &&& S_IFMT ≠ stat2.st_mode &&& S_IFMT then .error .LogicErrorException
  else if stat1.st_mode &&& S_IFMT = S_IFREG then
    .ok (cmpFilesContentReg file1 stat1 file2 stat2)
  else if stat1.st_mode &&& S_IFMT = S_IFLNK then
    .ok (cmpFilesContentLnk file1 stat1 file2 stat2)
  else .ok true

/-! ## Status classification -/

/-- The mask of `st_mode` bits that `cmpFiles` compares for PERMISSIONS -/
def permMask : Nat :=
  S_IRWXU ||| S_IRWXG ||| S_IRWXO ||| S_ISUID ||| S_ISGID ||| S_ISVTX

/-- The function `cmpFiles(file1, stat1, file2, stat2)` (matched metadata) -/
def cmpFiles (file1 : SFile) (stat1 : Stat) (file2 : SFile) (stat2 : Stat) :
    Except Exception Nat :=
  let status : Nat := 0
  let typeOrContent : Except Exception Nat :=
    if stat1.st_mode &&& S_IFMT ≠ stat2.st_mode &&& S_IFMT then .ok (status ||| TYPE)
    else
      match cmpFilesContent file1 stat1 file2 stat2 with
      | .error e => .error e
      | .ok equal => if !equal then .ok (status ||| CONTENT) else .ok status
  match typeOrContent with
  | .error e => .error e
  | .ok status =>
    let status := if (stat1.st_mode ^^^ stat2.st_mode) &&& permMask ≠ 0 then status ||| PERMISSIONS
      else status
    let status := if stat1.st_uid ≠ stat2.st_uid then status ||| USER else status
    let status := if stat1.st_gid ≠ stat2.st_gid then status ||| GROUP else status
    .ok status

/-- What the kernel answers below a base path: whether `open(base_path)` in the
constructor `SDir::SDir(base_path)` yields a descriptor, and, for a relative name,
the outcome of `fstatat(dirfd, name, .., AT_SYMLINK_NOFOLLOW)`: `none` when it
fails, otherwise the stat snapshot, with the file reference of that name -/
structure BasePath where
  opens : Bool
  resolve : String → Option (Stat × SFile)

/-- The function `cmpFiles(base_path1, base_path2, name)` (bare path under two
roots) -/
def cmpFilesPaths (base_path1 base_path2 : BasePath) (name : String) : Except Exception Nat :=
  if !base_path1.opens then .error .IOErrorException
  else if !base_path2.opens then .error .IOErrorException
  else
    let r1 := base_path1.resolve name
    let r2 := base_path2.resolve name
    match r1, r2 with
    | none, some _ => .ok CREATED
    | some _, none => .ok DELETED
    | none, none => .error .IOErrorException
    | some (stat1, file1), some (stat2, file2) => cmpFiles file1 stat1 file2 stat2

/-! ## The tree walker -/

/-- The function `filter` -/
def filter (name : String) : Bool :=
  decide (name = "/.snapshots")

/-- The fields `dev1` and `dev2` of `CmpData`; the sink is `Run.log` -/
structure CmpData where
  dev1 : Nat
  dev2 : Nat
  deriving DecidableEq, Repr

set_option linter.unusedVariables false in
mutual
/-- The function `listSubdirs` -/
def listSubdirs (intr : Nat → Bool) (dir : SDir) (status : Nat) (s : Run) : Result :=
  match interruption_point intr s with
  | (some e, s1) => (some e, s1)
  | (none, s1) =>
    match h : dir.entries with
    | .error e => (some e, s1)
    | .ok entries => listSubdirsLoop intr dir entries status s1
termination_by sizeOf dir.kids + 1
decreasing_by
  have hk : entries = dir.kids := by
    unfold SDir.entries at h
    split at h
    · cases h; rfl
    · cases h
  rw [hk]
  omega
/-- The `for` loop of `listSubdirs` over the entries from the iterator on -/
def listSubdirsLoop (intr : Nat → Bool) (dir : SDir) (entries : List (String × Node))
    (status : Nat) (s : Run) : Result :=
  match entries with
  | [] => (none, s)
  | (name, node) :: rest =>
    let s1 := s.cb (dir.fullname name) status
    if S_ISDIR node.stat.st_mode then
      match h : SDir.sub dir name node with
      | .error e => (some e, s1)
      | .ok sub =>
        match listSubdirs intr sub status s1 with
        | (some e, s2) => (some e, s2)
        | (none, s2) => listSubdirsLoop intr dir rest status s2
    else listSubdirsLoop intr dir rest status s1
termination_by sizeOf entries
decreasing_by
  · have hk : sub.kids = node.kids := by
      unfold SDir.sub at h
      split at h
      · cases h; rfl
      · cases h
    have hlt : sizeOf node.kids < sizeOf node := by
      cases node with
      | mk st f l k => simp only [Node.kids, Node.mk.sizeOf_spec]; omega
    rw [hk]
    simp only [List.cons.sizeOf_spec, Prod.mk.sizeOf_spec]
    omega
  · simp only [List.cons.sizeOf_spec]
    omega
  · simp only [List.cons.sizeOf_spec]
    omega
end

/-- The function `lonesome` -/
def lonesome (intr : Nat → Bool) (dir : SDir) (name : String) (node : Node) (status : Nat)
    (s : Run) : Result :=
  let s1 := s.cb (dir.fullname name) status
  if S_ISDIR node.stat.st_mode then
    match SDir.sub dir name node with
    | .error e => (some e, s1)
    | .ok sub => listSubdirs intr sub status s1
  else (none, s1)

set_option linter.unusedVariables false in
mutual
/-- The function `twosome` -/
def twosome (intr : Nat → Bool) (cmp_data : CmpData) (dir1 dir2 : SDir) (name : String)
    (node1 node2 : Node) (s : Run) : Result :=
  let stat1 := node1.stat
  let stat2 := node2.stat
  let computed : Except Exception Nat :=
    if stat1.st_dev = cmp_data.dev1 ∧ stat2.st_dev = cmp_data.dev2 then
      cmpFiles node1.file stat1 node2.file stat2
    else .ok 0
  match computed with
  | .error e => (some e, s)
  | .ok status =>
    let s1 := if status ≠ 0 then s.cb (dir1.fullname name) status else s
    if status &&& TYPE = 0 then
      if S_ISDIR stat1.st_mode then
        if stat1.st_dev = cmp_data.dev1 ∧ stat2.st_dev = cmp_data.dev2 then
          match h1 : SDir.sub dir1 name node1 with
          | .error e => (some e, s1)
          | .ok sub1 =>
            match h2 : SDir.sub dir2 name node2 with
            | .error e => (some e, s1)
            | .ok sub2 => cmpDirsWorker intr cmp_data sub1 sub2 s1
        else (none, s1)
      else (none, s1)
    else
      let dumped1 : Result :=
        if S_ISDIR stat1.st_mode then
          if stat1.st_dev = cmp_data.dev1 then
            match SDir.sub dir1 name node1 with
            | .error e => (some e, s1)
            | .ok sub1 => listSubdirs intr sub1 DELETED s1
          else (none, s1)
        else (none, s1)
      match dumped1 with
      | (some e, s2) => (some e, s2)
      | (none, s2) =>
        if S_ISDIR stat2.st_mode then
          if stat2.st_dev = cmp_data.dev2 then
            match SDir.sub dir2 name node2 with
            | .error e => (some e, s2)
            | .ok sub2 => listSubdirs intr sub2 CREATED s2
          else (none, s2)
        else (none, s2)
termination_by sizeOf node1 + sizeOf node2
decreasing_by
  have hk1 : sub1.kids = node1.kids := by
    unfold SDir.sub at h1
    split at h1
    · cases h1; rfl
    · cases h1
  have hk2 : sub2.kids = node2.kids := by
    unfold SDir.sub at h2
    split at h2
    · cases h2; rfl
    · cases h2
  have hlt1 : sizeOf node1.kids < sizeOf node1 := by
    cases node1 with
    | mk st f l k => simp only [Node.kids, Node.mk.sizeOf_spec]; omega
  have hlt2 : sizeOf node2.kids < sizeOf node2 := by
    cases node2 with
    | mk st f l k => simp only [Node.kids, Node.mk.sizeOf_spec]; omega
  rw [hk1, hk2]
  omega
/-- The function `cmpDirsWorker` -/
def cmpDirsWorker (intr : Nat → Bool) (cmp_data : CmpData) (dir1 dir2 : SDir) (s : Run) :
    Result :=
  match interruption_point intr s with
  | (some e, s1) => (some e, s1)
  | (none, s1) =>
    match h1 : dir1.entries with
    | .error e => (some e, s1)
    | .ok entries1 =>
      match h2 : dir2.entries with
      | .error e => (some e, s1)
      | .ok entries2 => cmpDirsWorkerLoop intr cmp_data dir1 dir2 entries1 entries2 s1
termination_by sizeOf dir1.kids + sizeOf dir2.kids + 1
decreasing_by
  have hk1 : entries1 = dir1.kids := by
    unfold SDir.entries at h1
    split at h1
    · cases h1; rfl
    · cases h1
  have hk2 : entries2 = dir2.kids := by
    unfold SDir.entries at h2
    split at h2
    · cases h2; rfl
    · cases h2
  rw [hk1, hk2]
  omega
/-- The `while` loop of `cmpDirsWorker`, with the two iterators `first1` and
`first2` given by the entries from them on -/
def cmpDirsWorkerLoop (intr : Nat → Bool) (cmp_data : CmpData) (dir1 dir2 : SDir)
    (entries1 entries2 : List (String × Node)) (s : Run) : Result :=
  match entries1, entries2 with
  | [], [] => (none, s)
  | [], (name2, node2) :: rest2 =>
    if filter name2 then cmpDirsWorkerLoop intr cmp_data dir1 dir2 [] rest2 s
    else
      let step : Result :=
        if node2.stat.st_dev = cmp_data.dev2 then lonesome intr dir2 name2 node2 CREATED s
        else (none, s)
      match step with
      | (some e, s1) => (some e, s1)
      | (none, s1) => cmpDirsWorkerLoop intr cmp_data dir1 dir2 [] rest2 s1
  | (name1, node1) :: rest1, [] =>
    if filter name1 then cmpDirsWorkerLoop intr cmp_data dir1 dir2 rest1 [] s
    else
      let step : Result :=
        if node1.stat.st_dev = cmp_data.dev1 then lonesome intr dir1 name1 node1 DELETED s
        else (none, s)
      match step with
      | (some e, s1) => (some e, s1)
      | (none, s1) => cmpDirsWorkerLoop intr cmp_data dir1 dir2 rest1 [] s1
  | (name1, node1) :: rest1, (name2, node2) :: rest2 =>
    if filter name1 then
      cmpDirsWorkerLoop intr cmp_data dir1 dir2 rest1 ((name2, node2) :: rest2) s
    else if filter name2 then
      cmpDirsWorkerLoop intr cmp_data dir1 dir2 ((name1, node1) :: rest1) rest2 s
    else if name2 < name1 then
      let step : Result :=
        if node2.stat.st_dev = cmp_data.dev2 then lonesome intr dir2 name2 node2 CREATED s
        else (none, s)
      match step with
      | (some e, s1) => (some e, s1)
      | (none, s1) => cmpDirsWorkerLoop intr cmp_data dir1 dir2 ((name1, node1) :: rest1) rest2 s1
    else if name1 < name2 then
      let step : Result :=
        if node1.stat.st_dev = cmp_data.dev1 then lonesome intr dir1 name1 node1 DELETED s
        else (none, s)
      match step with
      | (some e, s1) => (some e, s1)
      | (none, s1) => cmpDirsWorkerLoop intr cmp_data dir1 dir2 rest1 ((name2, node2) :: rest2) s1
    else if name1 ≠ name2 then (some .LogicErrorException, s)
    else
      match twosome intr cmp_data dir1 dir2 name1 node1 node2 s with
      | (some e, s1) => (some e, s1)
      | (none, s1) => cmpDirsWorkerLoop intr cmp_data dir1 dir2 rest1 rest2 s1
termination_by sizeOf entries1 + sizeOf entries2
decreasing_by
  all_goals simp only [List.cons.sizeOf_spec, Prod.mk.sizeOf_spec, List.nil.sizeOf_spec]
  all_goals omega
end

/-- The function `cmpDirs` -/
def cmpDirs (intr : Nat → Bool) (dir1 dir2 : SDir) (s : Run) : Result :=
  match dir1.dot with
  | none => (some .IOErrorException, s)
  | some stat1 =>
    match dir2.dot with
    | none => (some .IOErrorException, s)
    | some stat2 => cmpDirsWorker intr ⟨stat1.st_dev, stat2.st_dev⟩ dir1 dir2 s

/-! ## Notions used to state the properties

None of the following is a function of the source.  `lonesomeStep` and `dumpStep` name
pieces of code that `cmpDirsWorker` and `twosome` repeat inline, `Result.andThen` names
the sequencing of two statements; the unfolding lemmas below show that the functions of
the source are built from them.  The rest are the notions of the specification:
identical trees, the paths of a subtree, what a run adds to the log. -/

/-- The value a flag contributes to a bitmask: the flag when the condition holds -/
def flagIf (b : Bool) (flag : Nat) : Nat := if b then flag else 0

/-- Reading the first `n` bytes of the file in blocks meets a read that returns fewer
bytes than requested: the descriptor delivers fewer than `n` bytes -/
def SFile.readsShort (file : SFile) (n : Nat) : Prop :=
  ∃ fd, file.fd = some fd ∧ fd.length < n

/-- Sequencing of two steps of a run: the second step runs only when the first did not
throw -/
def Result.andThen (r : Result) (k : Run → Result) : Result :=
  match r with
  | (some e, s) => (some e, s)
  | (none, s) => k s

/-- The step of the merge loop for an entry present on one side only: `lonesome`,
provided the entry is on the root device of its side -/
def lonesomeStep (intr : Nat → Bool) (dev : Nat) (dir : SDir) (name : String) (node : Node)
    (status : Nat) (s : Run) : Result :=
  if node.stat.st_dev = dev then lonesome intr dir name node status s else (none, s)

/-- The subtree dump of `twosome` for one side of a pair whose types differ:
`listSubdirs`, provided the entry is a directory on the root device of its side -/
def dumpStep (intr : Nat → Bool) (dev : Nat) (dir : SDir) (name : String) (node : Node)
    (status : Nat) (s : Run) : Result :=
  if S_ISDIR node.stat.st_mode then
    if node.stat.st_dev = dev then
      match SDir.sub dir name node with
      | .error e => (some e, s)
      | .ok sub => listSubdirs intr sub status s
    else (none, s)
  else (none, s)

/-- A name that `readdir` can deliver: it contains no `/` -/
def entryName (name : String) : Prop := '/' ∉ name.data

/-- Every path below a directory with the given relative path and listing, each entry
followed by the paths below it, in the order of the listings -/
def pathsBelow (path : String) : List (String × Node) → List String
  | [] => []
  | (name, .mk _ _ _ kids) :: rest =>
    (path ++ "/" ++ name) :: (pathsBelow (path ++ "/" ++ name) kids ++ pathsBelow path rest)

/-- The notifications of a full dump of an entry: one for its own path, then one for
every path below it, all with the same status -/
def dumpOf (path : String) (node : Node) (status : Nat) : List (String × Nat) :=
  (path :: pathsBelow path node.kids).map (fun p => (p, status))

/-- A listing in which, hereditarily, only directories have entries below them -/
inductive Proper : List (String × Node) → Prop
  | nil : Proper []
  | cons (name : String) (node : Node) (rest : List (String × Node)) :
      (S_ISDIR node.stat.st_mode = false → node.kids = []) → Proper node.kids → Proper rest →
      Proper ((name, node) :: rest)

/-- A listing in which, hereditarily, no directory lists a name twice and every name is
one that `readdir` can deliver -/
inductive GoodNames : List (String × Node) → Prop
  | nil : GoodNames []
  | cons (name : String) (node : Node) (rest : List (String × Node)) :
      entryName name → name ∉ rest.map Prod.fst → GoodNames node.kids → GoodNames rest →
      GoodNames ((name, node) :: rest)

/-- A listing in which, hereditarily, every directory can be opened and listed -/
inductive Readable : List (String × Node) → Prop
  | nil : Readable []
  | cons (name : String) (node : Node) (rest : List (String × Node)) :
      (S_ISDIR node.stat.st_mode = true → node.file.fd.isSome = true ∧ node.listable = true) →
      Readable node.kids → Readable rest → Readable ((name, node) :: rest)

/-- Two entries that are identical in what the comparison looks at: the same file type,
the same permission, set-id and sticky bits, the same owner and group; for regular
files the same size and the same bytes, which can be opened and read in full; for
symlinks the same target, which can be read (a symlink has a target that is not
empty); directories can be opened and listed.  Device, inode and modification time are
free, so that the two entries may or may not be the same inode. -/
def SameEntry (node1 node2 : Node) : Prop :=
  node1.stat.st_mode &&& S_IFMT = node2.stat.st_mode &&& S_IFMT ∧
  node1.stat.st_mode &&& permMask = node2.stat.st_mode &&& permMask ∧
  node1.stat.st_uid = node2.stat.st_uid ∧
  node1.stat.st_gid = node2.stat.st_gid ∧
  (node1.stat.st_mode &&& S_IFMT = S_IFREG →
    node1.stat.st_size = node2.stat.st_size ∧
    ∃ bytes, node1.file.fd = some bytes ∧ node2.file.fd = some bytes ∧
      bytes.length = node1.stat.st_size) ∧
  (node1.stat.st_mode &&& S_IFMT = S_IFLNK →
    ∃ t, t ≠ "" ∧ node1.file.target = some t ∧ node2.file.target = some t) ∧
  (node1.stat.st_mode &&& S_IFMT = S_IFDIR →
    node1.file.fd.isSome = true ∧ node2.file.fd.isSome = true ∧
    node1.listable = true ∧ node2.listable = true)

/-- Two listings that are identical: at every relative path both have an entry, and the
two entries are the same in the sense of `SameEntry` -/
inductive Identical : List (String × Node) → List (String × Node) → Prop
  | nil : Identical [] []
  | cons (name : String) (node1 node2 : Node) (rest1 rest2 : List (String × Node)) :
      SameEntry node1 node2 → Identical node1.kids node2.kids → Identical rest1 rest2 →
      Identical ((name, node1) :: rest1) ((name, node2) :: rest2)

/-- The notification the specification expects for one name of a pair of listings
without directories: DELETED for a name in the first listing only, CREATED for a name
in the second listing only, and for a name in both the status that `cmpFiles` computes,
provided it is not 0 -/
def classify (dir1 dir2 : SDir) (entries1 entries2 : List (String × Node)) (name : String) :
    Option (String × Nat) :=
  match entries1.lookup name, entries2.lookup name with
  | some _, none => some (dir1.fullname name, DELETED)
  | none, some _ => some (dir2.fullname name, CREATED)
  | some node1, some node2 =>
    match cmpFiles node1.file node1.stat node2.file node2.stat with
    | .ok status => if status ≠ 0 then some (dir1.fullname name, status) else none
    | .error _ => none
  | none, none => none

/-- The entries of a listing are not directories, have names that `readdir` can
deliver, and lie on the device `dev` -/
def FlatOn (dev : Nat) (entries : List (String × Node)) : Prop :=
  ∀ e ∈ entries, entryName e.1 ∧ S_ISDIR e.2.stat.st_mode = false ∧ e.2.stat.st_dev = dev

/-- The path `q` is the path of the entry `name` of the directory with path `dir`, or a
path below that entry -/
def InEntry (dir name q : String) : Prop :=
  q = dir ++ "/" ++ name ∨ ∃ r, q = dir ++ "/" ++ name ++ "/" ++ r

/-- The step `r` from the state `s` only appends to the log, and every path it notifies
satisfies `Q` -/
def Adds (Q : String → Prop) (s : Run) (r : Result) : Prop :=
  ∃ l, r.2.log = s.log ++ l ∧ ∀ x ∈ l, Q x.1

/-- The log `log'` continues the log `log` with the block `block`, before and after
which the part added holds no notification for a path of the block -/
def ContainsOnce (log log' block : List (String × Nat)) : Prop :=
  ∃ pre post, log' = log ++ pre ++ block ++ post ∧
    ∀ x ∈ pre ++ post, x.1 ∉ block.map Prod.fst

/-- The log `log'` continues the log `log` with the block `block`, before and after
which the part added only holds paths of entries of the directory `dir` other than
`name`, or below such entries -/
def IsolatedBlock (dir name : String) (log log' block : List (String × Nat)) : Prop :=
  ∃ pre post, log' = log ++ pre ++ block ++ post ∧
    ∀ x ∈ pre ++ post, ∃ m, m ≠ name ∧ entryName m ∧ InEntry dir m x.1

/-! ## Notions for the properties of whole runs

`cmpBlocksTrace` is the loop of `cmpFilesContentReg` once more, with a record of the
blocks it begins; its result is proved equal to the one of `cmpBlocks`.  The rest are
notions of the specification: the statuses it allows, what the statements of the walker
keep, a run set against the run that is never interrupted, a run with the two roots
exchanged, ascending listings and the chain of names that leads to a path. -/

/-- A property `I s r` of a step that takes a run from the state `s` to the result `r`
and that the statements of the walker keep: it holds of a step that does nothing or
throws something other than `LogicErrorException` on the spot, and it is kept when the
step is preceded by an interruption point that is passed, preceded by a notification
with a status satisfying `OK`, or followed by another such step -/
structure Preserved (OK : Nat → Prop) (I : Run → Result → Prop) : Prop where
  done : ∀ (o : Option Exception) (s : Run), o ≠ some .LogicErrorException → I s (o, s)
  visit : ∀ (s : Run) (r : Result), I { s with visits := s.visits + 1 } r → I s r
  notify : ∀ (s : Run) (path : String) (status : Nat) (r : Result),
    OK status → I (s.cb path status) r → I s r
  seq : ∀ (s : Run) (r : Result) (k : Run → Result),
    I s r → (∀ s1, I s1 (k s1)) → I s (r.andThen k)

/-- A status as the specification allows it: exactly CREATED, exactly DELETED, or a
set of flags among TYPE, CONTENT, PERMISSIONS, USER and GROUP -/
def StatusOk (status : Nat) : Prop :=
  status = CREATED ∨ status = DELETED ∨
    status &&& (TYPE ||| CONTENT ||| PERMISSIONS ||| USER ||| GROUP) = status

/-- The `while (length > 0)` loop of `cmpFilesContentReg` with a record of its
iterations: the variable `equal` on leaving the loop, as `cmpBlocks` computes it, and
the block size `t` of every iteration the loop began, in order -/
def cmpBlocksTrace (fd1 fd2 : List Nat) (length : Nat) : Bool × List Nat :=
  if 0 < length then
    let t := min block_size length
    let r1 := read fd1 t
    if r1.1 ≠ t then (false, [t])
    else
      let r2 := read fd2 t
      if r2.1 ≠ t then (false, [t])
      else if r1.2.1 ≠ r2.2.1 then (false, [t])
      else
        let r := cmpBlocksTrace r1.2.2 r2.2.2 (length - t)
        (r.1, t :: r.2)
  else (true, [])
termination_by length
decreasing_by
  simp only [block_size]
  omega

/-- The block sizes of a comparison of `length` bytes that runs to the end: each block
has `min(4096, remaining)` bytes -/
def blockSizes (length : Nat) : List Nat :=
  if 0 < length then min block_size length :: blockSizes (length - min block_size length)
  else []
termination_by length
decreasing_by
  simp only [block_size]
  omega

/-- The result `r` of a call under the interruption request `intr`, entered in the state
`s`, set against the result `r0` of the same call when no interruption is ever
requested.  The uninterrupted call only appends to the log and only passes further
interruption points.  Either the request is pending at none of the interruption points
the uninterrupted call passes, and the two results are the same; or `r` is the
interruption, thrown at an interruption point that the uninterrupted call passes, the
first one at which the request is pending, with a log that is a beginning of the log of
the uninterrupted call. -/
def Cancels (intr : Nat → Bool) (s : Run) (r0 r : Result) : Prop :=
  s.visits ≤ r0.2.visits ∧ (∃ l, r0.2.log = s.log ++ l) ∧
  ((r = r0 ∧ ∀ n, s.visits ≤ n → n < r0.2.visits → intr n = false) ∨
   (r.1 = some .thread_interrupted ∧ intr r.2.visits = true ∧
    (∀ n, s.visits ≤ n → n < r.2.visits → intr n = false) ∧
    s.visits ≤ r.2.visits ∧ r.2.visits < r0.2.visits ∧
    (∃ l, r.2.log = s.log ++ l) ∧ ∃ l, r0.2.log = r.2.log ++ l))

/-- An interruption is requested once exactly `k` interruption points have been passed -/
def firesAt (k : Nat) : Nat → Bool := fun n => decide (n = k)

/-- The status with CREATED and DELETED exchanged; every other status is unchanged -/
def swapStatus (status : Nat) : Nat :=
  if status = CREATED then DELETED else if status = DELETED then CREATED else status

/-- The state of a run with CREATED and DELETED exchanged in every notification: the same
paths in the same order -/
def Run.mirror (s : Run) : Run :=
  { s with log := s.log.map (fun x => (x.1, swapStatus x.2)) }

/-- The result of a run with CREATED and DELETED exchanged in every notification -/
def Result.mirror (r : Result) : Result := (r.1, r.2.mirror)

/-- The recorded root devices with the two roots exchanged -/
def CmpData.swap (cmp_data : CmpData) : CmpData := ⟨cmp_data.dev2, cmp_data.dev1⟩

/-- A listing in which, hereditarily, every name is one that `readdir` can deliver and
the names are strictly ascending, as `SDir::entries` returns them -/
inductive Ascending : List (String × Node) → Prop
  | nil : Ascending []
  | cons (name : String) (node : Node) (rest : List (String × Node)) :
      entryName name → (∀ m ∈ rest.map Prod.fst, name < m) → Ascending node.kids →
      Ascending rest → Ascending ((name, node) :: rest)

/-- The names on the way from a listing down to an entry of its tree: the name of an
entry of the listing, then the name of an entry of that entry, and so on -/
inductive Chain : List (String × Node) → List String → Prop
  | entry (entries : List (String × Node)) (name : String) (node : Node) :
      (name, node) ∈ entries → Chain entries [name]
  | step (entries : List (String × Node)) (name : String) (node : Node)
      (chain : List String) :
      (name, node) ∈ entries → Chain node.kids chain → Chain entries (name :: chain)

/-- The path that a chain of names leads to from the directory with the given path: the
names, each preceded by `/` -/
def joinPath (path : String) : List String → String
  | [] => path
  | name :: chain => joinPath (path ++ "/" ++ name) chain

/-- The path `q` is the path of an entry in the tree of the listing below the directory
with the given path -/
def ChainPath (path : String) (entries : List (String × Node)) (q : String) : Prop :=
  ∃ chain, Chain entries chain ∧ q = joinPath path chain

/-- The step `r` from the state `s` only appends to the log, the paths it notifies
satisfy `Q`, and it notifies no path twice -/
def AddsOnce (Q : String → Prop) (s : Run) (r : Result) : Prop :=
  ∃ l, r.2.log = s.log ++ l ∧ (l.map Prod.fst).Nodup ∧ ∀ x ∈ l, Q x.1

/-! ## Concrete inputs -/

/-- A regular file entry with mode 0644: device, inode, owner, modification time
(seconds) and bytes -/
def regular (dev ino uid : Nat) (sec : Int) (bytes : List Nat) : Node :=
  .mk ⟨dev, ino, 0o100644, uid, 0, bytes.length, sec, 0⟩ ⟨some bytes, none⟩ false []

/-- A symlink entry: device, inode, modification time (seconds) and target -/
def symlink (dev ino : Nat) (sec : Int) (target : String) : Node :=
  .mk ⟨dev, ino, 0o120777, 0, 0, target.length, sec, 0⟩ ⟨none, some target⟩ false []

/-- A directory entry with mode 0755 that can be opened and listed: device, inode and
listing -/
def directory (dev ino : Nat) (kids : List (String × Node)) : Node :=
  .mk ⟨dev, ino, 0o040755, 0, 0, 4096, 0, 0⟩ ⟨some [], none⟩ true kids

/-- An open root directory on the given device with the given listing -/
def rootDir (dev : Nat) (kids : List (String × Node)) : SDir :=
  ⟨"", some ⟨dev, 2, 0o040755, 0, 0, 4096, 0, 0⟩, true, kids⟩

/-- No interruption is ever requested -/
def never : Nat → Bool := fun _ => false

/-- The state before a run -/
def start : Run := ⟨[], 0⟩

/-- A tree with a directory `d` holding a file `f`, a hard link `h` and a symlink `l` -/
def c1_dir1 : SDir :=
  rootDir 1 [("d", directory 1 5 [("f", regular 1 6 0 5 [1, 2])]),
    ("h", regular 1 8 0 5 [3]), ("l", symlink 1 7 5 "t")]

/-- A copy of the tree `c1_dir1` on the same device, made later: `f` and `l` are new
inodes with later modification times, `h` is the same inode as on the first side -/
def c1_dir2 : SDir :=
  rootDir 1 [("d", directory 1 15 [("f", regular 1 16 0 9 [1, 2])]),
    ("h", regular 1 8 0 5 [3]), ("l", symlink 1 17 9 "t")]

/-- The first root of the example of the specification: `a`, `b`, `c` -/
def c2_dir1 : SDir :=
  rootDir 1 [("a", regular 1 10 0 5 [1]), ("b", regular 1 11 0 5 [1]),
    ("c", regular 1 12 0 5 [1])]

/-- The second root of the example of the specification: `a` (with another owner), `c`
(with another byte, modified later), `d` -/
def c2_dir2 : SDir :=
  rootDir 2 [("a", regular 2 10 7 5 [1]), ("c", regular 2 12 0 6 [2]),
    ("d", regular 2 13 0 5 [1])]

/-- A tree with a directory `b` holding a file `f` and a directory `g` with a file `h` -/
def c3_dir1 : SDir :=
  rootDir 1 [("b", directory 1 20 [("f", regular 1 21 0 5 [1]),
    ("g", directory 1 22 [("h", regular 1 23 0 5 [1])])])]

/-- An empty tree -/
def c3_dir2 : SDir := rootDir 2 []

/-- An empty tree on device 1 -/
def c4_dir1 : SDir := rootDir 1 []

/-- A tree on device 2 with a directory `d`; below it the directory `m` is a mount
point of device 99 and holds a file `f` of that device -/
def c4_dir2 : SDir :=
  rootDir 2 [("d", directory 2 5 [("m", directory 99 1 [("f", regular 99 12 0 5 [1])])])]

/-- A regular file of 5 bytes, modified at second 100 -/
def c6_stat1 : Stat := ⟨1, 10, 0o100644, 0, 0, 5, 100, 0⟩

/-- A regular file of 7 bytes, modified at second 100 -/
def c6_stat2 : Stat := ⟨2, 10, 0o100644, 0, 0, 7, 100, 0⟩

/-- A regular file of 7 bytes, modified at second 101 -/
def c6_stat3 : Stat := ⟨2, 10, 0o100644, 0, 0, 7, 101, 0⟩

/-- A regular file, inode 10 on device 1, 5 bytes, modified at second 100 -/
def c7_stat1 : Stat := ⟨1, 10, 0o100644, 0, 0, 5, 100, 0⟩

/-- The same inode, stat'ed after it grew to 7 bytes, modified at second 101 -/
def c7_stat2 : Stat := ⟨1, 10, 0o100644, 0, 0, 7, 101, 0⟩

/-- The same inode as `c7_stat1`, same size, modified at second 101 -/
def c7_stat3 : Stat := ⟨1, 10, 0o100644, 0, 0, 5, 101, 0⟩

/-- A symlink, inode 11 on device 1, modified at second 100 -/
def c7_lnk1 : Stat := ⟨1, 11, 0o120777, 0, 0, 1, 100, 0⟩

/-- The same symlink inode with the modification time 101 -/
def c7_lnk2 : Stat := ⟨1, 11, 0o120777, 0, 0, 1, 101, 0⟩

/-- A regular file of 3 bytes on device 1, modified at second 100 -/
def c8_stat1 : Stat := ⟨1, 10, 0o100644, 0, 0, 3, 100, 0⟩

/-- A regular file of 3 bytes on device 2, modified at second 101 -/
def c8_stat2 : Stat := ⟨2, 10, 0o100644, 0, 0, 3, 101, 0⟩

/-- A link target of 1025 bytes: 1024 times `a`, then the given last byte -/
def c9_target (last : Char) : String := String.mk (List.replicate 1024 'a' ++ [last])

/-- A symlink modified at second 100 -/
def c9_stat1 : Stat := ⟨1, 20, 0o120777, 0, 0, 1025, 100, 0⟩

/-- A symlink modified at second 101 -/
def c9_stat2 : Stat := ⟨2, 20, 0o120777, 0, 0, 1025, 101, 0⟩

/-- A base path below which only the name `f` resolves, to a regular file -/
def c10_base (uid : Nat) : BasePath :=
  ⟨true, fun name => if name = "f" then some (⟨1, 10, 0o100644, uid, 0, 3, 100, 0⟩, ⟨none, none⟩)
    else none⟩

/-- A base path below which no name resolves -/
def c10_empty : BasePath := ⟨true, fun _ => none⟩

/-- A base path that cannot be opened, so that no name resolves below it -/
def c10_closed : BasePath := ⟨false, fun _ => none⟩

/-- A tree on device 1 with the directory `.snapshots`, which holds the directory `1`, and
a file `a` -/
def c11_dir1 : SDir :=
  rootDir 1 [(".snapshots", directory 1 5 [("1", directory 1 6 [])]),
    ("a", regular 1 10 0 5 [1])]

/-- A tree on device 1 with the file `a` only, the same inode as in `c11_dir1` -/
def c11_dir2 : SDir := rootDir 1 [("a", regular 1 10 0 5 [1])]

/-- A tree on device 1 with the directory `.snapshots`, which holds the directory `2` -/
def c11_dir3 : SDir := rootDir 1 [(".snapshots", directory 1 5 [("2", directory 1 7 [])])]

/-- A character device node, mode 0600 -/
def c19_chr (dev ino : Nat) (sec : Int) : Stat := ⟨dev, ino, 0o020600, 0, 0, 0, sec, 0⟩

/-- A directory `x` under root 1 that holds a file `f` and a directory `g` with a file
`h` -/
def c12_node1 : Node :=
  directory 1 20 [("f", regular 1 21 0 5 [1]), ("g", directory 1 22 [("h", regular 1 23 0 5 [1])])]

/-- A regular file `x` under root 2 -/
def c12_node2 : Node := regular 2 30 0 5 [1]

/-- A regular file of 5000 bytes, modified at second 100 -/
def c16_stat1 : Stat := ⟨1, 10, 0o100644, 0, 0, 5000, 100, 0⟩

/-- A regular file of 5000 bytes on another device, modified at second 101 -/
def c16_stat2 : Stat := ⟨2, 10, 0o100644, 0, 0, 5000, 101, 0⟩

/-! ## Theorems -/

/-! ### The status classifier -/

theorem xor_and_ne_zero_iff (m1 m2 mask : Nat) :
    (m1 ^^^ m2) &&& mask ≠ 0 ↔ ∃ i, mask.testBit i = true ∧ m1.testBit i ≠ m2.testBit i := by
  constructor
  · intro h
    obtain ⟨i, hi⟩ := Nat.ne_zero_implies_bit_true h
    rw [Nat.testBit_and, Nat.testBit_xor] at hi
    refine ⟨i, ?_, ?_⟩
    · cases hm : mask.testBit i <;> simp_all
    · intro heq
      simp [heq] at hi
  · rintro ⟨i, hm, hne⟩ h0
    have : ((m1 ^^^ m2) &&& mask).testBit i = false := by rw [h0]; simp
    rw [Nat.testBit_and, Nat.testBit_xor, hm] at this
    cases h1 : m1.testBit i <;> cases h2 : m2.testBit i <;> simp_all

theorem cmpFilesContent_of_type_eq (file1 file2 : SFile) (stat1 stat2 : Stat)
    (h : stat1.st_mode &&& S_IFMT = stat2.st_mode &&& S_IFMT) :
    ∃ b, cmpFilesContent file1 stat1 file2 stat2 = .ok b := by
  unfold cmpFilesContent
  simp only [h, ne_eq, not_true_eq_false, if_false]
  split
  · exact ⟨_, rfl⟩
  · split
    · exact ⟨_, rfl⟩
    · exact ⟨_, rfl⟩

theorem flag_bits (t c p u g : Bool) :
    ((flagIf t TYPE ||| flagIf c CONTENT ||| flagIf p PERMISSIONS ||| flagIf u USER |||
        flagIf g GROUP) &&& TYPE ≠ 0 ↔ t = true) ∧
    ((flagIf t TYPE ||| flagIf c CONTENT ||| flagIf p PERMISSIONS ||| flagIf u USER |||
        flagIf g GROUP) &&& CONTENT ≠ 0 ↔ c = true) ∧
    ((flagIf t TYPE ||| flagIf c CONTENT ||| flagIf p PERMISSIONS ||| flagIf u USER |||
        flagIf g GROUP) &&& PERMISSIONS ≠ 0 ↔ p = true) ∧
    ((flagIf t TYPE ||| flagIf c CONTENT ||| flagIf p PERMISSIONS ||| flagIf u USER |||
        flagIf g GROUP) &&& USER ≠ 0 ↔ u = true) ∧
    ((flagIf t TYPE ||| flagIf c CONTENT ||| flagIf p PERMISSIONS ||| flagIf u USER |||
        flagIf g GROUP) &&& GROUP ≠ 0 ↔ g = true) ∧
    (flagIf t TYPE ||| flagIf c CONTENT ||| flagIf p PERMISSIONS ||| flagIf u USER |||
        flagIf g GROUP) &&& (TYPE ||| CONTENT ||| PERMISSIONS ||| USER ||| GROUP) =
      (flagIf t TYPE ||| flagIf c CONTENT ||| flagIf p PERMISSIONS ||| flagIf u USER |||
        flagIf g GROUP) := by
  cases t <;> cases c <;> cases p <;> cases u <;> cases g <;> decide


theorem cmpFiles_val (file1 file2 : SFile) (stat1 stat2 : Stat) (t c p u g : Bool)
    (ht : t = true ↔ stat1.st_mode &&& S_IFMT ≠ stat2.st_mode &&& S_IFMT)
    (hc : c = true ↔ (stat1.st_mode &&& S_IFMT = stat2.st_mode &&& S_IFMT ∧
          cmpFilesContent file1 stat1 file2 stat2 = .ok false))
    (hp : p = true ↔ (stat1.st_mode ^^^ stat2.st_mode) &&& permMask ≠ 0)
    (hu : u = true ↔ stat1.st_uid ≠ stat2.st_uid)
    (hg : g = true ↔ stat1.st_gid ≠ stat2.st_gid) :
    cmpFiles file1 stat1 file2 stat2 = .ok
      (flagIf t TYPE ||| flagIf c CONTENT ||| flagIf p PERMISSIONS ||| flagIf u USER |||
        flagIf g GROUP) := by
  unfold cmpFiles
  by_cases h : stat1.st_mode &&& S_IFMT = stat2.st_mode &&& S_IFMT
  · obtain ⟨b, hb⟩ := cmpFilesContent_of_type_eq file1 file2 stat1 stat2 h
    have ht' : t = false := by cases t <;> simp_all
    have hc' : c = !b := by cases c <;> cases b <;> simp_all
    subst ht' hc'
    cases p <;> cases u <;> cases g <;> cases b <;> simp_all [flagIf]
  · have ht' : t = true := by cases t <;> simp_all
    have hc' : c = false := by cases c <;> simp_all
    subst ht' hc'
    cases p <;> cases u <;> cases g <;> simp_all [flagIf]

theorem exists_bool_iff (P : Prop) : ∃ b : Bool, b = true ↔ P := by
  by_cases h : P
  · exact ⟨true, by simp [h]⟩
  · exact ⟨false, by simp [h]⟩

/-- C5: for every pair of stat snapshots (and file references) the matched-metadata
`cmpFiles` returns a status, without raising, in which TYPE is set iff the `S_IFMT`
bits differ; CONTENT is set iff the type bits are equal and `cmpFilesContent` reports
inequality; PERMISSIONS is set iff the modes differ in some bit of
`S_IRWXU|S_IRWXG|S_IRWXO|S_ISUID|S_ISGID|S_ISVTX`; USER is set iff the uids differ;
GROUP is set iff the gids differ; no bit outside these five is set; and TYPE and
CONTENT are never set together. -/
theorem C5_cmpFiles_bitmask (file1 file2 : SFile) (stat1 stat2 : Stat) :
    ∃ status, cmpFiles file1 stat1 file2 stat2 = .ok status ∧
      (status &&& TYPE ≠ 0 ↔ stat1.st_mode &&& S_IFMT ≠ stat2.st_mode &&& S_IFMT) ∧
      (status &&& CONTENT ≠ 0 ↔
        (stat1.st_mode &&& S_IFMT = stat2.st_mode &&& S_IFMT ∧
          cmpFilesContent file1 stat1 file2 stat2 = .ok false)) ∧
      (status &&& PERMISSIONS ≠ 0 ↔
        ∃ i, (S_IRWXU ||| S_IRWXG ||| S_IRWXO ||| S_ISUID ||| S_ISGID ||| S_ISVTX).testBit i
            = true ∧ stat1.st_mode.testBit i ≠ stat2.st_mode.testBit i) ∧
      (status &&& USER ≠ 0 ↔ stat1.st_uid ≠ stat2.st_uid) ∧
      (status &&& GROUP ≠ 0 ↔ stat1.st_gid ≠ stat2.st_gid) ∧
      status &&& (TYPE ||| CONTENT ||| PERMISSIONS ||| USER ||| GROUP) = status ∧
      ¬ (status &&& TYPE ≠ 0 ∧ status &&& CONTENT ≠ 0) := by
  obtain ⟨t, ht⟩ := exists_bool_iff (stat1.st_mode &&& S_IFMT ≠ stat2.st_mode &&& S_IFMT)
  obtain ⟨c, hc⟩ := exists_bool_iff (stat1.st_mode &&& S_IFMT = stat2.st_mode &&& S_IFMT ∧
    cmpFilesContent file1 stat1 file2 stat2 = .ok false)
  obtain ⟨p, hp⟩ := exists_bool_iff ((stat1.st_mode ^^^ stat2.st_mode) &&& permMask ≠ 0)
  obtain ⟨u, hu⟩ := exists_bool_iff (stat1.st_uid ≠ stat2.st_uid)
  obtain ⟨g, hg⟩ := exists_bool_iff (stat1.st_gid ≠ stat2.st_gid)
  refine ⟨_, cmpFiles_val file1 file2 stat1 stat2 t c p u g ht hc hp hu hg, ?_⟩
  obtain ⟨bt, bc, bp, bu, bg, bm⟩ := flag_bits t c p u g
  refine ⟨bt.trans ht, bc.trans hc, ?_, bu.trans hu, bg.trans hg, bm, ?_⟩
  · rw [bp, hp]
    exact xor_and_ne_zero_iff _ _ _
  · rw [bt, bc, ht, hc]
    rintro ⟨h1, h2, -⟩
    exact h1 h2

/-! ### The block comparison loop -/

theorem read_count (fd : List Nat) (t : Nat) : (read fd t).1 = min t fd.length := by
  simp [read, List.length_take]

theorem cmpBlocks_short (n : Nat) : ∀ fd1 fd2 : List Nat,
    (fd1.length < n ∨ fd2.length < n) → cmpBlocks fd1 fd2 n = false := by
  induction n using Nat.strong_induction_on with
  | _ n ih =>
    intro fd1 fd2 h
    rw [cmpBlocks]
    have hn : 0 < n := by omega
    simp only [hn, if_true, read_count]
    by_cases h1 : min (min block_size n) fd1.length = min block_size n
    · by_cases h2 : min (min block_size n) fd2.length = min block_size n
      · simp only [h1, h2, ne_eq, not_true_eq_false, if_false]
        split
        · rfl
        · apply ih
          · simp only [block_size]; omega
          · simp only [read, List.length_drop]
            simp only [block_size] at h1 h2 ⊢
            omega
      · simp only [h1, h2, ne_eq, not_true_eq_false, not_false_eq_true, if_true, if_false]
    · simp only [h1, ne_eq, not_false_eq_true, if_true]

theorem take_eq_take_iff (l1 l2 : List Nat) (t n : Nat) (ht : t ≤ n) :
    l1.take n = l2.take n ↔
      (l1.take t = l2.take t ∧ (l1.drop t).take (n - t) = (l2.drop t).take (n - t)) := by
  have e1 : l1.take n = l1.take t ++ (l1.drop t).take (n - t) := by
    conv_lhs => rw [show n = t + (n - t) by omega]
    rw [List.take_add]
  have e2 : l2.take n = l2.take t ++ (l2.drop t).take (n - t) := by
    conv_lhs => rw [show n = t + (n - t) by omega]
    rw [List.take_add]
  constructor
  · intro h
    have ht1 : l1.take t = l2.take t := by
      have := congrArg (List.take t) h
      simpa [List.take_take, Nat.min_eq_left ht] using this
    refine ⟨ht1, ?_⟩
    have := congrArg (List.drop t) h
    simpa [List.drop_take] using this
  · rintro ⟨h1, h2⟩
    rw [e1, e2, h1, h2]

theorem cmpBlocks_full (n : Nat) : ∀ fd1 fd2 : List Nat,
    n ≤ fd1.length → n ≤ fd2.length →
    cmpBlocks fd1 fd2 n = decide (fd1.take n = fd2.take n) := by
  induction n using Nat.strong_induction_on with
  | _ n ih =>
    intro fd1 fd2 h1 h2
    rw [cmpBlocks]
    by_cases hn : 0 < n
    · have e1 : min (min block_size n) fd1.length = min block_size n := by omega
      have e2 : min (min block_size n) fd2.length = min block_size n := by omega
      simp only [hn, if_true, read_count, e1, e2, ne_eq, not_true_eq_false, if_false]
      have key := take_eq_take_iff fd1 fd2 (min block_size n) n (by omega)
      by_cases hb : fd1.take (min block_size n) = fd2.take (min block_size n)
      · have hrec := ih (n - min block_size n) (by simp only [block_size]; omega)
          (fd1.drop (min block_size n)) (fd2.drop (min block_size n))
          (by simp only [List.length_drop]; omega) (by simp only [List.length_drop]; omega)
        simp only [read, hb, not_true_eq_false, if_false, hrec]
        simp only [key, hb, true_and]
      · simp only [read, hb, not_false_eq_true, if_true]
        simp [key, hb]
    · have : n = 0 := by omega
      subst this
      simp

/-! ### Content comparison by type -/

theorem cmpFilesContent_reg (file1 file2 : SFile) (stat1 stat2 : Stat)
    (h1 : stat1.st_mode &&& S_IFMT = S_IFREG) (h2 : stat2.st_mode &&& S_IFMT = S_IFREG) :
    cmpFilesContent file1 stat1 file2 stat2 = .ok (cmpFilesContentReg file1 stat1 file2 stat2) := by
  simp [cmpFilesContent, h1, h2]

theorem cmpFilesContent_lnk (file1 file2 : SFile) (stat1 stat2 : Stat)
    (h1 : stat1.st_mode &&& S_IFMT = S_IFLNK) (h2 : stat2.st_mode &&& S_IFMT = S_IFLNK) :
    cmpFilesContent file1 stat1 file2 stat2 = .ok (cmpFilesContentLnk file1 stat1 file2 stat2) := by
  have : S_IFLNK ≠ S_IFREG := by decide
  simp [cmpFilesContent, h1, h2, this]


/-- The CONTENT bit of the status of `cmpFiles`, read off the content comparison -/
theorem cmpFiles_content_bit (file1 file2 : SFile) (stat1 stat2 : Stat) (b : Bool)
    (ht : stat1.st_mode &&& S_IFMT = stat2.st_mode &&& S_IFMT)
    (hb : cmpFilesContent file1 stat1 file2 stat2 = .ok b) :
    ∃ status, cmpFiles file1 stat1 file2 stat2 = .ok status ∧
      (status &&& CONTENT ≠ 0 ↔ b = false) := by
  obtain ⟨p, hp⟩ := exists_bool_iff ((stat1.st_mode ^^^ stat2.st_mode) &&& permMask ≠ 0)
  obtain ⟨u, hu⟩ := exists_bool_iff (stat1.st_uid ≠ stat2.st_uid)
  obtain ⟨g, hg⟩ := exists_bool_iff (stat1.st_gid ≠ stat2.st_gid)
  refine ⟨_, cmpFiles_val file1 file2 stat1 stat2 false (!b) p u g (by simp [ht])
    (by cases b <;> simp [ht, hb]) hp hu hg, ?_⟩
  rw [(flag_bits false (!b) p u g).2.1]
  cases b <;> simp

/-- C6 fails as stated: two regular files of different sizes (5 and 7 bytes) whose
modification times are exactly equal get the status 0 from `cmpFiles`, without the
CONTENT bit. -/
theorem C6_counterexample :
    c6_stat1.st_mode &&& S_IFMT = S_IFREG ∧ c6_stat2.st_mode &&& S_IFMT = S_IFREG ∧
    c6_stat1.st_size ≠ c6_stat2.st_size ∧
    cmpFiles ⟨some [1, 2, 3, 4, 5], none⟩ c6_stat1 ⟨some [1, 2, 3, 4, 5, 6, 7], none⟩ c6_stat2
      = .ok 0 ∧
    0 &&& CONTENT = 0 := by
  refine ⟨by decide, by decide, by decide, ?_, by decide⟩
  rfl

/-- C6 (amended): for every pair of regular-file entries whose stat snapshots have
different sizes, `cmpFiles` returns a status, and its CONTENT bit is set if and only if
the two modification times differ (in the seconds or in the nanoseconds). -/
theorem C6_size_differs (file1 file2 : SFile) (stat1 stat2 : Stat)
    (h1 : stat1.st_mode &&& S_IFMT = S_IFREG) (h2 : stat2.st_mode &&& S_IFMT = S_IFREG)
    (hsize : stat1.st_size ≠ stat2.st_size) :
    ∃ status, cmpFiles file1 stat1 file2 stat2 = .ok status ∧
      (status &&& CONTENT ≠ 0 ↔
        ¬ (stat1.tv_sec = stat2.tv_sec ∧ stat1.tv_nsec = stat2.tv_nsec)) := by
  obtain ⟨status, hs, hc⟩ := cmpFiles_content_bit file1 file2 stat1 stat2 _ (by rw [h1, h2])
    (cmpFilesContent_reg file1 file2 stat1 stat2 h1 h2)
  refine ⟨status, hs, ?_⟩
  rw [hc]
  unfold cmpFilesContentReg
  by_cases hm : stat1.tv_sec = stat2.tv_sec ∧ stat1.tv_nsec = stat2.tv_nsec
  · simp [hm]
  · simp [hm, hsize]

theorem C6_size_differs_witness :
    c6_stat1.st_mode &&& S_IFMT = S_IFREG ∧ c6_stat3.st_mode &&& S_IFMT = S_IFREG ∧
    c6_stat1.st_size ≠ c6_stat3.st_size ∧
    ∃ status, cmpFiles ⟨none, none⟩ c6_stat1 ⟨none, none⟩ c6_stat3 = .ok status ∧
      (status &&& CONTENT ≠ 0 ↔
        ¬ (c6_stat1.tv_sec = c6_stat3.tv_sec ∧ c6_stat1.tv_nsec = c6_stat3.tv_nsec)) :=
  ⟨by decide, by decide, by decide,
    C6_size_differs ⟨none, none⟩ ⟨none, none⟩ c6_stat1 c6_stat3 (by decide) (by decide)
      (by decide)⟩

/-- C7 fails as stated on two points.  Regular files: two snapshots of one inode
(same `st_dev`, same `st_ino`) that differ in size and modification time are reported
unequal, because the size test comes before the inode test.  Symlinks: the inode is
not consulted at all; for two snapshots of one symlink inode with different
modification times the answer depends on what `readlinkat` delivers. -/
theorem C7_counterexample :
    (c7_stat1.st_mode &&& S_IFMT = c7_stat2.st_mode &&& S_IFMT ∧
      c7_stat1.st_dev = c7_stat2.st_dev ∧ c7_stat1.st_ino = c7_stat2.st_ino ∧
      cmpFilesContent ⟨some [1, 2, 3, 4, 5], none⟩ c7_stat1
        ⟨some [1, 2, 3, 4, 5, 6, 7], none⟩ c7_stat2 = .ok false) ∧
    (c7_lnk1.st_mode &&& S_IFMT = c7_lnk2.st_mode &&& S_IFMT ∧
      c7_lnk1.st_dev = c7_lnk2.st_dev ∧ c7_lnk1.st_ino = c7_lnk2.st_ino ∧
      cmpFilesContent ⟨none, some "t"⟩ c7_lnk1 ⟨none, none⟩ c7_lnk2 = .ok false ∧
      cmpFilesContent ⟨none, some "t"⟩ c7_lnk1 ⟨none, some "t"⟩ c7_lnk2 = .ok true) := by
  refine ⟨⟨by decide, by decide, by decide, ?_⟩, ⟨by decide, by decide, by decide, ?_, ?_⟩⟩
  · rfl
  · rfl
  · rfl

/-- C7 (amended): for every pair of entries of the same type other than symlink whose
stat snapshots have the same `(st_dev, st_ino)` and, when they are regular files with
different modification times, the same size, `cmpFilesContent` returns equal and the
status of `cmpFiles` has no CONTENT bit, even when the modification times differ; it
does so whatever opening and reading the two files would answer, so neither file is
opened or read. -/
theorem C7_same_inode (file1 file2 : SFile) (stat1 stat2 : Stat)
    (htype : stat1.st_mode &&& S_IFMT = stat2.st_mode &&& S_IFMT)
    (hlnk : stat1.st_mode &&& S_IFMT ≠ S_IFLNK)
    (hdev : stat1.st_dev = stat2.st_dev) (hino : stat1.st_ino = stat2.st_ino)
    (hsize : stat1.st_mode &&& S_IFMT = S_IFREG →
      (stat1.tv_sec = stat2.tv_sec ∧ stat1.tv_nsec = stat2.tv_nsec) ∨
        stat1.st_size = stat2.st_size) :
    cmpFilesContent file1 stat1 file2 stat2 = .ok true ∧
    ∃ status, cmpFiles file1 stat1 file2 stat2 = .ok status ∧ status &&& CONTENT = 0 := by
  have hcontent : cmpFilesContent file1 stat1 file2 stat2 = .ok true := by
    unfold cmpFilesContent
    simp only [htype, ne_eq, not_true_eq_false, if_false]
    rw [← htype]
    by_cases hreg : stat1.st_mode &&& S_IFMT = S_IFREG
    · simp only [hreg, if_true]
      unfold cmpFilesContentReg
      rcases hsize hreg with hm | hs
      · rw [if_pos hm]
      · simp [hs, hdev, hino]
    · simp [hreg, hlnk]
  refine ⟨hcontent, ?_⟩
  obtain ⟨status, hs, hbit⟩ := cmpFiles_content_bit file1 file2 stat1 stat2 true htype hcontent
  refine ⟨status, hs, ?_⟩
  by_contra h
  exact absurd (hbit.1 h) (by decide)

/-- C7 (amended), applied to two snapshots of one regular file of the same size with
different modification times, with file references that cannot be opened -/
theorem C7_same_inode_witness :
    c7_stat1.st_mode &&& S_IFMT = c7_stat3.st_mode &&& S_IFMT ∧
    c7_stat1.st_mode &&& S_IFMT ≠ S_IFLNK ∧
    c7_stat1.st_dev = c7_stat3.st_dev ∧ c7_stat1.st_ino = c7_stat3.st_ino ∧
    c7_stat1.tv_sec ≠ c7_stat3.tv_sec ∧ c7_stat1.st_size = c7_stat3.st_size ∧
    cmpFilesContent ⟨none, none⟩ c7_stat1 ⟨none, none⟩ c7_stat3 = .ok true ∧
    ∃ status, cmpFiles ⟨none, none⟩ c7_stat1 ⟨none, none⟩ c7_stat3 = .ok status ∧
      status &&& CONTENT = 0 :=
  ⟨by decide, by decide, by decide, by decide, by decide, by decide,
    C7_same_inode ⟨none, none⟩ ⟨none, none⟩ c7_stat1 c7_stat3 (by decide) (by decide)
      (by decide) (by decide) (fun _ => Or.inr (by decide))⟩

/-! ### Unfolding `listSubdirs` -/

theorem listSubdirs_eq (intr : Nat → Bool) (dir : SDir) (status : Nat) (s : Run) :
    listSubdirs intr dir status s =
      if intr s.visits then (some .thread_interrupted, s)
      else if dir.listable then
        listSubdirsLoop intr dir dir.kids status { s with visits := s.visits + 1 }
      else (some .IOErrorException, { s with visits := s.visits + 1 }) := by
  rw [listSubdirs]
  unfold interruption_point
  by_cases hi : intr s.visits = true
  · simp [hi]
  · simp only [hi, if_false, Bool.false_eq_true]
    split
    · rename_i e h
      unfold SDir.entries at h
      by_cases hl : dir.listable = true
      · simp [hl] at h
      · simp only [hl, if_false, Bool.false_eq_true] at h ⊢
        cases h
        rfl
    · rename_i entries h
      unfold SDir.entries at h
      by_cases hl : dir.listable = true
      · simp only [hl, if_true] at h ⊢
        cases h
        rfl
      · simp [hl] at h

theorem listSubdirsLoop_nil (intr : Nat → Bool) (dir : SDir) (status : Nat) (s : Run) :
    listSubdirsLoop intr dir [] status s = (none, s) := by
  rw [listSubdirsLoop]

theorem listSubdirsLoop_cons (intr : Nat → Bool) (dir : SDir) (name : String) (node : Node)
    (rest : List (String × Node)) (status : Nat) (s : Run) :
    listSubdirsLoop intr dir ((name, node) :: rest) status s =
      if S_ISDIR node.stat.st_mode then
        if node.file.fd.isSome then
          (listSubdirs intr ⟨dir.fullname name, some node.stat, node.listable, node.kids⟩ status
            (s.cb (dir.fullname name) status)).andThen (listSubdirsLoop intr dir rest status)
        else (some .IOErrorException, s.cb (dir.fullname name) status)
      else listSubdirsLoop intr dir rest status (s.cb (dir.fullname name) status) := by
  rw [listSubdirsLoop]
  by_cases hd : S_ISDIR node.stat.st_mode = true
  · simp only [hd, if_true]
    split
    · rename_i e h
      unfold SDir.sub at h
      by_cases ho : node.file.fd.isSome = true
      · simp [ho] at h
      · simp only [ho, if_false, Bool.false_eq_true] at h ⊢
        cases h
        rfl
    · rename_i sub h
      unfold SDir.sub at h
      by_cases ho : node.file.fd.isSome = true
      · simp only [ho, if_true] at h ⊢
        cases h
        unfold Result.andThen SDir.fullname
        split <;> simp_all
      · simp [ho] at h
  · simp only [hd, if_false, Bool.false_eq_true]

/-! ### Induction over listings -/

theorem Node.sizeOf_kids_lt (node : Node) : sizeOf node.kids < sizeOf node := by
  cases node with
  | mk st f l k => simp only [Node.kids, Node.mk.sizeOf_spec]; omega

/-- Induction over a listing: the entries below an entry come before it -/
theorem listing_induction {P : List (String × Node) → Prop} (hnil : P [])
    (hcons : ∀ name node rest, P node.kids → P rest → P ((name, node) :: rest)) :
    ∀ l, P l := by
  suffices hsz : ∀ n, ∀ l : List (String × Node), sizeOf l = n → P l from
    fun l => hsz _ l rfl
  intro n
  induction n using Nat.strong_induction_on with
  | _ n ih =>
    intro l h
    cases l with
    | nil => exact hnil
    | cons e rest =>
      obtain ⟨name, node⟩ := e
      subst h
      have hk := Node.sizeOf_kids_lt node
      apply hcons
      · exact ih _ (by simp only [List.cons.sizeOf_spec, Prod.mk.sizeOf_spec]; omega) _ rfl
      · exact ih _ (by simp only [List.cons.sizeOf_spec]; omega) _ rfl

/-- Induction over a pair of listings, along the steps of the merge loop -/
theorem listing_pair_induction {P : List (String × Node) → List (String × Node) → Prop}
    (hnil : P [] [])
    (hright : ∀ name2 node2 rest2, P [] rest2 → P [] ((name2, node2) :: rest2))
    (hleft : ∀ name1 node1 rest1, P rest1 [] → P ((name1, node1) :: rest1) [])
    (hboth : ∀ name1 node1 rest1 name2 node2 rest2,
      P rest1 ((name2, node2) :: rest2) → P ((name1, node1) :: rest1) rest2 →
      P rest1 rest2 → P node1.kids node2.kids →
      P ((name1, node1) :: rest1) ((name2, node2) :: rest2)) :
    ∀ l1 l2, P l1 l2 := by
  suffices hsz : ∀ n, ∀ l1 l2 : List (String × Node), sizeOf l1 + sizeOf l2 = n → P l1 l2 from
    fun l1 l2 => hsz _ l1 l2 rfl
  intro n
  induction n using Nat.strong_induction_on with
  | _ n ih =>
    intro l1 l2 h
    subst h
    cases l1 with
    | nil =>
      cases l2 with
      | nil => exact hnil
      | cons e2 rest2 =>
        obtain ⟨name2, node2⟩ := e2
        exact hright _ _ _ (ih _ (by simp only [List.cons.sizeOf_spec]; omega) _ _ rfl)
    | cons e1 rest1 =>
      obtain ⟨name1, node1⟩ := e1
      cases l2 with
      | nil => exact hleft _ _ _ (ih _ (by simp only [List.cons.sizeOf_spec]; omega) _ _ rfl)
      | cons e2 rest2 =>
        obtain ⟨name2, node2⟩ := e2
        have hk1 := Node.sizeOf_kids_lt node1
        have hk2 := Node.sizeOf_kids_lt node2
        apply hboth
        · exact ih _ (by simp only [List.cons.sizeOf_spec]; omega) _ _ rfl
        · exact ih _ (by simp only [List.cons.sizeOf_spec]; omega) _ _ rfl
        · exact ih _ (by simp only [List.cons.sizeOf_spec]; omega) _ _ rfl
        · exact ih _ (by simp only [List.cons.sizeOf_spec, Prod.mk.sizeOf_spec]; omega) _ _ rfl

theorem pathsBelow_nil (path : String) : pathsBelow path [] = [] := by
  rw [pathsBelow]

theorem pathsBelow_cons (path name : String) (node : Node) (rest : List (String × Node)) :
    pathsBelow path ((name, node) :: rest) =
      (path ++ "/" ++ name) :: (pathsBelow (path ++ "/" ++ name) node.kids ++ pathsBelow path rest) := by
  cases node with
  | mk st f l k => rw [pathsBelow]; rfl

theorem Result.andThen_none (s : Run) (k : Run → Result) :
    Result.andThen (none, s) k = k s := by
  unfold Result.andThen
  rfl

theorem Result.andThen_some (e : Exception) (s : Run) (k : Run → Result) :
    Result.andThen (some e, s) k = (some e, s) := by
  unfold Result.andThen
  rfl

/-- When a sequence of two steps ends without exception, so did both steps -/
theorem Result.andThen_eq_none {r : Result} {k : Run → Result} {s' : Run}
    (h : r.andThen k = (none, s')) : ∃ s1, r = (none, s1) ∧ k s1 = (none, s') := by
  obtain ⟨o, s1⟩ := r
  cases o with
  | none => exact ⟨s1, rfl, h⟩
  | some e => simp [Result.andThen] at h

/-! ### The subtree dump -/

theorem Run.cb_log (s : Run) (path : String) (status : Nat) :
    (s.cb path status).log = s.log ++ [(path, status)] := rfl

theorem Run.cb_visits (s : Run) (path : String) (status : Nat) :
    (s.cb path status).visits = s.visits := rfl

/-- A sequence of two steps that each only append to the log only appends to the log -/
theorem Result.andThen_log {r : Result} {k : Run → Result} {s : Run}
    (hr : ∃ l, r.2.log = s.log ++ l) (hk : ∀ s1, ∃ l, (k s1).2.log = s1.log ++ l) :
    ∃ l, (r.andThen k).2.log = s.log ++ l := by
  obtain ⟨o, s1⟩ := r
  cases o with
  | some e => exact hr
  | none =>
    obtain ⟨l1, h1⟩ := hr
    obtain ⟨l2, h2⟩ := hk s1
    refine ⟨l1 ++ l2, ?_⟩
    simp only [Result.andThen_none] at h1 ⊢
    rw [h2, h1, List.append_assoc]

/-- The loop of `listSubdirs` only appends to the log -/
theorem listSubdirsLoop_log (intr : Nat → Bool) (status : Nat) :
    ∀ (entries : List (String × Node)) (dir : SDir) (s : Run),
      ∃ l, (listSubdirsLoop intr dir entries status s).2.log = s.log ++ l := by
  refine listing_induction ?_ ?_
  · intro dir s
    exact ⟨[], by rw [listSubdirsLoop_nil]; simp⟩
  · intro name node rest ihk ihr dir s
    rw [listSubdirsLoop_cons]
    have hcb : ∀ r : Result, (∃ l, r.2.log = (s.cb (dir.fullname name) status).log ++ l) →
        ∃ l, r.2.log = s.log ++ l := by
      rintro r ⟨l, hl⟩
      exact ⟨(dir.fullname name, status) :: l, by rw [hl, Run.cb_log]; simp⟩
    split
    · split
      · apply hcb
        apply Result.andThen_log
        · rw [listSubdirs_eq]
          split
          · exact ⟨[], by simp⟩
          · split
            · exact ihk _ _
            · exact ⟨[], by simp⟩
        · intro s1
          exact ihr dir s1
      · exact hcb _ ⟨[], by simp⟩
    · exact hcb _ (ihr dir _)

/-- The function `listSubdirs` only appends to the log -/
theorem listSubdirs_log (intr : Nat → Bool) (dir : SDir) (status : Nat) (s : Run) :
    ∃ l, (listSubdirs intr dir status s).2.log = s.log ++ l := by
  rw [listSubdirs_eq]
  split
  · exact ⟨[], by simp⟩
  · split
    · exact listSubdirsLoop_log intr status _ _ _
    · exact ⟨[], by simp⟩

/-- When the loop of `listSubdirs` ends without exception it has notified every path
below the directory, once for each entry met, with the given status -/
theorem listSubdirsLoop_dump (intr : Nat → Bool) (status : Nat) :
    ∀ (entries : List (String × Node)) (dir : SDir) (s s' : Run), Proper entries →
      listSubdirsLoop intr dir entries status s = (none, s') →
      s'.log = s.log ++ (pathsBelow dir.path entries).map (fun p => (p, status)) := by
  refine listing_induction ?_ ?_
  · intro dir s s' _ h
    rw [listSubdirsLoop_nil] at h
    cases h
    simp [pathsBelow_nil]
  · intro name node rest ihk ihr dir s s' hp h
    cases hp with
    | cons _ _ _ hnd hpk hpr =>
      rw [listSubdirsLoop_cons] at h
      rw [pathsBelow_cons]
      by_cases hd : S_ISDIR node.stat.st_mode = true
      · by_cases ho : node.file.fd.isSome = true
        · simp only [hd, ho, if_true] at h
          obtain ⟨s1, h1, h2⟩ := Result.andThen_eq_none h
          rw [listSubdirs_eq] at h1
          by_cases hi : intr (s.cb (dir.fullname name) status).visits = true
          · simp [hi] at h1
          · by_cases hl : node.listable = true
            · simp only [hi, hl, if_true, if_false, Bool.false_eq_true] at h1
              have e1 := ihk _ _ _ hpk h1
              have e2 := ihr _ _ _ hpr h2
              rw [e2, e1]
              simp [Run.cb_log, SDir.fullname]
            · simp [hi, hl] at h1
        · simp [hd, ho] at h
      · simp only [hd, if_false, Bool.false_eq_true] at h
        have e2 := ihr _ _ _ hpr h
        have hk : node.kids = [] := hnd (by simpa using hd)
        rw [e2, hk, pathsBelow_nil]
        simp [Run.cb_log, SDir.fullname]

theorem lonesome_eq (intr : Nat → Bool) (dir : SDir) (name : String) (node : Node)
    (status : Nat) (s : Run) :
    lonesome intr dir name node status s =
      if S_ISDIR node.stat.st_mode then
        if node.file.fd.isSome then
          listSubdirs intr ⟨dir.fullname name, some node.stat, node.listable, node.kids⟩ status
            (s.cb (dir.fullname name) status)
        else (some .IOErrorException, s.cb (dir.fullname name) status)
      else (none, s.cb (dir.fullname name) status) := by
  unfold lonesome SDir.sub SDir.fullname
  by_cases hd : S_ISDIR node.stat.st_mode = true
  · by_cases ho : node.file.fd.isSome = true
    · simp only [hd, ho, if_true]
    · simp only [hd, ho, if_true, if_false, Bool.false_eq_true]
  · simp only [hd, if_false, Bool.false_eq_true]

/-- The paths `lonesome` notifies for an entry: its own path, then every path below -/
theorem lonesome_dump (intr : Nat → Bool) (dir : SDir) (name : String) (node : Node)
    (status : Nat) (s s' : Run) (hp : Proper [(name, node)])
    (h : lonesome intr dir name node status s = (none, s')) :
    s'.log = s.log ++
      ((dir.fullname name) :: pathsBelow (dir.fullname name) node.kids).map
        (fun p => (p, status)) := by
  cases hp with
  | cons _ _ _ hnd hpk _ =>
    unfold lonesome at h
    by_cases hd : S_ISDIR node.stat.st_mode = true
    · simp only [hd, if_true] at h
      unfold SDir.sub at h
      by_cases ho : node.file.fd.isSome = true
      · simp only [ho, if_true] at h
        rw [listSubdirs_eq] at h
        by_cases hi : intr (s.cb (dir.fullname name) status).visits = true
        · simp [hi] at h
        · by_cases hl : node.listable = true
          · simp only [hi, hl, if_true, if_false, Bool.false_eq_true] at h
            have e1 := listSubdirsLoop_dump intr status _ _ _ _ hpk h
            rw [e1]
            simp [Run.cb_log, SDir.fullname]
          · simp [hi, hl] at h
      · simp [ho] at h
    · simp only [hd, if_false, Bool.false_eq_true] at h
      cases h
      have hk : node.kids = [] := hnd (by simpa using hd)
      rw [hk, pathsBelow_nil]
      simp [Run.cb_log]

/-- The function `lonesome` only appends to the log -/
theorem lonesome_log (intr : Nat → Bool) (dir : SDir) (name : String) (node : Node)
    (status : Nat) (s : Run) :
    ∃ l, (lonesome intr dir name node status s).2.log = s.log ++ l := by
  have hcb : ∀ r : Result, (∃ l, r.2.log = (s.cb (dir.fullname name) status).log ++ l) →
      ∃ l, r.2.log = s.log ++ l := by
    rintro r ⟨l, hl⟩
    exact ⟨(dir.fullname name, status) :: l, by rw [hl, Run.cb_log]; simp⟩
  unfold lonesome
  split
  · split
    · exact hcb _ ⟨[], by simp⟩
    · exact hcb _ (listSubdirs_log _ _ _ _)
  · exact hcb _ ⟨[], by simp⟩

/-! ### Unfolding the paired walk -/

theorem cmpDirsWorker_eq (intr : Nat → Bool) (cmp_data : CmpData) (dir1 dir2 : SDir) (s : Run) :
    cmpDirsWorker intr cmp_data dir1 dir2 s =
      if intr s.visits then (some .thread_interrupted, s)
      else if dir1.listable then
        if dir2.listable then
          cmpDirsWorkerLoop intr cmp_data dir1 dir2 dir1.kids dir2.kids
            { s with visits := s.visits + 1 }
        else (some .IOErrorException, { s with visits := s.visits + 1 })
      else (some .IOErrorException, { s with visits := s.visits + 1 }) := by
  rw [cmpDirsWorker]
  unfold interruption_point
  by_cases hi : intr s.visits = true
  · simp [hi]
  · simp only [hi, if_false, Bool.false_eq_true]
    split
    · rename_i e h
      unfold SDir.entries at h
      by_cases hl : dir1.listable = true
      · simp [hl] at h
      · simp only [hl, if_false, Bool.false_eq_true] at h ⊢
        cases h
        rfl
    · rename_i entries1 h
      unfold SDir.entries at h
      by_cases hl : dir1.listable = true
      · simp only [hl, if_true] at h ⊢
        cases h
        split
        · rename_i e h2
          unfold SDir.entries at h2
          by_cases hl2 : dir2.listable = true
          · simp [hl2] at h2
          · simp only [hl2, if_false, Bool.false_eq_true] at h2 ⊢
            cases h2
            rfl
        · rename_i entries2 h2
          unfold SDir.entries at h2
          by_cases hl2 : dir2.listable = true
          · simp only [hl2, if_true] at h2 ⊢
            cases h2
            rfl
          · simp [hl2] at h2
      · simp [hl] at h

theorem cmpDirsWorkerLoop_nil_nil (intr : Nat → Bool) (cmp_data : CmpData) (dir1 dir2 : SDir)
    (s : Run) : cmpDirsWorkerLoop intr cmp_data dir1 dir2 [] [] s = (none, s) := by
  rw [cmpDirsWorkerLoop]

theorem cmpDirsWorkerLoop_nil_cons (intr : Nat → Bool) (cmp_data : CmpData) (dir1 dir2 : SDir)
    (name2 : String) (node2 : Node) (rest2 : List (String × Node)) (s : Run) :
    cmpDirsWorkerLoop intr cmp_data dir1 dir2 [] ((name2, node2) :: rest2) s =
      if filter name2 then cmpDirsWorkerLoop intr cmp_data dir1 dir2 [] rest2 s
      else (lonesomeStep intr cmp_data.dev2 dir2 name2 node2 CREATED s).andThen
        (cmpDirsWorkerLoop intr cmp_data dir1 dir2 [] rest2) := by
  rw [cmpDirsWorkerLoop]
  split
  · rfl
  · unfold Result.andThen lonesomeStep
    split <;> simp_all

theorem cmpDirsWorkerLoop_cons_nil (intr : Nat → Bool) (cmp_data : CmpData) (dir1 dir2 : SDir)
    (name1 : String) (node1 : Node) (rest1 : List (String × Node)) (s : Run) :
    cmpDirsWorkerLoop intr cmp_data dir1 dir2 ((name1, node1) :: rest1) [] s =
      if filter name1 then cmpDirsWorkerLoop intr cmp_data dir1 dir2 rest1 [] s
      else (lonesomeStep intr cmp_data.dev1 dir1 name1 node1 DELETED s).andThen
        (cmpDirsWorkerLoop intr cmp_data dir1 dir2 rest1 []) := by
  rw [cmpDirsWorkerLoop]
  split
  · rfl
  · unfold Result.andThen lonesomeStep
    split <;> simp_all

theorem cmpDirsWorkerLoop_cons_cons (intr : Nat → Bool) (cmp_data : CmpData) (dir1 dir2 : SDir)
    (name1 : String) (node1 : Node) (rest1 : List (String × Node))
    (name2 : String) (node2 : Node) (rest2 : List (String × Node)) (s : Run) :
    cmpDirsWorkerLoop intr cmp_data dir1 dir2 ((name1, node1) :: rest1)
        ((name2, node2) :: rest2) s =
      if filter name1 then
        cmpDirsWorkerLoop intr cmp_data dir1 dir2 rest1 ((name2, node2) :: rest2) s
      else if filter name2 then
        cmpDirsWorkerLoop intr cmp_data dir1 dir2 ((name1, node1) :: rest1) rest2 s
      else if name2 < name1 then
        (lonesomeStep intr cmp_data.dev2 dir2 name2 node2 CREATED s).andThen
          (cmpDirsWorkerLoop intr cmp_data dir1 dir2 ((name1, node1) :: rest1) rest2)
      else if name1 < name2 then
        (lonesomeStep intr cmp_data.dev1 dir1 name1 node1 DELETED s).andThen
          (cmpDirsWorkerLoop intr cmp_data dir1 dir2 rest1 ((name2, node2) :: rest2))
      else if name1 ≠ name2 then (some .LogicErrorException, s)
      else
        (twosome intr cmp_data dir1 dir2 name1 node1 node2 s).andThen
          (cmpDirsWorkerLoop intr cmp_data dir1 dir2 rest1 rest2) := by
  rw [cmpDirsWorkerLoop]
  split
  · rfl
  · split
    · rfl
    · split
      · unfold Result.andThen lonesomeStep
        split <;> simp_all
      · split
        · unfold Result.andThen lonesomeStep
          split <;> simp_all
        · split
          · rfl
          · unfold Result.andThen
            split <;> simp_all

theorem dumpStep_eq (intr : Nat → Bool) (dev : Nat) (dir : SDir) (name : String) (node : Node)
    (status : Nat) (s : Run) :
    dumpStep intr dev dir name node status s =
      if S_ISDIR node.stat.st_mode then
        if node.stat.st_dev = dev then
          if node.file.fd.isSome then
            listSubdirs intr ⟨dir.fullname name, some node.stat, node.listable, node.kids⟩
              status s
          else (some .IOErrorException, s)
        else (none, s)
      else (none, s) := by
  unfold dumpStep SDir.sub SDir.fullname
  by_cases ho : node.file.fd.isSome = true
  · simp only [ho, if_true]
  · simp only [ho, if_false, Bool.false_eq_true]

theorem twosome_off_dev (intr : Nat → Bool) (cmp_data : CmpData) (dir1 dir2 : SDir)
    (name : String) (node1 node2 : Node) (s : Run)
    (hd : ¬ (node1.stat.st_dev = cmp_data.dev1 ∧ node2.stat.st_dev = cmp_data.dev2)) :
    twosome intr cmp_data dir1 dir2 name node1 node2 s = (none, s) := by
  rw [twosome]
  simp [hd]

theorem twosome_on_dev (intr : Nat → Bool) (cmp_data : CmpData) (dir1 dir2 : SDir)
    (name : String) (node1 node2 : Node) (s : Run) (status : Nat)
    (hd1 : node1.stat.st_dev = cmp_data.dev1) (hd2 : node2.stat.st_dev = cmp_data.dev2)
    (hs : cmpFiles node1.file node1.stat node2.file node2.stat = .ok status) :
    twosome intr cmp_data dir1 dir2 name node1 node2 s =
      if status &&& TYPE = 0 then
        if S_ISDIR node1.stat.st_mode then
          if node1.file.fd.isSome then
            if node2.file.fd.isSome then
              cmpDirsWorker intr cmp_data
                ⟨dir1.fullname name, some node1.stat, node1.listable, node1.kids⟩
                ⟨dir2.fullname name, some node2.stat, node2.listable, node2.kids⟩
                (if status ≠ 0 then s.cb (dir1.fullname name) status else s)
            else (some .IOErrorException, if status ≠ 0 then s.cb (dir1.fullname name) status else s)
          else (some .IOErrorException, if status ≠ 0 then s.cb (dir1.fullname name) status else s)
        else (none, if status ≠ 0 then s.cb (dir1.fullname name) status else s)
      else
        (dumpStep intr cmp_data.dev1 dir1 name node1 DELETED
            (if status ≠ 0 then s.cb (dir1.fullname name) status else s)).andThen
          (dumpStep intr cmp_data.dev2 dir2 name node2 CREATED) := by
  rw [twosome]
  simp only [hd1, hd2, and_self, if_true, hs]
  by_cases hT : status &&& TYPE = 0
  · simp only [hT, if_true]
    by_cases hd : S_ISDIR node1.stat.st_mode = true
    · simp only [hd, if_true]
      split
      · rename_i e h
        unfold SDir.sub at h
        by_cases ho : node1.file.fd.isSome = true
        · simp [ho] at h
        · simp only [ho, if_false, Bool.false_eq_true] at h ⊢
          cases h
          rfl
      · rename_i sub1 h
        unfold SDir.sub at h
        by_cases ho : node1.file.fd.isSome = true
        · simp only [ho, if_true] at h ⊢
          cases h
          split
          · rename_i e h2
            unfold SDir.sub at h2
            by_cases ho2 : node2.file.fd.isSome = true
            · simp [ho2] at h2
            · simp only [ho2, if_false, Bool.false_eq_true] at h2 ⊢
              cases h2
              rfl
          · rename_i sub2 h2
            unfold SDir.sub at h2
            by_cases ho2 : node2.file.fd.isSome = true
            · simp only [ho2, if_true] at h2 ⊢
              cases h2
              rfl
            · simp [ho2] at h2
        · simp [ho] at h
    · simp only [hd, if_false, Bool.false_eq_true]
  · simp only [hT, if_false]
    unfold dumpStep Result.andThen
    simp only [hd1, hd2, if_true]

/-! ### The walk only appends to the log -/

theorem cmpFiles_ok (file1 file2 : SFile) (stat1 stat2 : Stat) :
    ∃ status, cmpFiles file1 stat1 file2 stat2 = .ok status := by
  obtain ⟨t, ht⟩ := exists_bool_iff (stat1.st_mode &&& S_IFMT ≠ stat2.st_mode &&& S_IFMT)
  obtain ⟨c, hc⟩ := exists_bool_iff (stat1.st_mode &&& S_IFMT = stat2.st_mode &&& S_IFMT ∧
    cmpFilesContent file1 stat1 file2 stat2 = .ok false)
  obtain ⟨p, hp⟩ := exists_bool_iff ((stat1.st_mode ^^^ stat2.st_mode) &&& permMask ≠ 0)
  obtain ⟨u, hu⟩ := exists_bool_iff (stat1.st_uid ≠ stat2.st_uid)
  obtain ⟨g, hg⟩ := exists_bool_iff (stat1.st_gid ≠ stat2.st_gid)
  exact ⟨_, cmpFiles_val file1 file2 stat1 stat2 t c p u g ht hc hp hu hg⟩

theorem log_refl (s : Run) : ∃ l, s.log = s.log ++ l := ⟨[], by simp⟩

theorem log_after_cb {s : Run} {path : String} {status : Nat} {r : Result}
    (h : ∃ l, r.2.log = (s.cb path status).log ++ l) : ∃ l, r.2.log = s.log ++ l := by
  obtain ⟨l, hl⟩ := h
  exact ⟨(path, status) :: l, by rw [hl, Run.cb_log]; simp⟩

theorem lonesomeStep_log (intr : Nat → Bool) (dev : Nat) (dir : SDir) (name : String)
    (node : Node) (status : Nat) (s : Run) :
    ∃ l, (lonesomeStep intr dev dir name node status s).2.log = s.log ++ l := by
  unfold lonesomeStep
  split
  · exact lonesome_log _ _ _ _ _ _
  · exact log_refl s

theorem dumpStep_log (intr : Nat → Bool) (dev : Nat) (dir : SDir) (name : String)
    (node : Node) (status : Nat) (s : Run) :
    ∃ l, (dumpStep intr dev dir name node status s).2.log = s.log ++ l := by
  rw [dumpStep_eq]
  split
  · split
    · split
      · exact listSubdirs_log _ _ _ _
      · exact log_refl s
    · exact log_refl s
  · exact log_refl s

/-- The function `cmpDirsWorker` only appends to the log when its loop does -/
theorem cmpDirsWorker_log_of (intr : Nat → Bool) (cmp_data : CmpData) (dir1 dir2 : SDir)
    (hloop : ∀ s, ∃ l, (cmpDirsWorkerLoop intr cmp_data dir1 dir2 dir1.kids dir2.kids s).2.log
      = s.log ++ l) (s : Run) :
    ∃ l, (cmpDirsWorker intr cmp_data dir1 dir2 s).2.log = s.log ++ l := by
  rw [cmpDirsWorker_eq]
  split
  · exact log_refl s
  · split
    · split
      · exact hloop _
      · exact log_refl s
    · exact log_refl s

/-- The function `twosome` only appends to the log when the loop over the two listings
below the pair does -/
theorem twosome_log_of (intr : Nat → Bool) (cmp_data : CmpData) (dir1 dir2 : SDir)
    (name : String) (node1 node2 : Node)
    (hloop : ∀ d1 d2 s, ∃ l,
      (cmpDirsWorkerLoop intr cmp_data d1 d2 node1.kids node2.kids s).2.log = s.log ++ l)
    (s : Run) :
    ∃ l, (twosome intr cmp_data dir1 dir2 name node1 node2 s).2.log = s.log ++ l := by
  by_cases hd : node1.stat.st_dev = cmp_data.dev1 ∧ node2.stat.st_dev = cmp_data.dev2
  · obtain ⟨status, hs⟩ := cmpFiles_ok node1.file node2.file node1.stat node2.stat
    rw [twosome_on_dev intr cmp_data dir1 dir2 name node1 node2 s status hd.1 hd.2 hs]
    have hs1 : ∀ r : Result,
        (∃ l, r.2.log = (if status ≠ 0 then s.cb (dir1.fullname name) status else s).log ++ l) →
        ∃ l, r.2.log = s.log ++ l := by
      intro r hr
      by_cases h0 : status ≠ 0
      · rw [if_pos h0] at hr
        exact log_after_cb hr
      · rw [if_neg h0] at hr
        exact hr
    split
    · split
      · split
        · split
          · apply hs1
            exact cmpDirsWorker_log_of intr cmp_data _ _ (fun s => hloop _ _ s) _
          · exact hs1 _ (log_refl _)
        · exact hs1 _ (log_refl _)
      · exact hs1 _ (log_refl _)
    · apply hs1
      apply Result.andThen_log
      · exact dumpStep_log _ _ _ _ _ _ _
      · intro s1
        exact dumpStep_log _ _ _ _ _ _ _
  · rw [twosome_off_dev intr cmp_data dir1 dir2 name node1 node2 s hd]
    exact log_refl s

/-- The merge loop of `cmpDirsWorker` only appends to the log -/
theorem cmpDirsWorkerLoop_log (intr : Nat → Bool) (cmp_data : CmpData) :
    ∀ (entries1 entries2 : List (String × Node)) (dir1 dir2 : SDir) (s : Run),
      ∃ l, (cmpDirsWorkerLoop intr cmp_data dir1 dir2 entries1 entries2 s).2.log = s.log ++ l := by
  refine listing_pair_induction ?_ ?_ ?_ ?_
  · intro dir1 dir2 s
    rw [cmpDirsWorkerLoop_nil_nil]
    exact log_refl s
  · intro name2 node2 rest2 ih dir1 dir2 s
    rw [cmpDirsWorkerLoop_nil_cons]
    split
    · exact ih _ _ _
    · exact Result.andThen_log (lonesomeStep_log _ _ _ _ _ _ _) (fun s1 => ih _ _ s1)
  · intro name1 node1 rest1 ih dir1 dir2 s
    rw [cmpDirsWorkerLoop_cons_nil]
    split
    · exact ih _ _ _
    · exact Result.andThen_log (lonesomeStep_log _ _ _ _ _ _ _) (fun s1 => ih _ _ s1)
  · intro name1 node1 rest1 name2 node2 rest2 ih1 ih2 ih12 ihk dir1 dir2 s
    rw [cmpDirsWorkerLoop_cons_cons]
    split
    · exact ih1 _ _ _
    · split
      · exact ih2 _ _ _
      · split
        · exact Result.andThen_log (lonesomeStep_log _ _ _ _ _ _ _) (fun s1 => ih2 _ _ s1)
        · split
          · exact Result.andThen_log (lonesomeStep_log _ _ _ _ _ _ _) (fun s1 => ih1 _ _ s1)
          · split
            · exact log_refl s
            · exact Result.andThen_log
                (twosome_log_of intr cmp_data dir1 dir2 name1 node1 node2 ihk s)
                (fun s1 => ih12 _ _ s1)

/-- The function `twosome` only appends to the log -/
theorem twosome_log (intr : Nat → Bool) (cmp_data : CmpData) (dir1 dir2 : SDir)
    (name : String) (node1 node2 : Node) (s : Run) :
    ∃ l, (twosome intr cmp_data dir1 dir2 name node1 node2 s).2.log = s.log ++ l :=
  twosome_log_of intr cmp_data dir1 dir2 name node1 node2
    (fun d1 d2 s => cmpDirsWorkerLoop_log intr cmp_data _ _ d1 d2 s) s

/-! ### Steps for entries on one side -/

theorem filter_of_entryName {name : String} (h : entryName name) : filter name = false := by
  unfold filter
  by_contra hc
  simp only [decide_eq_false_iff_not, not_not] at hc
  subst hc
  exact h (by decide)

/-- A step of the merge loop for an entry on one side only, on the root device of its
side, that ends without exception has appended the full dump of the entry -/
theorem lonesomeStep_dump (intr : Nat → Bool) (dev : Nat) (dir : SDir) (name : String)
    (node : Node) (status : Nat) (s s1 : Run) (hdev : node.stat.st_dev = dev)
    (hp : Proper [(name, node)])
    (h : lonesomeStep intr dev dir name node status s = (none, s1)) :
    s1.log = s.log ++ dumpOf (dir.fullname name) node status := by
  unfold lonesomeStep at h
  rw [if_pos hdev] at h
  exact lonesome_dump intr dir name node status s s1 hp h

theorem log_of_eq {r : Result} {s s' : Run} (h : r = (none, s'))
    (hl : ∃ l, r.2.log = s.log ++ l) : ∃ l, s'.log = s.log ++ l := by
  rw [h] at hl
  exact hl


/-! ### Identical trees -/

theorem perm_bits_eq {m1 m2 mask : Nat} (h : m1 &&& mask = m2 &&& mask) :
    (m1 ^^^ m2) &&& mask = 0 := by
  by_contra hne
  obtain ⟨i, hm, hd⟩ := (xor_and_ne_zero_iff m1 m2 mask).1 hne
  have := congrArg (fun n => Nat.testBit n i) h
  simp only [Nat.testBit_and, hm, Bool.and_true] at this
  exact hd this

theorem readlink_some (fd : Option (List Nat)) (t : String) (ht : t ≠ "") :
    (SFile.readlink ⟨fd, some t⟩).1 ≠ 0 := by
  simp only [SFile.readlink]
  have hd : t.data ≠ [] := by
    intro h
    apply ht
    cases t with
    | mk d => simp at h; subst h; rfl
  cases hdata : t.data with
  | nil => exact absurd hdata hd
  | cons c cs =>
    simp only [List.take_succ_cons, List.length_cons]
    omega

/-- The content comparison of two identical entries reports equality -/
theorem SameEntry.content {node1 node2 : Node} (h : SameEntry node1 node2) :
    cmpFilesContent node1.file node1.stat node2.file node2.stat = .ok true := by
  obtain ⟨ht, -, -, -, hreg, hlnk, -⟩ := h
  unfold cmpFilesContent
  simp only [ht, ne_eq, not_true_eq_false, if_false]
  rw [← ht]
  by_cases h1 : node1.stat.st_mode &&& S_IFMT = S_IFREG
  · simp only [h1, if_true]
    obtain ⟨hsize, bytes, hf1, hf2, hlen⟩ := hreg h1
    congr 1
    unfold cmpFilesContentReg
    split
    · rfl
    · rw [if_neg (not_not.2 hsize)]
      split
      · rfl
      · split
        · rfl
        · simp only [hf1, hf2]
          rw [cmpBlocks_full _ _ _ (by omega) (by omega)]
          simp
  · simp only [h1, if_false]
    by_cases h2 : node1.stat.st_mode &&& S_IFMT = S_IFLNK
    · simp only [h2, if_true]
      obtain ⟨t, hne, ht1, ht2⟩ := hlnk h2
      congr 1
      unfold cmpFilesContentLnk
      split
      · rfl
      · have e1 : node1.file = ⟨node1.file.fd, some t⟩ := by
          cases hf : node1.file with
          | mk fd tg => rw [hf] at ht1; simp at ht1; rw [ht1]
        have e2 : node2.file = ⟨node2.file.fd, some t⟩ := by
          cases hf : node2.file with
          | mk fd tg => rw [hf] at ht2; simp at ht2; rw [ht2]
        rw [e1, e2]
        have r1 := readlink_some node1.file.fd t hne
        have r2 := readlink_some node2.file.fd t hne
        simp only [r1, r2, ne_eq, not_false_eq_true, decide_True, Bool.not_true,
          Bool.false_eq_true, if_false]
        simp [SFile.readlink]
    · simp only [h2, if_false]

/-- The status of two identical entries is 0 -/
theorem SameEntry.status {node1 node2 : Node} (h : SameEntry node1 node2) :
    cmpFiles node1.file node1.stat node2.file node2.stat = .ok 0 := by
  have hc := h.content
  obtain ⟨ht, hp, hu, hg, -⟩ := h
  have := cmpFiles_val node1.file node2.file node1.stat node2.stat false false false false false
    (by simp [ht]) (by simp [hc]) (by simp [perm_bits_eq hp]) (by simp [hu]) (by simp [hg])
  rw [this]
  rfl

/-- An excluded name at the head of the second listing is skipped -/
theorem cmpDirsWorkerLoop_skip_right (intr : Nat → Bool) (cmp_data : CmpData) (dir1 dir2 : SDir)
    (name2 : String) (node2 : Node) (rest2 : List (String × Node)) (hf : filter name2 = true) :
    ∀ (entries1 : List (String × Node)) (s : Run),
      cmpDirsWorkerLoop intr cmp_data dir1 dir2 entries1 ((name2, node2) :: rest2) s =
        cmpDirsWorkerLoop intr cmp_data dir1 dir2 entries1 rest2 s := by
  intro entries1
  induction entries1 with
  | nil =>
    intro s
    rw [cmpDirsWorkerLoop_nil_cons, if_pos hf]
  | cons e1 rest1 ih =>
    intro s
    obtain ⟨name1, node1⟩ := e1
    rw [cmpDirsWorkerLoop_cons_cons]
    by_cases hf1 : filter name1 = true
    · rw [if_pos hf1, ih]
      cases rest2 with
      | nil => rw [cmpDirsWorkerLoop_cons_nil, if_pos hf1]
      | cons e2 rest2 =>
        obtain ⟨n2, nd2⟩ := e2
        rw [cmpDirsWorkerLoop_cons_cons, if_pos hf1]
    · rw [if_neg hf1, if_pos hf]

theorem S_ISDIR_iff (m : Nat) : S_ISDIR m = true ↔ m &&& S_IFMT = S_IFDIR := by
  simp [S_ISDIR]

/-- The merge loop over two identical listings notifies nothing, and ends without
exception when no interruption is requested -/
theorem cmpDirsWorkerLoop_identical (intr : Nat → Bool) (cmp_data : CmpData)
    {entries1 entries2 : List (String × Node)} (h : Identical entries1 entries2) :
    ∀ (dir1 dir2 : SDir) (s : Run),
      (cmpDirsWorkerLoop intr cmp_data dir1 dir2 entries1 entries2 s).2.log = s.log ∧
      ((∀ n, intr n = false) →
        (cmpDirsWorkerLoop intr cmp_data dir1 dir2 entries1 entries2 s).1 = none) := by
  induction h with
  | nil =>
    intro dir1 dir2 s
    rw [cmpDirsWorkerLoop_nil_nil]
    exact ⟨rfl, fun _ => rfl⟩
  | cons name node1 node2 rest1 rest2 hsame _ _ ihk ihr =>
    intro dir1 dir2 s
    by_cases hf : filter name = true
    · rw [cmpDirsWorkerLoop_cons_cons, if_pos hf,
        cmpDirsWorkerLoop_skip_right intr cmp_data dir1 dir2 name node2 rest2 hf]
      exact ihr dir1 dir2 s
    · rw [cmpDirsWorkerLoop_cons_cons, if_neg hf, if_neg hf, if_neg (lt_irrefl name),
        if_neg (lt_irrefl name), if_neg (not_not.2 rfl)]
      have htwo : (twosome intr cmp_data dir1 dir2 name node1 node2 s).2.log = s.log ∧
          ((∀ n, intr n = false) →
            (twosome intr cmp_data dir1 dir2 name node1 node2 s).1 = none) := by
        by_cases hd : node1.stat.st_dev = cmp_data.dev1 ∧ node2.stat.st_dev = cmp_data.dev2
        · rw [twosome_on_dev intr cmp_data dir1 dir2 name node1 node2 s 0 hd.1 hd.2 hsame.status]
          have h0 : (0 : Nat) &&& TYPE = 0 := by decide
          rw [if_pos h0]
          simp only [ne_eq, not_true_eq_false, if_false]
          by_cases hdir : S_ISDIR node1.stat.st_mode = true
          · obtain ⟨ho1, ho2, hl1, hl2⟩ := hsame.2.2.2.2.2.2 ((S_ISDIR_iff _).1 hdir)
            rw [if_pos hdir, if_pos ho1, if_pos ho2, cmpDirsWorker_eq]
            by_cases hi : intr s.visits = true
            · rw [if_pos hi]
              refine ⟨rfl, fun hn => ?_⟩
              rw [hn] at hi
              cases hi
            · rw [if_neg hi]
              simp only [hl1, hl2, if_true]
              exact ihk _ _ _
          · rw [if_neg hdir]
            exact ⟨rfl, fun _ => rfl⟩
        · rw [twosome_off_dev intr cmp_data dir1 dir2 name node1 node2 s hd]
          exact ⟨rfl, fun _ => rfl⟩
      generalize twosome intr cmp_data dir1 dir2 name node1 node2 s = r at htwo ⊢
      obtain ⟨o, s1⟩ := r
      cases o with
      | some e =>
        refine ⟨htwo.1, fun hn => ?_⟩
        have := htwo.2 hn
        cases this
      | none =>
        rw [Result.andThen_none]
        have ih := ihr dir1 dir2 s1
        refine ⟨?_, ih.2⟩
        rw [ih.1]
        exact htwo.1

/-- C1: for every pair of identical trees (`Identical`: at every relative path both
sides have an entry of the same type, permission bits, owner and group, with the same
size and bytes for regular files and the same target for symlinks, every open and read
succeeding; device, inode and modification times are arbitrary, so the entries of a
pair may share device and inode or not, and may lie on their root device or not),
`cmpDirs` invokes the notification sink zero times, whatever the interruption requests
are; when no interruption is requested and the two roots can be stat'ed and listed,
the run ends without exception. -/
theorem C1_identical_trees_no_notification (intr : Nat → Bool) (dir1 dir2 : SDir) (s : Run)
    (h : Identical dir1.kids dir2.kids) :
    (cmpDirs intr dir1 dir2 s).2.log = s.log ∧
    ((∀ n, intr n = false) → dir1.dot ≠ none → dir2.dot ≠ none →
      dir1.listable = true → dir2.listable = true →
      (cmpDirs intr dir1 dir2 s).1 = none) := by
  unfold cmpDirs
  cases h1 : dir1.dot with
  | none => exact ⟨rfl, fun _ hne => absurd rfl hne⟩
  | some stat1 =>
    cases h2 : dir2.dot with
    | none => exact ⟨rfl, fun _ _ hne => absurd rfl hne⟩
    | some stat2 =>
      simp only
      rw [cmpDirsWorker_eq]
      by_cases hi : intr s.visits = true
      · rw [if_pos hi]
        refine ⟨rfl, fun hn => ?_⟩
        rw [hn] at hi
        cases hi
      · rw [if_neg hi]
        by_cases hl1 : dir1.listable = true
        · by_cases hl2 : dir2.listable = true
          · rw [if_pos hl1, if_pos hl2]
            have := cmpDirsWorkerLoop_identical intr ⟨stat1.st_dev, stat2.st_dev⟩ h dir1 dir2
              { s with visits := s.visits + 1 }
            exact ⟨this.1, fun hn _ _ _ _ => this.2 hn⟩
          · rw [if_pos hl1, if_neg hl2]
            exact ⟨rfl, fun _ _ _ _ hl => absurd hl hl2⟩
        · rw [if_neg hl1]
          exact ⟨rfl, fun _ _ _ hl => absurd hl hl1⟩

/-! ### Listings without directories -/

theorem lonesomeStep_nondir (intr : Nat → Bool) (dev : Nat) (dir : SDir) (name : String)
    (node : Node) (status : Nat) (s : Run) (hdev : node.stat.st_dev = dev)
    (hd : S_ISDIR node.stat.st_mode = false) :
    lonesomeStep intr dev dir name node status s = (none, s.cb (dir.fullname name) status) := by
  unfold lonesomeStep lonesome
  simp [hdev, hd]

/-- The comparison `twosome` of two same-named entries on the two root devices of
which neither is a directory: the pair is notified with the status of `cmpFiles`
when that is not 0, and the walk goes on -/
theorem twosome_nondir (intr : Nat → Bool) (cmp_data : CmpData) (dir1 dir2 : SDir)
    (name : String) (node1 node2 : Node) (s : Run) (status : Nat)
    (hd1 : node1.stat.st_dev = cmp_data.dev1) (hd2 : node2.stat.st_dev = cmp_data.dev2)
    (hn1 : S_ISDIR node1.stat.st_mode = false) (hn2 : S_ISDIR node2.stat.st_mode = false)
    (hs : cmpFiles node1.file node1.stat node2.file node2.stat = .ok status) :
    twosome intr cmp_data dir1 dir2 name node1 node2 s =
      (none, if status ≠ 0 then s.cb (dir1.fullname name) status else s) := by
  rw [twosome_on_dev intr cmp_data dir1 dir2 name node1 node2 s status hd1 hd2 hs]
  split
  · simp [hn1]
  · simp [dumpStep, hn1, hn2, Result.andThen]

theorem lookup_head (name : String) (node : Node) (rest : List (String × Node)) :
    List.lookup name ((name, node) :: rest) = some node := by
  simp [List.lookup]

theorem lookup_tail {n name : String} (node : Node) (rest : List (String × Node))
    (h : n ≠ name) : List.lookup n ((name, node) :: rest) = List.lookup n rest := by
  have hb : (n == name) = false := by simp [h]
  simp [List.lookup, hb]

theorem lookup_none {n : String} {l : List (String × Node)} (h : n ∉ l.map Prod.fst) :
    List.lookup n l = none := by
  induction l with
  | nil => rfl
  | cons e rest ih =>
    obtain ⟨name, node⟩ := e
    simp only [List.map_cons, List.mem_cons, not_or] at h
    rw [lookup_tail node rest h.1]
    exact ih h.2

theorem FlatOn.tail_flat {dev : Nat} {e : String × Node} {rest : List (String × Node)}
    (h : FlatOn dev (e :: rest)) : FlatOn dev rest :=
  fun x hx => h x (List.mem_cons_of_mem _ hx)

theorem FlatOn.head_facts {dev : Nat} {name : String} {node : Node} {rest : List (String × Node)}
    (h : FlatOn dev ((name, node) :: rest)) :
    filter name = false ∧ S_ISDIR node.stat.st_mode = false ∧ node.stat.st_dev = dev := by
  obtain ⟨h1, h2, h3⟩ := h (name, node) (List.mem_cons_self _ _)
  exact ⟨filter_of_entryName h1, h2, h3⟩

set_option maxHeartbeats 1000000 in
/-- The merge loop over two strictly ascending listings without directories handles the
union of the names in ascending order, each name once, as `classify` says -/
theorem cmpDirsWorkerLoop_flat (intr : Nat → Bool) (cmp_data : CmpData) (dir1 dir2 : SDir) :
    ∀ (entries1 entries2 : List (String × Node)),
      (entries1.map Prod.fst).Sorted (· < ·) → (entries2.map Prod.fst).Sorted (· < ·) →
      FlatOn cmp_data.dev1 entries1 → FlatOn cmp_data.dev2 entries2 →
      ∀ s : Run, ∃ names : List String, names.Sorted (· < ·) ∧
        (∀ n, n ∈ names ↔ n ∈ entries1.map Prod.fst ∨ n ∈ entries2.map Prod.fst) ∧
        cmpDirsWorkerLoop intr cmp_data dir1 dir2 entries1 entries2 s =
          (none, { s with log := s.log ++
            names.filterMap (classify dir1 dir2 entries1 entries2) }) := by
  refine listing_pair_induction ?_ ?_ ?_ ?_
  · intro _ _ _ _ s
    refine ⟨[], List.sorted_nil, by simp, ?_⟩
    rw [cmpDirsWorkerLoop_nil_nil]
    simp
  · intro name2 node2 rest2 ih _ hs2 hf1 hf2 s
    obtain ⟨hfl, hnd, hdev⟩ := hf2.head_facts
    simp only [List.map_cons, List.sorted_cons] at hs2
    obtain ⟨names, hsorted, hmem, hrun⟩ := ih List.sorted_nil hs2.2 hf1 hf2.tail_flat
      (s.cb (dir2.fullname name2) CREATED)
    have hlt : ∀ n ∈ names, name2 < n := by
      intro n hn
      rcases (hmem n).1 hn with h | h
      · simp at h
      · exact hs2.1 n h
    refine ⟨name2 :: names, List.sorted_cons.2 ⟨hlt, hsorted⟩, ?_, ?_⟩
    · intro n
      simp only [List.mem_cons, hmem, List.map_nil, List.not_mem_nil, false_or, List.map_cons]
    · rw [cmpDirsWorkerLoop_nil_cons, hfl, if_neg (by simp),
        lonesomeStep_nondir intr _ dir2 name2 node2 CREATED s hdev hnd, Result.andThen_none, hrun]
      have hc : classify dir1 dir2 [] ((name2, node2) :: rest2) name2 =
          some (dir2.fullname name2, CREATED) := by
        simp [classify, lookup_head, List.lookup]
      have hcongr : ∀ n ∈ names, classify dir1 dir2 [] rest2 n =
          classify dir1 dir2 [] ((name2, node2) :: rest2) n := by
        intro n hn
        simp only [classify]
        rw [lookup_tail node2 rest2 (ne_of_gt (hlt n hn))]
      rw [List.filterMap_cons, hc, List.filterMap_congr hcongr]
      simp [Run.cb]
  · intro name1 node1 rest1 ih hs1 _ hf1 hf2 s
    obtain ⟨hfl, hnd, hdev⟩ := hf1.head_facts
    simp only [List.map_cons, List.sorted_cons] at hs1
    obtain ⟨names, hsorted, hmem, hrun⟩ := ih hs1.2 List.sorted_nil hf1.tail_flat hf2
      (s.cb (dir1.fullname name1) DELETED)
    have hlt : ∀ n ∈ names, name1 < n := by
      intro n hn
      rcases (hmem n).1 hn with h | h
      · exact hs1.1 n h
      · simp at h
    refine ⟨name1 :: names, List.sorted_cons.2 ⟨hlt, hsorted⟩, ?_, ?_⟩
    · intro n
      simp only [List.mem_cons, hmem, List.map_nil, List.not_mem_nil, or_false, List.map_cons]
    · rw [cmpDirsWorkerLoop_cons_nil, hfl, if_neg (by simp),
        lonesomeStep_nondir intr _ dir1 name1 node1 DELETED s hdev hnd, Result.andThen_none, hrun]
      have hc : classify dir1 dir2 ((name1, node1) :: rest1) [] name1 =
          some (dir1.fullname name1, DELETED) := by
        simp [classify, lookup_head, List.lookup]
      have hcongr : ∀ n ∈ names, classify dir1 dir2 rest1 [] n =
          classify dir1 dir2 ((name1, node1) :: rest1) [] n := by
        intro n hn
        simp only [classify]
        rw [lookup_tail node1 rest1 (ne_of_gt (hlt n hn))]
      rw [List.filterMap_cons, hc, List.filterMap_congr hcongr]
      simp [Run.cb]
  · intro name1 node1 rest1 name2 node2 rest2 ih1 ih2 ih12 _ hs1 hs2 hf1 hf2 s
    obtain ⟨hfl1, hnd1, hdev1⟩ := hf1.head_facts
    obtain ⟨hfl2, hnd2, hdev2⟩ := hf2.head_facts
    have hs1' := hs1
    have hs2' := hs2
    simp only [List.map_cons, List.sorted_cons] at hs1 hs2
    rw [cmpDirsWorkerLoop_cons_cons, hfl1, hfl2, if_neg (by simp), if_neg (by simp)]
    by_cases hlt2 : name2 < name1
    · rw [if_pos hlt2, lonesomeStep_nondir intr _ dir2 name2 node2 CREATED s hdev2 hnd2,
        Result.andThen_none]
      obtain ⟨names, hsorted, hmem, hrun⟩ := ih2 hs1' hs2.2 hf1 hf2.tail_flat
        (s.cb (dir2.fullname name2) CREATED)
      have hlt : ∀ n ∈ names, name2 < n := by
        intro n hn
        rcases (hmem n).1 hn with h | h
        · simp only [List.map_cons, List.mem_cons] at h
          rcases h with h | h
          · rw [h]; exact hlt2
          · exact lt_trans hlt2 (hs1.1 n h)
        · exact hs2.1 n h
      have hnot1 : name2 ∉ List.map Prod.fst ((name1, node1) :: rest1) := by
        simp only [List.map_cons, List.mem_cons, not_or]
        exact ⟨ne_of_lt hlt2, fun h => lt_asymm hlt2 (hs1.1 _ h)⟩
      refine ⟨name2 :: names, List.sorted_cons.2 ⟨hlt, hsorted⟩, ?_, ?_⟩
      · intro n
        simp only [List.mem_cons, hmem, List.map_cons]
        exact or_left_comm
      · rw [hrun]
        have hc : classify dir1 dir2 ((name1, node1) :: rest1) ((name2, node2) :: rest2) name2 =
            some (dir2.fullname name2, CREATED) := by
          simp only [classify]
          rw [lookup_none hnot1, lookup_head]
        have hcongr : ∀ n ∈ names,
            classify dir1 dir2 ((name1, node1) :: rest1) rest2 n =
            classify dir1 dir2 ((name1, node1) :: rest1) ((name2, node2) :: rest2) n := by
          intro n hn
          simp only [classify]
          rw [lookup_tail node2 rest2 (ne_of_gt (hlt n hn))]
        rw [List.filterMap_cons, hc, List.filterMap_congr hcongr]
        simp [Run.cb]
    · rw [if_neg hlt2]
      by_cases hlt1 : name1 < name2
      · rw [if_pos hlt1, lonesomeStep_nondir intr _ dir1 name1 node1 DELETED s hdev1 hnd1,
          Result.andThen_none]
        obtain ⟨names, hsorted, hmem, hrun⟩ := ih1 hs1.2 hs2' hf1.tail_flat hf2
          (s.cb (dir1.fullname name1) DELETED)
        have hlt : ∀ n ∈ names, name1 < n := by
          intro n hn
          rcases (hmem n).1 hn with h | h
          · exact hs1.1 n h
          · simp only [List.map_cons, List.mem_cons] at h
            rcases h with h | h
            · rw [h]; exact hlt1
            · exact lt_trans hlt1 (hs2.1 n h)
        have hnot2 : name1 ∉ List.map Prod.fst ((name2, node2) :: rest2) := by
          simp only [List.map_cons, List.mem_cons, not_or]
          exact ⟨ne_of_lt hlt1, fun h => lt_asymm hlt1 (hs2.1 _ h)⟩
        refine ⟨name1 :: names, List.sorted_cons.2 ⟨hlt, hsorted⟩, ?_, ?_⟩
        · intro n
          simp only [List.mem_cons, hmem, List.map_cons]
          exact or_assoc.symm
        · rw [hrun]
          have hc : classify dir1 dir2 ((name1, node1) :: rest1) ((name2, node2) :: rest2)
              name1 = some (dir1.fullname name1, DELETED) := by
            simp only [classify]
            rw [lookup_none hnot2, lookup_head]
          have hcongr : ∀ n ∈ names,
              classify dir1 dir2 rest1 ((name2, node2) :: rest2) n =
              classify dir1 dir2 ((name1, node1) :: rest1) ((name2, node2) :: rest2) n := by
            intro n hn
            simp only [classify]
            rw [lookup_tail node1 rest1 (ne_of_gt (hlt n hn))]
          rw [List.filterMap_cons, hc, List.filterMap_congr hcongr]
          simp [Run.cb]
      · have heq : name1 = name2 := le_antisymm (not_lt.1 hlt2) (not_lt.1 hlt1)
        subst heq
        rw [if_neg hlt1, if_neg (not_not.2 rfl)]
        obtain ⟨status, hst⟩ := cmpFiles_ok node1.file node2.file node1.stat node2.stat
        rw [twosome_nondir intr cmp_data dir1 dir2 name1 node1 node2 s status hdev1 hdev2
          hnd1 hnd2 hst, Result.andThen_none]
        obtain ⟨names, hsorted, hmem, hrun⟩ := ih12 hs1.2 hs2.2 hf1.tail_flat hf2.tail_flat
          (if status ≠ 0 then s.cb (dir1.fullname name1) status else s)
        have hlt : ∀ n ∈ names, name1 < n := by
          intro n hn
          rcases (hmem n).1 hn with h | h
          · exact hs1.1 n h
          · exact hs2.1 n h
        refine ⟨name1 :: names, List.sorted_cons.2 ⟨hlt, hsorted⟩, ?_, ?_⟩
        · intro n
          simp only [List.mem_cons, hmem, List.map_cons]
          constructor
          · rintro (h | h | h)
            · exact Or.inl (Or.inl h)
            · exact Or.inl (Or.inr h)
            · exact Or.inr (Or.inr h)
          · rintro ((h | h) | (h | h))
            · exact Or.inl h
            · exact Or.inr (Or.inl h)
            · exact Or.inl h
            · exact Or.inr (Or.inr h)
        · rw [hrun]
          have hc : classify dir1 dir2 ((name1, node1) :: rest1) ((name1, node2) :: rest2)
              name1 = if status ≠ 0 then some (dir1.fullname name1, status) else none := by
            simp only [classify]
            rw [lookup_head, lookup_head]
            simp only [hst]
          have hcongr : ∀ n ∈ names,
              classify dir1 dir2 rest1 rest2 n =
              classify dir1 dir2 ((name1, node1) :: rest1) ((name1, node2) :: rest2) n := by
            intro n hn
            simp only [classify]
            rw [lookup_tail node1 rest1 (ne_of_gt (hlt n hn)),
              lookup_tail node2 rest2 (ne_of_gt (hlt n hn))]
          rw [List.filterMap_cons, hc, List.filterMap_congr hcongr]
          by_cases h0 : status ≠ 0
          · simp [h0, Run.cb]
          · simp [h0]

/-! ### Paths of entries -/

theorem slashfree_append_cancel : ∀ (a b x y : List Char), '/' ∉ a → '/' ∉ b →
    (x = [] ∨ ∃ r, x = '/' :: r) → (y = [] ∨ ∃ r, y = '/' :: r) →
    a ++ x = b ++ y → a = b := by
  intro a
  induction a with
  | nil =>
    intro b x y _ hb hx hy h
    cases b with
    | nil => rfl
    | cons d b' =>
      exfalso
      simp only [List.nil_append] at h
      rcases hx with hx | ⟨r, hx⟩
      · rw [hx] at h
        cases h
      · rw [hx] at h
        simp only [List.cons_append, List.cons.injEq] at h
        exact hb (by rw [← h.1]; exact List.mem_cons_self _ _)
  | cons c a' ih =>
    intro b x y ha hb hx hy h
    cases b with
    | nil =>
      exfalso
      simp only [List.nil_append] at h
      rcases hy with hy | ⟨r, hy⟩
      · rw [hy] at h
        cases h
      · rw [hy] at h
        simp only [List.cons_append, List.cons.injEq] at h
        exact ha (by rw [h.1]; exact List.mem_cons_self _ _)
    | cons d b' =>
      simp only [List.cons_append, List.cons.injEq] at h
      have := ih b' x y (fun hm => ha (List.mem_cons_of_mem _ hm))
        (fun hm => hb (List.mem_cons_of_mem _ hm)) hx hy h.2
      rw [h.1, this]

theorem InEntry.data {dir name q : String} (h : InEntry dir name q) :
    ∃ x : List Char, (x = [] ∨ ∃ r, x = '/' :: r) ∧
      q.data = dir.data ++ '/' :: (name.data ++ x) := by
  rcases h with h | ⟨r, h⟩
  · refine ⟨[], Or.inl rfl, ?_⟩
    rw [h]
    simp [String.data_append]
  · refine ⟨'/' :: r.data, Or.inr ⟨_, rfl⟩, ?_⟩
    rw [h]
    simp [String.data_append]

/-- Two entries of one directory whose names `readdir` can deliver share no path unless
they have the same name -/
theorem InEntry.same_name {dir n m q : String} (hn : entryName n) (hm : entryName m)
    (h1 : InEntry dir n q) (h2 : InEntry dir m q) : n = m := by
  obtain ⟨x, hx, e1⟩ := h1.data
  obtain ⟨y, hy, e2⟩ := h2.data
  rw [e1] at e2
  have := List.append_cancel_left e2
  simp only [List.cons.injEq, true_and] at this
  exact String.ext (slashfree_append_cancel _ _ x y hn hm hx hy this)

/-- A path of an entry of a subdirectory is a path below the subdirectory -/
theorem InEntry.of_sub {dir name k q : String} (h : InEntry (dir ++ "/" ++ name) k q) :
    InEntry dir name q := by
  rcases h with h | ⟨r, h⟩
  · exact Or.inr ⟨k, h⟩
  · refine Or.inr ⟨k ++ "/" ++ r, ?_⟩
    rw [h]
    simp only [String.append_assoc]

theorem InEntry.self (dir name : String) : InEntry dir name (dir ++ "/" ++ name) :=
  Or.inl rfl

/-- A path of an entry of a subdirectory is not the path of the subdirectory -/
theorem InEntry.ne_dir {dir k q : String} (h : InEntry dir k q) : q ≠ dir := by
  intro he
  obtain ⟨x, -, e⟩ := h.data
  rw [he] at e
  have : dir.data ++ [] = dir.data ++ '/' :: (k.data ++ x) := by
    rw [List.append_nil]
    exact e
  have := List.append_cancel_left this
  cases this

/-! ### What a step adds to the log -/

theorem Adds.same (Q : String → Prop) {s : Run} {r : Result} (h : r.2.log = s.log) :
    Adds Q s r :=
  ⟨[], by simp [h], fun _ h => absurd h (List.not_mem_nil _)⟩

theorem Adds.refl (Q : String → Prop) (o : Option Exception) (s : Run) : Adds Q s (o, s) :=
  Adds.same Q rfl

theorem Adds.from_state {Q : String → Prop} {s s1 : Run} {r : Result} (h : Adds Q s1 r)
    (hlog : s1.log = s.log) : Adds Q s r := by
  obtain ⟨l, hl, hall⟩ := h
  exact ⟨l, by rw [hl, hlog], hall⟩

theorem Adds.mono {Q Q' : String → Prop} {s : Run} {r : Result} (h : Adds Q s r)
    (hq : ∀ q, Q q → Q' q) : Adds Q' s r := by
  obtain ⟨l, hl, hall⟩ := h
  exact ⟨l, hl, fun x hx => hq _ (hall x hx)⟩

theorem Adds.seq {Q : String → Prop} {s : Run} {r : Result} {k : Run → Result}
    (hr : Adds Q s r) (hk : ∀ s1, Adds Q s1 (k s1)) : Adds Q s (r.andThen k) := by
  obtain ⟨o, s1⟩ := r
  cases o with
  | some e =>
    rw [Result.andThen_some]
    exact hr
  | none =>
    rw [Result.andThen_none]
    obtain ⟨l1, h1, q1⟩ := hr
    obtain ⟨l2, h2, q2⟩ := hk s1
    refine ⟨l1 ++ l2, ?_, ?_⟩
    · rw [h2]
      simp only at h1
      rw [h1, List.append_assoc]
    · intro x hx
      rcases List.mem_append.1 hx with h | h
      · exact q1 x h
      · exact q2 x h

theorem Adds.after_cb {Q : String → Prop} {s : Run} (path : String) (status : Nat) {r : Result}
    (hp : Q path) (h : Adds Q (s.cb path status) r) : Adds Q s r := by
  obtain ⟨l, hl, hall⟩ := h
  refine ⟨(path, status) :: l, by rw [hl, Run.cb_log]; simp, ?_⟩
  intro x hx
  rcases List.mem_cons.1 hx with h | h
  · rw [h]; exact hp
  · exact hall x h

theorem Adds.of_eq {Q : String → Prop} {s s' : Run} {r : Result} (h : r = (none, s'))
    (ha : Adds Q s r) : ∃ l, s'.log = s.log ++ l ∧ ∀ x ∈ l, Q x.1 := by
  rw [h] at ha
  exact ha

/-- Every path the loop of `listSubdirs` notifies is the path of an entry of the listing
or a path below one -/
theorem listSubdirsLoop_adds (intr : Nat → Bool) (status : Nat) :
    ∀ (entries : List (String × Node)) (dir : SDir) (s : Run),
      Adds (fun q => ∃ n ∈ entries.map Prod.fst, InEntry dir.path n q) s
        (listSubdirsLoop intr dir entries status s) := by
  refine listing_induction ?_ ?_
  · intro dir s
    rw [listSubdirsLoop_nil]
    exact Adds.refl _ _ _
  · intro name node rest ihk ihr dir s
    rw [listSubdirsLoop_cons]
    have hhead : ∀ q, InEntry dir.path name q →
        ∃ n ∈ List.map Prod.fst ((name, node) :: rest), InEntry dir.path n q :=
      fun q hq => ⟨name, by simp, hq⟩
    have hrest : ∀ s1, Adds (fun q => ∃ n ∈ List.map Prod.fst ((name, node) :: rest),
        InEntry dir.path n q) s1 (listSubdirsLoop intr dir rest status s1) := by
      intro s1
      refine (ihr dir s1).mono ?_
      rintro q ⟨n, hn, hq⟩
      exact ⟨n, by simp only [List.map_cons, List.mem_cons]; exact Or.inr hn, hq⟩
    refine Adds.after_cb (dir.fullname name) status (hhead _ (InEntry.self _ _)) ?_
    split
    · split
      · refine Adds.seq ?_ hrest
        rw [listSubdirs_eq]
        split
        · exact Adds.refl _ _ _
        · split
          · refine Adds.from_state ((ihk ⟨dir.fullname name, some node.stat, node.listable,
              node.kids⟩ _).mono ?_) rfl
            rintro q ⟨k, -, hq⟩
            exact hhead q (InEntry.of_sub hq)
          · exact Adds.same _ rfl
      · exact Adds.refl _ _ _
    · exact hrest _

/-- Every path `listSubdirs` notifies is a path of an entry of the directory or below -/
theorem listSubdirs_adds (intr : Nat → Bool) (dir : SDir) (status : Nat) (s : Run) :
    Adds (fun q => ∃ n ∈ dir.kids.map Prod.fst, InEntry dir.path n q) s
      (listSubdirs intr dir status s) := by
  rw [listSubdirs_eq]
  split
  · exact Adds.refl _ _ _
  · split
    · exact Adds.from_state (listSubdirsLoop_adds intr status _ _ _) rfl
    · exact Adds.same _ rfl

/-- Every path `lonesome` notifies for an entry is its path or a path below it -/
theorem lonesome_adds (intr : Nat → Bool) (dir : SDir) (name : String) (node : Node)
    (status : Nat) (s : Run) :
    Adds (InEntry dir.path name) s (lonesome intr dir name node status s) := by
  rw [lonesome_eq]
  refine Adds.after_cb (dir.fullname name) status (InEntry.self _ _) ?_
  split
  · split
    · refine (listSubdirs_adds intr _ status _).mono ?_
      rintro q ⟨k, -, hq⟩
      exact InEntry.of_sub hq
    · exact Adds.refl _ _ _
  · exact Adds.refl _ _ _

theorem lonesomeStep_adds (intr : Nat → Bool) (dev : Nat) (dir : SDir) (name : String)
    (node : Node) (status : Nat) (s : Run) :
    Adds (InEntry dir.path name) s (lonesomeStep intr dev dir name node status s) := by
  unfold lonesomeStep
  split
  · exact lonesome_adds _ _ _ _ _ _
  · exact Adds.refl _ _ _

theorem dumpStep_adds (intr : Nat → Bool) (dev : Nat) (dir : SDir) (name : String)
    (node : Node) (status : Nat) (s : Run) :
    Adds (InEntry dir.path name) s (dumpStep intr dev dir name node status s) := by
  rw [dumpStep_eq]
  split
  · split
    · split
      · refine (listSubdirs_adds intr _ status _).mono ?_
        rintro q ⟨k, -, hq⟩
        exact InEntry.of_sub hq
      · exact Adds.refl _ _ _
    · exact Adds.refl _ _ _
  · exact Adds.refl _ _ _

theorem Adds.ite_cb {Q : String → Prop} {s : Run} (path : String) (status : Nat) {r : Result}
    (hp : Q path) (h : Adds Q (if status ≠ 0 then s.cb path status else s) r) : Adds Q s r := by
  by_cases h0 : status ≠ 0
  · rw [if_pos h0] at h
    exact Adds.after_cb path status hp h
  · rw [if_neg h0] at h
    exact h

/-- Every path `twosome` notifies for a pair is the path of the pair or a path below it,
when the loop over the two listings below the pair stays below the pair -/
theorem twosome_adds_of (intr : Nat → Bool) (cmp_data : CmpData) (dir1 dir2 : SDir)
    (name : String) (node1 node2 : Node) (hpath : dir1.path = dir2.path)
    (hloop : ∀ d1 d2 s, d1.path = d2.path →
      Adds (fun q => ∃ n, (n ∈ node1.kids.map Prod.fst ∨ n ∈ node2.kids.map Prod.fst) ∧
        InEntry d1.path n q) s
        (cmpDirsWorkerLoop intr cmp_data d1 d2 node1.kids node2.kids s))
    (s : Run) :
    Adds (InEntry dir1.path name) s (twosome intr cmp_data dir1 dir2 name node1 node2 s) := by
  by_cases hd : node1.stat.st_dev = cmp_data.dev1 ∧ node2.stat.st_dev = cmp_data.dev2
  · obtain ⟨status, hs⟩ := cmpFiles_ok node1.file node2.file node1.stat node2.stat
    rw [twosome_on_dev intr cmp_data dir1 dir2 name node1 node2 s status hd.1 hd.2 hs]
    refine Adds.ite_cb (dir1.fullname name) status (InEntry.self _ _) ?_
    generalize (if status ≠ 0 then s.cb (dir1.fullname name) status else s) = s0
    split
    · split
      · split
        · split
          · rw [cmpDirsWorker_eq]
            split
            · exact Adds.refl _ _ _
            · split
              · split
                · refine Adds.from_state ((hloop
                    ⟨dir1.fullname name, some node1.stat, node1.listable, node1.kids⟩
                    ⟨dir2.fullname name, some node2.stat, node2.listable, node2.kids⟩ _
                    (by simp only [SDir.fullname, hpath])).mono ?_) rfl
                  rintro q ⟨k, -, hq⟩
                  exact InEntry.of_sub hq
                · exact Adds.same _ rfl
              · exact Adds.same _ rfl
          · exact Adds.refl _ _ _
        · exact Adds.refl _ _ _
      · exact Adds.refl _ _ _
    · refine Adds.seq (dumpStep_adds _ _ _ _ _ _ _) ?_
      intro s1
      rw [hpath]
      exact dumpStep_adds _ _ _ _ _ _ _
  · rw [twosome_off_dev intr cmp_data dir1 dir2 name node1 node2 s hd]
    exact Adds.refl _ _ _

/-- Every path the merge loop notifies is the path of an entry of one of the two
listings or a path below one, when the two directories have the same relative path -/
theorem cmpDirsWorkerLoop_adds (intr : Nat → Bool) (cmp_data : CmpData) :
    ∀ (entries1 entries2 : List (String × Node)) (dir1 dir2 : SDir) (s : Run),
      dir1.path = dir2.path →
      Adds (fun q => ∃ n, (n ∈ entries1.map Prod.fst ∨ n ∈ entries2.map Prod.fst) ∧
        InEntry dir1.path n q) s
        (cmpDirsWorkerLoop intr cmp_data dir1 dir2 entries1 entries2 s) := by
  refine listing_pair_induction ?_ ?_ ?_ ?_
  · intro dir1 dir2 s _
    rw [cmpDirsWorkerLoop_nil_nil]
    exact Adds.refl _ _ _
  · intro name2 node2 rest2 ih dir1 dir2 s hpath
    rw [cmpDirsWorkerLoop_nil_cons]
    have hrest : ∀ s1, Adds (fun q => ∃ n, (n ∈ List.map Prod.fst ([] : List (String × Node)) ∨
        n ∈ List.map Prod.fst ((name2, node2) :: rest2)) ∧ InEntry dir1.path n q) s1
        (cmpDirsWorkerLoop intr cmp_data dir1 dir2 [] rest2 s1) := by
      intro s1
      refine (ih dir1 dir2 s1 hpath).mono ?_
      rintro q ⟨n, hn | hn, hq⟩
      · exact ⟨n, Or.inl hn, hq⟩
      · exact ⟨n, Or.inr (by simp only [List.map_cons, List.mem_cons]; exact Or.inr hn), hq⟩
    split
    · exact hrest s
    · refine Adds.seq ((lonesomeStep_adds _ _ _ _ _ _ _).mono ?_) hrest
      intro q hq
      rw [← hpath] at hq
      exact ⟨name2, Or.inr (by simp), hq⟩
  · intro name1 node1 rest1 ih dir1 dir2 s hpath
    rw [cmpDirsWorkerLoop_cons_nil]
    have hrest : ∀ s1, Adds (fun q => ∃ n, (n ∈ List.map Prod.fst ((name1, node1) :: rest1) ∨
        n ∈ List.map Prod.fst ([] : List (String × Node))) ∧ InEntry dir1.path n q) s1
        (cmpDirsWorkerLoop intr cmp_data dir1 dir2 rest1 [] s1) := by
      intro s1
      refine (ih dir1 dir2 s1 hpath).mono ?_
      rintro q ⟨n, hn | hn, hq⟩
      · exact ⟨n, Or.inl (by simp only [List.map_cons, List.mem_cons]; exact Or.inr hn), hq⟩
      · exact ⟨n, Or.inr hn, hq⟩
    split
    · exact hrest s
    · refine Adds.seq ((lonesomeStep_adds _ _ _ _ _ _ _).mono ?_) hrest
      intro q hq
      exact ⟨name1, Or.inl (by simp), hq⟩
  · intro name1 node1 rest1 name2 node2 rest2 ih1 ih2 ih12 ihk dir1 dir2 s hpath
    rw [cmpDirsWorkerLoop_cons_cons]
    have hr1 : ∀ s1, Adds (fun q => ∃ n, (n ∈ List.map Prod.fst ((name1, node1) :: rest1) ∨
        n ∈ List.map Prod.fst ((name2, node2) :: rest2)) ∧ InEntry dir1.path n q) s1
        (cmpDirsWorkerLoop intr cmp_data dir1 dir2 rest1 ((name2, node2) :: rest2) s1) := by
      intro s1
      refine (ih1 dir1 dir2 s1 hpath).mono ?_
      rintro q ⟨n, hn | hn, hq⟩
      · exact ⟨n, Or.inl (by simp only [List.map_cons, List.mem_cons]; exact Or.inr hn), hq⟩
      · exact ⟨n, Or.inr hn, hq⟩
    have hr2 : ∀ s1, Adds (fun q => ∃ n, (n ∈ List.map Prod.fst ((name1, node1) :: rest1) ∨
        n ∈ List.map Prod.fst ((name2, node2) :: rest2)) ∧ InEntry dir1.path n q) s1
        (cmpDirsWorkerLoop intr cmp_data dir1 dir2 ((name1, node1) :: rest1) rest2 s1) := by
      intro s1
      refine (ih2 dir1 dir2 s1 hpath).mono ?_
      rintro q ⟨n, hn | hn, hq⟩
      · exact ⟨n, Or.inl hn, hq⟩
      · exact ⟨n, Or.inr (by simp only [List.map_cons, List.mem_cons]; exact Or.inr hn), hq⟩
    have hr12 : ∀ s1, Adds (fun q => ∃ n, (n ∈ List.map Prod.fst ((name1, node1) :: rest1) ∨
        n ∈ List.map Prod.fst ((name2, node2) :: rest2)) ∧ InEntry dir1.path n q) s1
        (cmpDirsWorkerLoop intr cmp_data dir1 dir2 rest1 rest2 s1) := by
      intro s1
      refine (ih12 dir1 dir2 s1 hpath).mono ?_
      rintro q ⟨n, hn | hn, hq⟩
      · exact ⟨n, Or.inl (by simp only [List.map_cons, List.mem_cons]; exact Or.inr hn), hq⟩
      · exact ⟨n, Or.inr (by simp only [List.map_cons, List.mem_cons]; exact Or.inr hn), hq⟩
    have hl1 : ∀ s1 status, Adds (fun q => ∃ n,
        (n ∈ List.map Prod.fst ((name1, node1) :: rest1) ∨
        n ∈ List.map Prod.fst ((name2, node2) :: rest2)) ∧ InEntry dir1.path n q) s1
        (lonesomeStep intr cmp_data.dev1 dir1 name1 node1 status s1) := by
      intro s1 status
      refine (lonesomeStep_adds _ _ _ _ _ _ _).mono ?_
      intro q hq
      exact ⟨name1, Or.inl (by simp), hq⟩
    have hl2 : ∀ s1 status, Adds (fun q => ∃ n,
        (n ∈ List.map Prod.fst ((name1, node1) :: rest1) ∨
        n ∈ List.map Prod.fst ((name2, node2) :: rest2)) ∧ InEntry dir1.path n q) s1
        (lonesomeStep intr cmp_data.dev2 dir2 name2 node2 status s1) := by
      intro s1 status
      refine (lonesomeStep_adds _ _ _ _ _ _ _).mono ?_
      intro q hq
      rw [← hpath] at hq
      exact ⟨name2, Or.inr (by simp), hq⟩
    split
    · exact hr1 s
    · split
      · exact hr2 s
      · split
        · exact Adds.seq (hl2 _ _) hr2
        · split
          · exact Adds.seq (hl1 _ _) hr1
          · split
            · exact Adds.refl _ _ _
            · refine Adds.seq ((twosome_adds_of intr cmp_data dir1 dir2 name1 node1 node2
                hpath (fun d1 d2 s h => ihk d1 d2 s h) s).mono ?_) hr12
              intro q hq
              exact ⟨name1, Or.inl (by simp), hq⟩

/-- Every path `twosome` notifies for a pair is the path of the pair or a path below -/
theorem twosome_adds (intr : Nat → Bool) (cmp_data : CmpData) (dir1 dir2 : SDir)
    (name : String) (node1 node2 : Node) (hpath : dir1.path = dir2.path) (s : Run) :
    Adds (InEntry dir1.path name) s (twosome intr cmp_data dir1 dir2 name node1 node2 s) :=
  twosome_adds_of intr cmp_data dir1 dir2 name node1 node2 hpath
    (fun d1 d2 s h => cmpDirsWorkerLoop_adds intr cmp_data _ _ d1 d2 s h) s

/-! ### Entries on one side only -/

theorem IsolatedBlock.of_head {dir name : String} {log log1 log' block : List (String × Nat)}
    (h1 : log1 = log ++ block)
    (h2 : ∃ l, log' = log1 ++ l ∧ ∀ x ∈ l, ∃ m, m ≠ name ∧ entryName m ∧ InEntry dir m x.1) :
    IsolatedBlock dir name log log' block := by
  obtain ⟨l, hl, hall⟩ := h2
  refine ⟨[], l, by rw [hl, h1]; simp, ?_⟩
  intro x hx
  exact hall x (by simpa using hx)

theorem IsolatedBlock.of_tail {dir name : String} {log log1 log' block : List (String × Nat)}
    (h1 : ∃ l, log1 = log ++ l ∧ ∀ x ∈ l, ∃ m, m ≠ name ∧ entryName m ∧ InEntry dir m x.1)
    (h2 : IsolatedBlock dir name log1 log' block) : IsolatedBlock dir name log log' block := by
  obtain ⟨l, hl, hall⟩ := h1
  obtain ⟨pre, post, h, hpp⟩ := h2
  refine ⟨l ++ pre, post, by rw [h, hl]; simp, ?_⟩
  intro x hx
  simp only [List.append_assoc, List.mem_append] at hx
  rcases hx with hx | hx | hx
  · exact hall x hx
  · exact hpp x (List.mem_append.2 (Or.inl hx))
  · exact hpp x (List.mem_append.2 (Or.inr hx))

theorem mem_names {name : String} {node : Node} {l : List (String × Node)}
    (h : (name, node) ∈ l) : name ∈ l.map Prod.fst :=
  List.mem_map.2 ⟨(name, node), h, rfl⟩

/-- A step that only notifies paths of the entry `m`, seen from an entry `name ≠ m` -/
theorem Adds.other {dir m name : String} {s s1 : Run} {r : Result} (h : r = (none, s1))
    (ha : Adds (InEntry dir m) s r) (hne : m ≠ name) (hm : entryName m) :
    ∃ l, s1.log = s.log ++ l ∧ ∀ x ∈ l, ∃ m, m ≠ name ∧ entryName m ∧ InEntry dir m x.1 := by
  obtain ⟨l, hl, hall⟩ := Adds.of_eq h ha
  exact ⟨l, hl, fun x hx => ⟨m, hne, hm, hall x hx⟩⟩

/-- A loop that only notifies paths of entries of two listings, seen from an entry whose
name is in neither -/
theorem Adds.others {dir name : String} {s s1 : Run} {r : Result}
    {l1 l2 : List (String × Node)} (h : r = (none, s1))
    (ha : Adds (fun q => ∃ n, (n ∈ l1.map Prod.fst ∨ n ∈ l2.map Prod.fst) ∧
      InEntry dir n q) s r)
    (h1 : name ∉ l1.map Prod.fst) (h2 : name ∉ l2.map Prod.fst)
    (hn1 : ∀ n ∈ l1.map Prod.fst, entryName n) (hn2 : ∀ n ∈ l2.map Prod.fst, entryName n) :
    ∃ l, s1.log = s.log ++ l ∧ ∀ x ∈ l, ∃ m, m ≠ name ∧ entryName m ∧ InEntry dir m x.1 := by
  obtain ⟨l, hl, hall⟩ := Adds.of_eq h ha
  refine ⟨l, hl, fun x hx => ?_⟩
  obtain ⟨m, hm, hq⟩ := hall x hx
  rcases hm with hm | hm
  · exact ⟨m, fun he => h1 (he ▸ hm), hn1 m hm, hq⟩
  · exact ⟨m, fun he => h2 (he ▸ hm), hn2 m hm, hq⟩

theorem names_cons (name : String) (node : Node) (rest : List (String × Node)) :
    List.map Prod.fst ((name, node) :: rest) = name :: List.map Prod.fst rest := rfl

set_option maxHeartbeats 1000000 in
/-- In a run of the merge loop that ends without exception, over two listings of
directories with the same relative path in which no name occurs twice and every name is
one `readdir` can deliver: every entry that is present on one side only and lies on the
root device of its side has been dumped in full, in one block, and no other
notification of the run is for the entry or a path below it -/
theorem cmpDirsWorkerLoop_one_sided_once (intr : Nat → Bool) (cmp_data : CmpData) :
    ∀ (entries1 entries2 : List (String × Node)) (dir1 dir2 : SDir) (s s' : Run),
      dir1.path = dir2.path →
      (entries1.map Prod.fst).Nodup → (entries2.map Prod.fst).Nodup →
      (∀ n ∈ entries1.map Prod.fst, entryName n) →
      (∀ n ∈ entries2.map Prod.fst, entryName n) →
      cmpDirsWorkerLoop intr cmp_data dir1 dir2 entries1 entries2 s = (none, s') →
      (∀ name node, (name, node) ∈ entries1 → name ∉ entries2.map Prod.fst →
        node.stat.st_dev = cmp_data.dev1 → Proper [(name, node)] →
        IsolatedBlock dir1.path name s.log s'.log (dumpOf (dir1.fullname name) node DELETED)) ∧
      (∀ name node, (name, node) ∈ entries2 → name ∉ entries1.map Prod.fst →
        node.stat.st_dev = cmp_data.dev2 → Proper [(name, node)] →
        IsolatedBlock dir1.path name s.log s'.log (dumpOf (dir2.fullname name) node CREATED)) := by
  refine listing_pair_induction ?_ ?_ ?_ ?_
  · intro dir1 dir2 s s' _ _ _ _ _ _
    exact ⟨fun _ _ h => absurd h (List.not_mem_nil _), fun _ _ h => absurd h (List.not_mem_nil _)⟩
  · intro name2 node2 rest2 ih dir1 dir2 s s' hpath hnd1 hnd2 hen1 hen2 h
    rw [names_cons] at hnd2 hen2
    have hnd2' := (List.nodup_cons.1 hnd2)
    have hen2' : ∀ n ∈ List.map Prod.fst rest2, entryName n :=
      fun n hn => hen2 n (List.mem_cons_of_mem _ hn)
    rw [cmpDirsWorkerLoop_nil_cons,
      if_neg (by rw [filter_of_entryName (hen2 name2 (List.mem_cons_self _ _))]; simp)] at h
    obtain ⟨s1, h1, h2⟩ := Result.andThen_eq_none h
    have ih' := ih dir1 dir2 s1 s' hpath hnd1 hnd2'.2 hen1 hen2' h2
    have hloop := cmpDirsWorkerLoop_adds intr cmp_data [] rest2 dir1 dir2 s1 hpath
    have hstep := lonesomeStep_adds intr cmp_data.dev2 dir2 name2 node2 CREATED s
    rw [← hpath] at hstep
    refine ⟨fun _ _ h => absurd h (List.not_mem_nil _), ?_⟩
    intro name node hmem hnot hdev hp
    rcases List.mem_cons.1 hmem with heq | hmem'
    · cases heq
      exact IsolatedBlock.of_head (lonesomeStep_dump _ _ _ _ _ _ _ _ hdev hp h1)
        (Adds.others h2 hloop hnot hnd2'.1 hen1 hen2')
    · exact IsolatedBlock.of_tail
        (Adds.other h1 hstep (fun he => hnd2'.1 (he ▸ mem_names hmem'))
          (hen2 name2 (List.mem_cons_self _ _)))
        (ih'.2 name node hmem' hnot hdev hp)
  · intro name1 node1 rest1 ih dir1 dir2 s s' hpath hnd1 hnd2 hen1 hen2 h
    rw [names_cons] at hnd1 hen1
    have hnd1' := (List.nodup_cons.1 hnd1)
    have hen1' : ∀ n ∈ List.map Prod.fst rest1, entryName n :=
      fun n hn => hen1 n (List.mem_cons_of_mem _ hn)
    rw [cmpDirsWorkerLoop_cons_nil,
      if_neg (by rw [filter_of_entryName (hen1 name1 (List.mem_cons_self _ _))]; simp)] at h
    obtain ⟨s1, h1, h2⟩ := Result.andThen_eq_none h
    have ih' := ih dir1 dir2 s1 s' hpath hnd1'.2 hnd2 hen1' hen2 h2
    have hloop := cmpDirsWorkerLoop_adds intr cmp_data rest1 [] dir1 dir2 s1 hpath
    have hstep := lonesomeStep_adds intr cmp_data.dev1 dir1 name1 node1 DELETED s
    refine ⟨?_, fun _ _ h => absurd h (List.not_mem_nil _)⟩
    intro name node hmem hnot hdev hp
    rcases List.mem_cons.1 hmem with heq | hmem'
    · cases heq
      exact IsolatedBlock.of_head (lonesomeStep_dump _ _ _ _ _ _ _ _ hdev hp h1)
        (Adds.others h2 hloop hnd1'.1 hnot hen1' hen2)
    · exact IsolatedBlock.of_tail
        (Adds.other h1 hstep (fun he => hnd1'.1 (he ▸ mem_names hmem'))
          (hen1 name1 (List.mem_cons_self _ _)))
        (ih'.1 name node hmem' hnot hdev hp)
  · intro name1 node1 rest1 name2 node2 rest2 ih1 ih2 ih12 _ dir1 dir2 s s' hpath hnd1 hnd2
      hen1 hen2 h
    have hnd1' := (List.nodup_cons.1 hnd1)
    have hnd2' := (List.nodup_cons.1 hnd2)
    have hen1' : ∀ n ∈ List.map Prod.fst rest1, entryName n :=
      fun n hn => hen1 n (List.mem_cons_of_mem _ hn)
    have hen2' : ∀ n ∈ List.map Prod.fst rest2, entryName n :=
      fun n hn => hen2 n (List.mem_cons_of_mem _ hn)
    have hn1 : entryName name1 := hen1 name1 (List.mem_cons_self _ _)
    have hn2 : entryName name2 := hen2 name2 (List.mem_cons_self _ _)
    have hsub2 : ∀ name : String, name ∉ List.map Prod.fst ((name2, node2) :: rest2) →
        name ≠ name2 ∧ name ∉ List.map Prod.fst rest2 := by
      intro name hn
      exact ⟨fun he => hn (he ▸ List.mem_cons_self _ _), fun hm => hn (List.mem_cons_of_mem _ hm)⟩
    have hsub1 : ∀ name : String, name ∉ List.map Prod.fst ((name1, node1) :: rest1) →
        name ≠ name1 ∧ name ∉ List.map Prod.fst rest1 := by
      intro name hn
      exact ⟨fun he => hn (he ▸ List.mem_cons_self _ _), fun hm => hn (List.mem_cons_of_mem _ hm)⟩
    rw [cmpDirsWorkerLoop_cons_cons, if_neg (by rw [filter_of_entryName hn1]; simp),
      if_neg (by rw [filter_of_entryName hn2]; simp)] at h
    by_cases hlt2 : name2 < name1
    · rw [if_pos hlt2] at h
      obtain ⟨s1, h1, h2⟩ := Result.andThen_eq_none h
      have ih' := ih2 dir1 dir2 s1 s' hpath hnd1 hnd2'.2 hen1 hen2' h2
      have hloop := cmpDirsWorkerLoop_adds intr cmp_data ((name1, node1) :: rest1) rest2
        dir1 dir2 s1 hpath
      have hstep := lonesomeStep_adds intr cmp_data.dev2 dir2 name2 node2 CREATED s
      rw [← hpath] at hstep
      refine ⟨?_, ?_⟩
      · intro name node hmem hnot hdev hp
        exact IsolatedBlock.of_tail (Adds.other h1 hstep (fun he => (hsub2 name hnot).1 he.symm)
          hn2) (ih'.1 name node hmem (hsub2 name hnot).2 hdev hp)
      · intro name node hmem hnot hdev hp
        rcases List.mem_cons.1 hmem with heq | hmem'
        · cases heq
          exact IsolatedBlock.of_head (lonesomeStep_dump _ _ _ _ _ _ _ _ hdev hp h1)
            (Adds.others h2 hloop hnot hnd2'.1 hen1 hen2')
        · exact IsolatedBlock.of_tail
            (Adds.other h1 hstep (fun he => hnd2'.1 (he ▸ mem_names hmem')) hn2)
            (ih'.2 name node hmem' hnot hdev hp)
    · rw [if_neg hlt2] at h
      by_cases hlt1 : name1 < name2
      · rw [if_pos hlt1] at h
        obtain ⟨s1, h1, h2⟩ := Result.andThen_eq_none h
        have ih' := ih1 dir1 dir2 s1 s' hpath hnd1'.2 hnd2 hen1' hen2 h2
        have hloop := cmpDirsWorkerLoop_adds intr cmp_data rest1 ((name2, node2) :: rest2)
          dir1 dir2 s1 hpath
        have hstep := lonesomeStep_adds intr cmp_data.dev1 dir1 name1 node1 DELETED s
        refine ⟨?_, ?_⟩
        · intro name node hmem hnot hdev hp
          rcases List.mem_cons.1 hmem with heq | hmem'
          · cases heq
            exact IsolatedBlock.of_head (lonesomeStep_dump _ _ _ _ _ _ _ _ hdev hp h1)
              (Adds.others h2 hloop hnd1'.1 hnot hen1' hen2)
          · exact IsolatedBlock.of_tail
              (Adds.other h1 hstep (fun he => hnd1'.1 (he ▸ mem_names hmem')) hn1)
              (ih'.1 name node hmem' hnot hdev hp)
        · intro name node hmem hnot hdev hp
          exact IsolatedBlock.of_tail (Adds.other h1 hstep
            (fun he => (hsub1 name hnot).1 he.symm) hn1)
            (ih'.2 name node hmem (hsub1 name hnot).2 hdev hp)
      · rw [if_neg hlt1] at h
        by_cases hne : name1 ≠ name2
        · rw [if_pos hne] at h
          cases h
        · rw [if_neg hne] at h
          have heq12 : name1 = name2 := not_not.1 hne
          obtain ⟨s1, h1, h2⟩ := Result.andThen_eq_none h
          have ih' := ih12 dir1 dir2 s1 s' hpath hnd1'.2 hnd2'.2 hen1' hen2' h2
          have hstep := twosome_adds intr cmp_data dir1 dir2 name1 node1 node2 hpath s
          refine ⟨?_, ?_⟩
          · intro name node hmem hnot hdev hp
            rcases List.mem_cons.1 hmem with heq | hmem'
            · cases heq
              exact absurd (heq12 ▸ List.mem_cons_self _ _) hnot
            · exact IsolatedBlock.of_tail
                (Adds.other h1 hstep (fun he => hnd1'.1 (he ▸ mem_names hmem')) hn1)
                (ih'.1 name node hmem' (hsub2 name hnot).2 hdev hp)
          · intro name node hmem hnot hdev hp
            rcases List.mem_cons.1 hmem with heq | hmem'
            · cases heq
              exact absurd (heq12 ▸ List.mem_cons_self _ _) hnot
            · exact IsolatedBlock.of_tail
                (Adds.other h1 hstep (fun he => (hsub1 name hnot).1 he.symm) hn1)
                (ih'.2 name node hmem' (hsub1 name hnot).2 hdev hp)

/-! ### The paths of a dump -/

/-- Every path below a directory is the path of an entry of its listing or below one -/
theorem pathsBelow_inEntry : ∀ (entries : List (String × Node)) (path q : String),
    q ∈ pathsBelow path entries → ∃ n ∈ entries.map Prod.fst, InEntry path n q := by
  refine listing_induction ?_ ?_
  · intro path q h
    rw [pathsBelow_nil] at h
    exact absurd h (List.not_mem_nil _)
  · intro name node rest ihk ihr path q h
    rw [pathsBelow_cons] at h
    rcases List.mem_cons.1 h with h | h
    · exact ⟨name, List.mem_cons_self _ _, Or.inl h⟩
    · rcases List.mem_append.1 h with h | h
      · obtain ⟨k, -, hq⟩ := ihk _ q h
        exact ⟨name, List.mem_cons_self _ _, InEntry.of_sub hq⟩
      · obtain ⟨n, hn, hq⟩ := ihr path q h
        exact ⟨n, List.mem_cons_of_mem _ hn, hq⟩

theorem GoodNames.names_ok {entries : List (String × Node)} (h : GoodNames entries) :
    ∀ n ∈ entries.map Prod.fst, entryName n := by
  induction h with
  | nil => intro n hn; exact absurd hn (List.not_mem_nil _)
  | cons name node rest hname _ _ _ _ ihr =>
    intro n hn
    rcases List.mem_cons.1 hn with h | h
    · rw [h]; exact hname
    · exact ihr n h

/-- The paths below a directory are pairwise different when, hereditarily, no listing
holds a name twice and all names are names `readdir` can deliver -/
theorem pathsBelow_nodup {entries : List (String × Node)} (h : GoodNames entries) :
    ∀ path : String, (pathsBelow path entries).Nodup := by
  induction h with
  | nil =>
    intro path
    rw [pathsBelow_nil]
    exact List.nodup_nil
  | cons name node rest hname hnot _ hrest ihk ihr =>
    intro path
    rw [pathsBelow_cons]
    have hself : InEntry path name (path ++ "/" ++ name) := Or.inl rfl
    have hother : ∀ q, q ∈ pathsBelow path rest → ¬ InEntry path name q := by
      intro q hq hin
      obtain ⟨m, hm, hqm⟩ := pathsBelow_inEntry rest path q hq
      have := InEntry.same_name hname (hrest.names_ok m hm) hin hqm
      exact hnot (this ▸ hm)
    refine List.nodup_cons.2 ⟨?_, List.Nodup.append (ihk _) (ihr path) ?_⟩
    · intro hmem
      rcases List.mem_append.1 hmem with h | h
      · obtain ⟨k, -, hq⟩ := pathsBelow_inEntry node.kids _ _ h
        exact hq.ne_dir rfl
      · exact hother _ h hself
    · intro q h1 h2
      obtain ⟨k, -, hq⟩ := pathsBelow_inEntry node.kids _ _ h1
      exact hother q h2 (InEntry.of_sub hq)

/-- Every path of the dump of an entry is the path of the entry or a path below it -/
theorem dumpOf_inEntry (dir name : String) (node : Node) (status : Nat) :
    ∀ q ∈ (dumpOf (dir ++ "/" ++ name) node status).map Prod.fst, InEntry dir name q := by
  intro q hq
  simp only [dumpOf, List.map_map, List.map_cons, List.mem_cons, List.mem_map,
    Function.comp] at hq
  rcases hq with hq | ⟨p, hp, rfl⟩
  · exact Or.inl hq
  · obtain ⟨k, -, hk⟩ := pathsBelow_inEntry node.kids _ _ hp
    exact InEntry.of_sub hk

/-- The paths of the dump of an entry are pairwise different -/
theorem dumpOf_nodup (path : String) (node : Node) (status : Nat) (h : GoodNames node.kids) :
    ((dumpOf path node status).map Prod.fst).Nodup := by
  have e : (dumpOf path node status).map Prod.fst = path :: pathsBelow path node.kids := by
    simp [dumpOf, Function.comp_def]
  rw [e]
  refine List.nodup_cons.2 ⟨?_, pathsBelow_nodup h path⟩
  intro hmem
  obtain ⟨k, -, hq⟩ := pathsBelow_inEntry node.kids _ _ hmem
  exact hq.ne_dir rfl

theorem IsolatedBlock.once {dir name : String} {node : Node} {status : Nat}
    {log log' : List (String × Nat)} (hname : entryName name)
    (h : IsolatedBlock dir name log log' (dumpOf (dir ++ "/" ++ name) node status)) :
    ContainsOnce log log' (dumpOf (dir ++ "/" ++ name) node status) := by
  obtain ⟨pre, post, hlog, hall⟩ := h
  refine ⟨pre, post, hlog, ?_⟩
  intro x hx hmem
  obtain ⟨m, hne, hm, hq⟩ := hall x hx
  exact hne (InEntry.same_name hm hname hq (dumpOf_inEntry dir name node status _ hmem))

/-! ### Runs that end without exception -/

theorem Result.andThen_fst_none {r : Result} {k : Run → Result} (hr : r.1 = none)
    (hk : ∀ s1, (k s1).1 = none) : (r.andThen k).1 = none := by
  obtain ⟨o, s1⟩ := r
  simp only at hr
  subst hr
  rw [Result.andThen_none]
  exact hk s1

/-- The loop of `listSubdirs` ends without exception when no interruption is requested
and every directory below can be opened and listed -/
theorem listSubdirsLoop_completes (intr : Nat → Bool) (hi : ∀ n, intr n = false)
    (status : Nat) {entries : List (String × Node)} (h : Readable entries) :
    ∀ (dir : SDir) (s : Run), (listSubdirsLoop intr dir entries status s).1 = none := by
  induction h with
  | nil =>
    intro dir s
    rw [listSubdirsLoop_nil]
  | cons name node rest hopen _ _ ihk ihr =>
    intro dir s
    rw [listSubdirsLoop_cons]
    by_cases hd : S_ISDIR node.stat.st_mode = true
    · obtain ⟨ho, hl⟩ := hopen hd
      rw [if_pos hd, if_pos ho]
      refine Result.andThen_fst_none ?_ (fun s1 => ihr dir s1)
      rw [listSubdirs_eq, hi, if_neg (by simp), if_pos hl]
      exact ihk _ _
    · rw [if_neg hd]
      exact ihr dir _

theorem listSubdirs_completes (intr : Nat → Bool) (hi : ∀ n, intr n = false) (status : Nat)
    (dir : SDir) (hl : dir.listable = true) (h : Readable dir.kids) (s : Run) :
    (listSubdirs intr dir status s).1 = none := by
  rw [listSubdirs_eq, hi, if_neg (by simp), if_pos hl]
  exact listSubdirsLoop_completes intr hi status h _ _

theorem Readable.cons_inv {name : String} {node : Node} {rest : List (String × Node)}
    (h : Readable ((name, node) :: rest)) :
    (S_ISDIR node.stat.st_mode = true → node.file.fd.isSome = true ∧ node.listable = true) ∧
      Readable node.kids ∧ Readable rest := by
  cases h with
  | cons _ _ _ h1 h2 h3 => exact ⟨h1, h2, h3⟩

theorem lonesomeStep_completes (intr : Nat → Bool) (hi : ∀ n, intr n = false) (dev : Nat)
    (dir : SDir) (name : String) (node : Node) (status : Nat)
    (hopen : S_ISDIR node.stat.st_mode = true →
      node.file.fd.isSome = true ∧ node.listable = true)
    (hk : Readable node.kids) (s : Run) :
    (lonesomeStep intr dev dir name node status s).1 = none := by
  unfold lonesomeStep
  by_cases hdev : node.stat.st_dev = dev
  · rw [if_pos hdev, lonesome_eq]
    by_cases hd : S_ISDIR node.stat.st_mode = true
    · obtain ⟨ho, hl⟩ := hopen hd
      rw [if_pos hd, if_pos ho]
      exact listSubdirs_completes intr hi status _ hl hk _
    · rw [if_neg hd]
  · rw [if_neg hdev]

theorem dumpStep_completes (intr : Nat → Bool) (hi : ∀ n, intr n = false) (dev : Nat)
    (dir : SDir) (name : String) (node : Node) (status : Nat)
    (hopen : S_ISDIR node.stat.st_mode = true →
      node.file.fd.isSome = true ∧ node.listable = true)
    (hk : Readable node.kids) (s : Run) :
    (dumpStep intr dev dir name node status s).1 = none := by
  rw [dumpStep_eq]
  by_cases hd : S_ISDIR node.stat.st_mode = true
  · obtain ⟨ho, hl⟩ := hopen hd
    rw [if_pos hd]
    by_cases hdev : node.stat.st_dev = dev
    · rw [if_pos hdev, if_pos ho]
      exact listSubdirs_completes intr hi status _ hl hk _
    · rw [if_neg hdev]
  · rw [if_neg hd]

/-- When the status of `cmpFiles` has no TYPE bit, the two entries have the same type -/
theorem cmpFiles_no_type {file1 file2 : SFile} {stat1 stat2 : Stat} {status : Nat}
    (hs : cmpFiles file1 stat1 file2 stat2 = .ok status) (hT : status &&& TYPE = 0) :
    stat1.st_mode &&& S_IFMT = stat2.st_mode &&& S_IFMT := by
  obtain ⟨t, ht⟩ := exists_bool_iff (stat1.st_mode &&& S_IFMT ≠ stat2.st_mode &&& S_IFMT)
  obtain ⟨c, hc⟩ := exists_bool_iff (stat1.st_mode &&& S_IFMT = stat2.st_mode &&& S_IFMT ∧
    cmpFilesContent file1 stat1 file2 stat2 = .ok false)
  obtain ⟨p, hp⟩ := exists_bool_iff ((stat1.st_mode ^^^ stat2.st_mode) &&& permMask ≠ 0)
  obtain ⟨u, hu⟩ := exists_bool_iff (stat1.st_uid ≠ stat2.st_uid)
  obtain ⟨g, hg⟩ := exists_bool_iff (stat1.st_gid ≠ stat2.st_gid)
  have hv := cmpFiles_val file1 file2 stat1 stat2 t c p u g ht hc hp hu hg
  rw [hs] at hv
  cases hv
  by_contra hne
  exact (flag_bits t c p u g).1.2 (ht.2 hne) hT

/-- The merge loop ends without exception when no interruption is requested and every
directory below the two listings can be opened and listed -/
theorem cmpDirsWorkerLoop_completes (intr : Nat → Bool) (hi : ∀ n, intr n = false)
    (cmp_data : CmpData) :
    ∀ (entries1 entries2 : List (String × Node)), Readable entries1 → Readable entries2 →
      ∀ (dir1 dir2 : SDir) (s : Run),
        (cmpDirsWorkerLoop intr cmp_data dir1 dir2 entries1 entries2 s).1 = none := by
  refine listing_pair_induction ?_ ?_ ?_ ?_
  · intro _ _ dir1 dir2 s
    rw [cmpDirsWorkerLoop_nil_nil]
  · intro name2 node2 rest2 ih h1 h2 dir1 dir2 s
    rw [cmpDirsWorkerLoop_nil_cons]
    split
    · exact ih h1 h2.cons_inv.2.2 _ _ _
    · exact Result.andThen_fst_none (lonesomeStep_completes intr hi _ _ _ _ _ h2.cons_inv.1 h2.cons_inv.2.1 _)
        (fun s1 => ih h1 h2.cons_inv.2.2 _ _ s1)
  · intro name1 node1 rest1 ih h1 h2 dir1 dir2 s
    rw [cmpDirsWorkerLoop_cons_nil]
    split
    · exact ih h1.cons_inv.2.2 h2 _ _ _
    · exact Result.andThen_fst_none (lonesomeStep_completes intr hi _ _ _ _ _ h1.cons_inv.1 h1.cons_inv.2.1 _)
        (fun s1 => ih h1.cons_inv.2.2 h2 _ _ s1)
  · intro name1 node1 rest1 name2 node2 rest2 ih1 ih2 ih12 ihk h1 h2 dir1 dir2 s
    rw [cmpDirsWorkerLoop_cons_cons]
    by_cases hf1 : filter name1 = true
    · rw [if_pos hf1]
      exact ih1 h1.cons_inv.2.2 h2 _ _ _
    · rw [if_neg hf1]
      by_cases hf2 : filter name2 = true
      · rw [if_pos hf2]
        exact ih2 h1 h2.cons_inv.2.2 _ _ _
      · rw [if_neg hf2]
        by_cases hlt2 : name2 < name1
        · rw [if_pos hlt2]
          exact Result.andThen_fst_none (lonesomeStep_completes intr hi _ _ _ _ _ h2.cons_inv.1 h2.cons_inv.2.1 _)
            (fun s1 => ih2 h1 h2.cons_inv.2.2 _ _ s1)
        · rw [if_neg hlt2]
          by_cases hlt1 : name1 < name2
          · rw [if_pos hlt1]
            exact Result.andThen_fst_none (lonesomeStep_completes intr hi _ _ _ _ _ h1.cons_inv.1 h1.cons_inv.2.1 _)
              (fun s1 => ih1 h1.cons_inv.2.2 h2 _ _ s1)
          · have heq : name1 = name2 := le_antisymm (not_lt.1 hlt2) (not_lt.1 hlt1)
            rw [if_neg hlt1, if_neg (not_not.2 heq)]
            refine Result.andThen_fst_none ?_ (fun s1 => ih12 h1.cons_inv.2.2 h2.cons_inv.2.2 _ _ s1)
            by_cases hd : node1.stat.st_dev = cmp_data.dev1 ∧ node2.stat.st_dev = cmp_data.dev2
            · obtain ⟨status, hs⟩ := cmpFiles_ok node1.file node2.file node1.stat node2.stat
              rw [twosome_on_dev intr cmp_data dir1 dir2 name1 node1 node2 s status hd.1 hd.2 hs]
              generalize (if status ≠ 0 then s.cb (dir1.fullname name1) status else s) = s0
              by_cases hT : status &&& TYPE = 0
              · rw [if_pos hT]
                by_cases hdir : S_ISDIR node1.stat.st_mode = true
                · have hdir2 : S_ISDIR node2.stat.st_mode = true := by
                    rw [S_ISDIR_iff] at hdir ⊢
                    rw [← cmpFiles_no_type hs hT]
                    exact hdir
                  obtain ⟨ho1, hl1⟩ := h1.cons_inv.1 hdir
                  obtain ⟨ho2, hl2⟩ := h2.cons_inv.1 hdir2
                  rw [if_pos hdir, if_pos ho1, if_pos ho2, cmpDirsWorker_eq, hi,
                    if_neg (by simp)]
                  simp only
                  rw [if_pos hl1, if_pos hl2]
                  exact ihk h1.cons_inv.2.1 h2.cons_inv.2.1 _ _ _
                · rw [if_neg hdir]
              · rw [if_neg hT]
                exact Result.andThen_fst_none (dumpStep_completes intr hi _ _ _ _ _ h1.cons_inv.1 h1.cons_inv.2.1 _)
                  (fun s1 => dumpStep_completes intr hi _ _ _ _ _ h2.cons_inv.1 h2.cons_inv.2.1 _)
            · rw [twosome_off_dev intr cmp_data dir1 dir2 name1 node1 node2 s hd]

/-- The function `cmpDirsWorker` ends without exception when no interruption is
requested and the two directories and every directory below them can be opened and
listed -/
theorem cmpDirsWorker_completes (intr : Nat → Bool) (hi : ∀ n, intr n = false)
    (cmp_data : CmpData) (dir1 dir2 : SDir) (hl1 : dir1.listable = true)
    (hl2 : dir2.listable = true) (h1 : Readable dir1.kids) (h2 : Readable dir2.kids)
    (s : Run) : ∃ s', cmpDirsWorker intr cmp_data dir1 dir2 s = (none, s') := by
  have h := cmpDirsWorkerLoop_completes intr hi cmp_data dir1.kids dir2.kids h1 h2 dir1 dir2
    { s with visits := s.visits + 1 }
  rw [cmpDirsWorker_eq, hi, if_neg (by simp), if_pos hl1, if_pos hl2]
  generalize cmpDirsWorkerLoop intr cmp_data dir1 dir2 dir1.kids dir2.kids
    { s with visits := s.visits + 1 } = r at h ⊢
  obtain ⟨o, s'⟩ := r
  simp only at h
  subst h
  exact ⟨s', rfl⟩

/-! ### Failures of open and read -/

theorem S_ISDIR_of_type {m t : Nat} (h : m &&& S_IFMT = t) (ht : t ≠ S_IFDIR) :
    S_ISDIR m = false := by
  simp [S_ISDIR, h, ht]

theorem and_ne_zero_of_and_ne_zero {a b : Nat} (h : a &&& b ≠ 0) : a ≠ 0 := by
  rintro rfl
  simp at h

/-- C8: for every pair of regular files that reaches the block comparison of
`cmpFilesContentReg` (modification times differ, sizes equal and not 0, not the same
device and inode), when opening either file fails or a read returns fewer bytes than
requested, the comparator returns false as an ordinary result; no exception is raised:
`cmpFilesContent` and `cmpFiles` return normally, the status of `cmpFiles` has the
CONTENT bit, and `twosome` notifies the pair with that status and lets the walk
continue. -/
theorem C8_local_io_failure (file1 file2 : SFile) (stat1 stat2 : Stat)
    (h1 : stat1.st_mode &&& S_IFMT = S_IFREG) (h2 : stat2.st_mode &&& S_IFMT = S_IFREG)
    (hm : ¬ (stat1.tv_sec = stat2.tv_sec ∧ stat1.tv_nsec = stat2.tv_nsec))
    (hsize : stat1.st_size = stat2.st_size) (hnz : stat1.st_size ≠ 0)
    (hino : ¬ (stat1.st_dev = stat2.st_dev ∧ stat1.st_ino = stat2.st_ino))
    (hfail : file1.fd = none ∨ file2.fd = none ∨ file1.readsShort stat1.st_size ∨
      file2.readsShort stat1.st_size) :
    cmpFilesContentReg file1 stat1 file2 stat2 = false ∧
    cmpFilesContent file1 stat1 file2 stat2 = .ok false ∧
    ∃ status, cmpFiles file1 stat1 file2 stat2 = .ok status ∧ status &&& CONTENT ≠ 0 ∧
      ∀ (intr : Nat → Bool) (dir1 dir2 : SDir) (name : String) (l1 l2 : Bool)
        (kids1 kids2 : List (String × Node)) (s : Run),
        twosome intr ⟨stat1.st_dev, stat2.st_dev⟩ dir1 dir2 name
            (.mk stat1 file1 l1 kids1) (.mk stat2 file2 l2 kids2) s =
          (none, s.cb (dir1.fullname name) status) := by
  have hreg : cmpFilesContentReg file1 stat1 file2 stat2 = false := by
    unfold cmpFilesContentReg
    have hnz' : ¬ (stat1.st_size = 0 ∧ stat2.st_size = 0) := fun h => hnz h.1
    rw [if_neg hm, if_neg (not_not.mpr hsize), if_neg hnz', if_neg hino]
    cases hf1 : file1.fd with
    | none => rfl
    | some fd1 =>
      cases hf2 : file2.fd with
      | none => rfl
      | some fd2 =>
        simp only
        apply cmpBlocks_short
        rcases hfail with h | h | ⟨fd, hfd, hlt⟩ | ⟨fd, hfd, hlt⟩
        · rw [hf1] at h; cases h
        · rw [hf2] at h; cases h
        · rw [hf1] at hfd; cases hfd; exact Or.inl hlt
        · rw [hf2] at hfd; cases hfd; exact Or.inr hlt
  have hcont : cmpFilesContent file1 stat1 file2 stat2 = .ok false := by
    rw [cmpFilesContent_reg file1 file2 stat1 stat2 h1 h2, hreg]
  refine ⟨hreg, hcont, ?_⟩
  obtain ⟨status, hs, hc⟩ := cmpFiles_content_bit file1 file2 stat1 stat2 false
    (by rw [h1, h2]) hcont
  have hbit : status &&& CONTENT ≠ 0 := hc.2 rfl
  refine ⟨status, hs, hbit, ?_⟩
  intro intr dir1 dir2 name l1 l2 kids1 kids2 s
  have hdir : S_ISDIR stat1.st_mode = false :=
    S_ISDIR_of_type h1 (show S_IFREG ≠ S_IFDIR by decide)
  have hdir2 : S_ISDIR stat2.st_mode = false :=
    S_ISDIR_of_type h2 (show S_IFREG ≠ S_IFDIR by decide)
  rw [twosome_nondir intr ⟨stat1.st_dev, stat2.st_dev⟩ dir1 dir2 name
    (.mk stat1 file1 l1 kids1) (.mk stat2 file2 l2 kids2) s status rfl rfl hdir hdir2 hs]
  simp [and_ne_zero_of_and_ne_zero hbit]

/-- C8, applied to two regular files of 3 bytes with different modification times of
which the first cannot be opened -/
theorem C8_local_io_failure_witness :
    c8_stat1.st_mode &&& S_IFMT = S_IFREG ∧ c8_stat2.st_mode &&& S_IFMT = S_IFREG ∧
    ¬ (c8_stat1.tv_sec = c8_stat2.tv_sec ∧ c8_stat1.tv_nsec = c8_stat2.tv_nsec) ∧
    c8_stat1.st_size = c8_stat2.st_size ∧ c8_stat1.st_size ≠ 0 ∧
    ¬ (c8_stat1.st_dev = c8_stat2.st_dev ∧ c8_stat1.st_ino = c8_stat2.st_ino) ∧
    cmpFilesContentReg ⟨none, none⟩ c8_stat1 ⟨some [1, 2, 3], none⟩ c8_stat2 = false ∧
    cmpFilesContent ⟨none, none⟩ c8_stat1 ⟨some [1, 2, 3], none⟩ c8_stat2 = .ok false :=
  have h := C8_local_io_failure ⟨none, none⟩ ⟨some [1, 2, 3], none⟩ c8_stat1 c8_stat2
    (by decide) (by decide) (by decide) (by decide) (by decide) (by decide) (Or.inl rfl)
  ⟨by decide, by decide, by decide, by decide, by decide, by decide, h.1, h.2.1⟩

/-- C9 fails on the code: two symlinks with different modification times whose
targets are 1025 bytes long and differ in the last byte only are reported equal,
because `SDir::readlink` reads at most 1024 bytes of a target. -/
theorem C9_long_targets :
    c9_stat1.st_mode &&& S_IFMT = S_IFLNK ∧ c9_stat2.st_mode &&& S_IFMT = S_IFLNK ∧
    c9_stat1.tv_sec ≠ c9_stat2.tv_sec ∧
    c9_target 'x' ≠ c9_target 'y' ∧
    cmpFilesContent ⟨none, some (c9_target 'x')⟩ c9_stat1 ⟨none, some (c9_target 'y')⟩ c9_stat2
      = .ok true := by
  refine ⟨by decide, by decide, by decide, ?_, ?_⟩
  · intro h
    have hd := congrArg String.data h
    have hxy : ['x'] = ['y'] := List.append_cancel_left hd
    exact absurd hxy (by decide)
  · have hread : ∀ c : Char, SFile.readlink ⟨none, some (c9_target c)⟩ =
        (1024, String.mk (List.replicate 1024 'a')) := by
      intro c
      have ht : (List.replicate 1024 'a' ++ [c]).take 1024 = List.replicate 1024 'a' :=
        List.take_left' (List.length_replicate 1024 'a')
      simp only [SFile.readlink, c9_target, ht, List.length_replicate]
      rfl
    have hm : ¬ (c9_stat1.tv_sec = c9_stat2.tv_sec ∧ c9_stat1.tv_nsec = c9_stat2.tv_nsec) := by
      decide
    rw [cmpFilesContent_lnk _ _ _ _ (by decide) (by decide)]
    unfold cmpFilesContentLnk
    rw [if_neg hm, hread, hread]
    simp

/-- C10 fails as stated for a root that cannot be opened: the name `f` resolves below
the second base path and not below the first, which does not open, and the call raises
`IOErrorException` in the constructor of the first `SDir` instead of returning CREATED. -/
theorem C10_counterexample :
    c10_closed.resolve "f" = none ∧ (c10_base 0).resolve "f" ≠ none ∧
    cmpFilesPaths c10_closed (c10_base 0) "f" = .error .IOErrorException ∧
    cmpFilesPaths c10_closed (c10_base 0) "f" ≠ .ok CREATED := by
  have h : cmpFilesPaths c10_closed (c10_base 0) "f" = .error .IOErrorException := rfl
  refine ⟨rfl, by decide, h, ?_⟩
  rw [h]
  intro he
  cases he

/-- C10 (amended): the bare-path `cmpFiles(base_path1, base_path2, name)`, for two base
paths that open: it returns exactly CREATED when the name resolves only below the second,
exactly DELETED when it resolves only below the first, raises `IOErrorException` when
it resolves below neither, and otherwise returns what the matched-metadata `cmpFiles`
returns on the two stat snapshots. -/
theorem C10_cmpFiles_bare_path (base_path1 base_path2 : BasePath) (name : String)
    (ho1 : base_path1.opens = true) (ho2 : base_path2.opens = true) :
    (base_path1.resolve name = none → base_path2.resolve name ≠ none →
      cmpFilesPaths base_path1 base_path2 name = .ok CREATED) ∧
    (base_path1.resolve name ≠ none → base_path2.resolve name = none →
      cmpFilesPaths base_path1 base_path2 name = .ok DELETED) ∧
    (base_path1.resolve name = none → base_path2.resolve name = none →
      cmpFilesPaths base_path1 base_path2 name = .error .IOErrorException) ∧
    (∀ stat1 file1 stat2 file2, base_path1.resolve name = some (stat1, file1) →
      base_path2.resolve name = some (stat2, file2) →
      cmpFilesPaths base_path1 base_path2 name = cmpFiles file1 stat1 file2 stat2) := by
  unfold cmpFilesPaths
  simp only [ho1, ho2, Bool.not_true, Bool.false_eq_true, if_false]
  refine ⟨?_, ?_, ?_, ?_⟩
  · intro h1 h2
    cases hr : base_path2.resolve name with
    | none => exact absurd hr h2
    | some p => simp [h1]
  · intro h1 h2
    cases hr : base_path1.resolve name with
    | none => exact absurd hr h1
    | some p => simp [h2]
  · intro h1 h2
    simp [h1, h2]
  · intro stat1 file1 stat2 file2 h1 h2
    simp [h1, h2]

/-- C10 (amended), applied to the name `f` that resolves below the second base path only -/
theorem C10_cmpFiles_bare_path_witness :
    (c10_empty).opens = true ∧ (c10_base 0).opens = true ∧
    (c10_empty).resolve "f" = none ∧ (c10_base 0).resolve "f" ≠ none ∧
    cmpFilesPaths c10_empty (c10_base 0) "f" = .ok CREATED :=
  ⟨rfl, rfl, rfl, by decide,
    (C10_cmpFiles_bare_path c10_empty (c10_base 0) "f" rfl rfl).1 rfl (by decide)⟩

/-! ### The merge order -/

/-- C2: for every pair of strictly ascending entry lists of one directory pair, all
entries non-directories on their side's root device with names `readdir` can deliver,
`cmpDirsWorker` (past its interruption point) handles the union of the names in
ascending order, each name exactly once: there is a strictly ascending list `names`
whose members are exactly the names of the two lists, and the notifications of the run
are, in this order, for each name of it: DELETED for a name only in list 1, CREATED for
a name only in list 2, and for a name in both the status `cmpFiles` computes if and
only if that status is not 0 (`classify`); the run ends without exception. -/
theorem C2_merge_handles_union_in_order (intr : Nat → Bool) (cmp_data : CmpData)
    (dir1 dir2 : SDir) (s : Run)
    (hi : intr s.visits = false) (hl1 : dir1.listable = true) (hl2 : dir2.listable = true)
    (hs1 : (dir1.kids.map Prod.fst).Sorted (· < ·))
    (hs2 : (dir2.kids.map Prod.fst).Sorted (· < ·))
    (hf1 : FlatOn cmp_data.dev1 dir1.kids) (hf2 : FlatOn cmp_data.dev2 dir2.kids) :
    ∃ names : List String, names.Sorted (· < ·) ∧
      (∀ n, n ∈ names ↔ n ∈ dir1.kids.map Prod.fst ∨ n ∈ dir2.kids.map Prod.fst) ∧
      cmpDirsWorker intr cmp_data dir1 dir2 s =
        (none, ⟨s.log ++ names.filterMap (classify dir1 dir2 dir1.kids dir2.kids),
          s.visits + 1⟩) := by
  obtain ⟨names, h1, h2, h3⟩ := cmpDirsWorkerLoop_flat intr cmp_data dir1 dir2 dir1.kids
    dir2.kids hs1 hs2 hf1 hf2 { s with visits := s.visits + 1 }
  refine ⟨names, h1, h2, ?_⟩
  rw [cmpDirsWorker_eq, hi, if_neg (by simp), if_pos hl1, if_pos hl2, h3]

theorem sorted_abc : List.Sorted (· < ·) ["a", "b", "c"] := by
  simp only [List.Sorted, List.pairwise_cons, String.lt_iff_toList_lt]
  decide

theorem sorted_acd : List.Sorted (· < ·) ["a", "c", "d"] := by
  simp only [List.Sorted, List.pairwise_cons, String.lt_iff_toList_lt]
  decide

theorem c2_flat1 : FlatOn 1 c2_dir1.kids := by
  intro e he
  simp only [c2_dir1, rootDir, List.mem_cons, List.mem_singleton, List.not_mem_nil,
    or_false] at he
  rcases he with rfl | rfl | rfl <;> exact ⟨by unfold entryName; decide, by decide, by decide⟩

theorem c2_flat2 : FlatOn 2 c2_dir2.kids := by
  intro e he
  simp only [c2_dir2, rootDir, List.mem_cons, List.mem_singleton, List.not_mem_nil,
    or_false] at he
  rcases he with rfl | rfl | rfl <;> exact ⟨by unfold entryName; decide, by decide, by decide⟩

/-- C2, applied to the example of the specification: root 1 lists `a`, `b`, `c`, root 2
lists `a`, `c`, `d` -/
theorem C2_merge_handles_union_in_order_witness :
    never start.visits = false ∧ c2_dir1.listable = true ∧ c2_dir2.listable = true ∧
    (c2_dir1.kids.map Prod.fst).Sorted (· < ·) ∧ (c2_dir2.kids.map Prod.fst).Sorted (· < ·) ∧
    FlatOn 1 c2_dir1.kids ∧ FlatOn 2 c2_dir2.kids ∧
    ∃ names : List String, names.Sorted (· < ·) ∧
      (∀ n, n ∈ names ↔ n ∈ c2_dir1.kids.map Prod.fst ∨ n ∈ c2_dir2.kids.map Prod.fst) ∧
      cmpDirsWorker never ⟨1, 2⟩ c2_dir1 c2_dir2 start =
        (none, ⟨start.log ++ names.filterMap (classify c2_dir1 c2_dir2 c2_dir1.kids
          c2_dir2.kids), start.visits + 1⟩) :=
  ⟨rfl, rfl, rfl, sorted_abc, sorted_acd, c2_flat1, c2_flat2,
    C2_merge_handles_union_in_order never ⟨1, 2⟩ c2_dir1 c2_dir2 start rfl rfl rfl
      sorted_abc sorted_acd c2_flat1 c2_flat2⟩

theorem lt_a_b : "a" < "b" := by rw [String.lt_iff_toList_lt]; decide
theorem lt_b_c : "b" < "c" := by rw [String.lt_iff_toList_lt]; decide
theorem lt_c_d : "c" < "d" := by rw [String.lt_iff_toList_lt]; decide

/-- The example of the specification, evaluated: root 1 lists `a`, `b`, `c`, root 2
lists `a`, `c`, `d`; the stream is `a` (classified: USER), `b` DELETED, `c`
(classified: CONTENT), `d` CREATED -/
theorem merge_example :
    cmpDirs never c2_dir1 c2_dir2 start =
      (none, ⟨[("/a", USER), ("/b", DELETED), ("/c", CONTENT), ("/d", CREATED)], 1⟩) := by
  have hb : cmpBlocks [1] [2] 1 = false := by
    rw [cmpBlocks]
    decide
  have ha : cmpFiles (regular 1 10 0 5 [1]).file (regular 1 10 0 5 [1]).stat
      (regular 2 10 7 5 [1]).file (regular 2 10 7 5 [1]).stat = .ok USER := rfl
  have hc : cmpFiles (regular 1 12 0 5 [1]).file (regular 1 12 0 5 [1]).stat
      (regular 2 12 0 6 [2]).file (regular 2 12 0 6 [2]).stat = .ok CONTENT := by
    have hreg : cmpFilesContentReg (regular 1 12 0 5 [1]).file (regular 1 12 0 5 [1]).stat
        (regular 2 12 0 6 [2]).file (regular 2 12 0 6 [2]).stat = false := by
      simp +decide [cmpFilesContentReg, regular, Node.file, Node.stat, hb]
    have hcont := cmpFilesContent_reg (regular 1 12 0 5 [1]).file (regular 2 12 0 6 [2]).file
      (regular 1 12 0 5 [1]).stat (regular 2 12 0 6 [2]).stat (by decide) (by decide)
    rw [hreg] at hcont
    unfold cmpFiles
    rw [hcont]
    rfl
  simp only [cmpDirs, c2_dir1, c2_dir2, rootDir, cmpDirsWorker_eq, never, start,
    Bool.false_eq_true, if_false, if_true]
  rw [cmpDirsWorkerLoop_cons_cons,
    if_neg (by decide), if_neg (by decide), if_neg (lt_irrefl _), if_neg (lt_irrefl _),
    if_neg (by simp),
    twosome_nondir _ ⟨1, 2⟩ _ _ "a" (regular 1 10 0 5 [1]) (regular 2 10 7 5 [1]) _ USER
      rfl rfl (by decide) (by decide) ha,
    Result.andThen_none,
    cmpDirsWorkerLoop_cons_cons, if_neg (by decide), if_neg (by decide),
    if_neg (not_lt_of_lt lt_b_c), if_pos lt_b_c,
    lonesomeStep_nondir _ (CmpData.dev1 ⟨1, 2⟩) _ "b" (regular 1 11 0 5 [1]) _ _ rfl
      (by decide),
    Result.andThen_none,
    cmpDirsWorkerLoop_cons_cons, if_neg (by decide), if_neg (by decide),
    if_neg (lt_irrefl _), if_neg (lt_irrefl _), if_neg (by simp),
    twosome_nondir _ ⟨1, 2⟩ _ _ "c" (regular 1 12 0 5 [1]) (regular 2 12 0 6 [2]) _ CONTENT
      rfl rfl (by decide) (by decide) hc,
    Result.andThen_none,
    cmpDirsWorkerLoop_nil_cons, if_neg (by decide),
    lonesomeStep_nondir _ (CmpData.dev2 ⟨1, 2⟩) _ "d" (regular 2 13 0 5 [1]) _ _ rfl
      (by decide),
    Result.andThen_none,
    cmpDirsWorkerLoop_nil_nil]
  rfl

/-! ### Dumps of one-sided entries -/

/-- C3: for a directory pair compared by `cmpDirsWorker` (the two directories at the
same relative path, no name listed twice on a side, every name one that `readdir` can
deliver): the run ends without exception when no interruption is requested and every
directory met can be opened and listed; and in every run that ends without exception,
for every entry that exists on only one side and lies on that side's root device, the
notification stream contains exactly one notification for the entry's own path and, if
the entry is a directory, exactly one notification for every path in its full subtree,
all with the same status, DELETED when the entry exists only under root 1 and CREATED
when it exists only under root 2.  In detail: the part of the log the run added contains
the dump of the entry (`dumpOf`: its own path, then every path below it, all with that
status) as one block, no notification before or after the block is for a path of the
block, and the paths of the block are pairwise different (only directories have entries
below them, and below the entry no name is listed twice either). -/
theorem C3_one_sided_entry_dumped (intr : Nat → Bool) (cmp_data : CmpData) (dir1 dir2 : SDir)
    (s : Run) (hpath : dir1.path = dir2.path)
    (hn1 : (dir1.kids.map Prod.fst).Nodup) (hn2 : (dir2.kids.map Prod.fst).Nodup)
    (he1 : ∀ n ∈ dir1.kids.map Prod.fst, entryName n)
    (he2 : ∀ n ∈ dir2.kids.map Prod.fst, entryName n) :
    ((∀ n, intr n = false) → dir1.listable = true → dir2.listable = true →
      Readable dir1.kids → Readable dir2.kids →
      ∃ s', cmpDirsWorker intr cmp_data dir1 dir2 s = (none, s')) ∧
    (∀ s', cmpDirsWorker intr cmp_data dir1 dir2 s = (none, s') →
      (∀ name node, (name, node) ∈ dir1.kids → name ∉ dir2.kids.map Prod.fst →
        node.stat.st_dev = cmp_data.dev1 → Proper [(name, node)] → GoodNames node.kids →
        ContainsOnce s.log s'.log (dumpOf (dir1.fullname name) node DELETED) ∧
        ((dumpOf (dir1.fullname name) node DELETED).map Prod.fst).Nodup) ∧
      (∀ name node, (name, node) ∈ dir2.kids → name ∉ dir1.kids.map Prod.fst →
        node.stat.st_dev = cmp_data.dev2 → Proper [(name, node)] → GoodNames node.kids →
        ContainsOnce s.log s'.log (dumpOf (dir2.fullname name) node CREATED) ∧
        ((dumpOf (dir2.fullname name) node CREATED).map Prod.fst).Nodup)) := by
  refine ⟨fun hi hl1 hl2 hr1 hr2 =>
    cmpDirsWorker_completes intr hi cmp_data dir1 dir2 hl1 hl2 hr1 hr2 s, ?_⟩
  intro s' hrun
  have hloop : cmpDirsWorkerLoop intr cmp_data dir1 dir2 dir1.kids dir2.kids
      { s with visits := s.visits + 1 } = (none, s') := by
    rw [cmpDirsWorker_eq] at hrun
    by_cases hi : intr s.visits = true
    · rw [if_pos hi] at hrun
      cases hrun
    · rw [if_neg hi] at hrun
      by_cases hl1 : dir1.listable = true
      · by_cases hl2 : dir2.listable = true
        · rw [if_pos hl1, if_pos hl2] at hrun
          exact hrun
        · rw [if_pos hl1, if_neg hl2] at hrun
          cases hrun
      · rw [if_neg hl1] at hrun
        cases hrun
  have key := cmpDirsWorkerLoop_one_sided_once intr cmp_data dir1.kids dir2.kids dir1 dir2
    { s with visits := s.visits + 1 } s' hpath hn1 hn2 he1 he2 hloop
  refine ⟨?_, ?_⟩
  · intro name node hmem hnot hdev hp hg
    exact ⟨(key.1 name node hmem hnot hdev hp).once (he1 name (mem_names hmem)),
      dumpOf_nodup _ node DELETED hg⟩
  · intro name node hmem hnot hdev hp hg
    refine ⟨?_, dumpOf_nodup _ node CREATED hg⟩
    have h2 := key.2 name node hmem hnot hdev hp
    have e : dir2.fullname name = dir1.path ++ "/" ++ name := by
      simp only [SDir.fullname, hpath]
    rw [e] at h2 ⊢
    exact h2.once (he2 name (mem_names hmem))

theorem c3_run :
    cmpDirsWorker never ⟨1, 2⟩ c3_dir1 c3_dir2 start =
      (none, ⟨[("/b", DELETED), ("/b/f", DELETED), ("/b/g", DELETED), ("/b/g/h", DELETED)],
        3⟩) := by
  have hdir : S_ISDIR 0o040755 = true := by decide
  have hreg : S_ISDIR 0o100644 = false := by decide
  have hf : filter "b" = false := by decide
  simp [c3_dir1, c3_dir2, rootDir, cmpDirsWorker_eq, never, start,
    cmpDirsWorkerLoop_cons_nil, cmpDirsWorkerLoop_nil_nil, hf, lonesomeStep, lonesome,
    SDir.sub, listSubdirs_eq, listSubdirsLoop_cons, listSubdirsLoop_nil, Result.andThen_none,
    Result.andThen_some,
    directory, regular, Node.stat, Node.file, Node.kids, Node.listable, Run.cb, SDir.fullname,
    hdir, hreg]

theorem c3_proper :
    Proper [("b", directory 1 20 [("f", regular 1 21 0 5 [1]),
      ("g", directory 1 22 [("h", regular 1 23 0 5 [1])])])] := by
  refine Proper.cons _ _ _ (fun h => absurd h (by decide)) ?_ Proper.nil
  refine Proper.cons _ _ _ (fun _ => rfl) Proper.nil ?_
  refine Proper.cons _ _ _ (fun h => absurd h (by decide)) ?_ Proper.nil
  exact Proper.cons _ _ _ (fun _ => rfl) Proper.nil Proper.nil

theorem c3_good :
    GoodNames [("f", regular 1 21 0 5 [1]), ("g", directory 1 22 [("h", regular 1 23 0 5 [1])])] := by
  refine GoodNames.cons _ _ _ (by unfold entryName; decide) (by decide) GoodNames.nil ?_
  refine GoodNames.cons _ _ _ (by unfold entryName; decide) (by decide) ?_ GoodNames.nil
  exact GoodNames.cons _ _ _ (by unfold entryName; decide) (by decide) GoodNames.nil
    GoodNames.nil

/-- C3, applied to the directory `b` that exists under root 1 only, with a file and a
directory with a file below it -/
theorem C3_one_sided_entry_dumped_witness :
    cmpDirsWorker never ⟨1, 2⟩ c3_dir1 c3_dir2 start =
      (none, ⟨[("/b", DELETED), ("/b/f", DELETED), ("/b/g", DELETED), ("/b/g/h", DELETED)],
        3⟩) ∧
    c3_dir1.path = c3_dir2.path ∧
    ContainsOnce start.log
      [("/b", DELETED), ("/b/f", DELETED), ("/b/g", DELETED), ("/b/g/h", DELETED)]
      (dumpOf (c3_dir1.fullname "b") (directory 1 20 [("f", regular 1 21 0 5 [1]),
        ("g", directory 1 22 [("h", regular 1 23 0 5 [1])])]) DELETED) ∧
    ((dumpOf (c3_dir1.fullname "b") (directory 1 20 [("f", regular 1 21 0 5 [1]),
        ("g", directory 1 22 [("h", regular 1 23 0 5 [1])])]) DELETED).map Prod.fst).Nodup :=
  ⟨c3_run, rfl,
    ((C3_one_sided_entry_dumped never ⟨1, 2⟩ c3_dir1 c3_dir2 start rfl
      (by simp [c3_dir1, rootDir]) (by simp [c3_dir2, rootDir])
      (by
        intro n hn
        simp only [c3_dir1, rootDir, List.map_cons, List.map_nil, List.mem_singleton] at hn
        subst hn
        unfold entryName
        decide)
      (by simp [c3_dir2, rootDir])).2 _ c3_run).1 "b" _
      (List.mem_singleton.2 rfl) (by simp [c3_dir2, rootDir]) rfl c3_proper c3_good⟩

/-- C4 fails on the code: root 2 holds a directory `d` on the root device 2, and below
it a mount point `m` of device 99 with a file `f`; nothing of it exists under root 1.
The dump of `d` by `listSubdirs` opens `m` and notifies `/d/m/f`, a path beneath
an entry that is not on the root device of its side. -/
theorem C4_dump_crosses_mount_point :
    cmpDirs never c4_dir1 c4_dir2 start =
      (none, ⟨[("/d", CREATED), ("/d/m", CREATED), ("/d/m/f", CREATED)], 3⟩) := by
  have hdir : S_ISDIR 0o040755 = true := by decide
  have hreg : S_ISDIR 0o100644 = false := by decide
  have hf : filter "d" = false := by decide
  simp [cmpDirs, c4_dir1, c4_dir2, rootDir, cmpDirsWorker_eq, never, start,
    cmpDirsWorkerLoop_nil_cons, cmpDirsWorkerLoop_nil_nil, hf, lonesomeStep, lonesome,
    SDir.sub, listSubdirs_eq, listSubdirsLoop_cons, listSubdirsLoop_nil, Result.andThen_none,
    Result.andThen_some,
    directory, regular, Node.stat, Node.file, Node.kids, Node.listable, Run.cb, SDir.fullname,
    hdir, hreg]

/-! ### A concrete pair of identical trees -/

theorem c1_identical : Identical c1_dir1.kids c1_dir2.kids := by
  have hd : SameEntry (directory 1 5 [("f", regular 1 6 0 5 [1, 2])])
      (directory 1 15 [("f", regular 1 16 0 9 [1, 2])]) :=
    ⟨by decide, by decide, by decide, by decide, fun h => absurd h (by decide),
      fun h => absurd h (by decide), fun _ => ⟨rfl, rfl, rfl, rfl⟩⟩
  have hf : SameEntry (regular 1 6 0 5 [1, 2]) (regular 1 16 0 9 [1, 2]) :=
    ⟨by decide, by decide, by decide, by decide, fun _ => ⟨by decide, [1, 2], rfl, rfl, by decide⟩,
      fun h => absurd h (by decide), fun h => absurd h (by decide)⟩
  have hh : SameEntry (regular 1 8 0 5 [3]) (regular 1 8 0 5 [3]) :=
    ⟨by decide, by decide, by decide, by decide, fun _ => ⟨by decide, [3], rfl, rfl, by decide⟩,
      fun h => absurd h (by decide), fun h => absurd h (by decide)⟩
  have hl : SameEntry (symlink 1 7 5 "t") (symlink 1 17 9 "t") :=
    ⟨by decide, by decide, by decide, by decide, fun h => absurd h (by decide),
      fun _ => ⟨"t", by decide, rfl, rfl⟩, fun h => absurd h (by decide)⟩
  exact Identical.cons "d" _ _ _ _ hd
    (Identical.cons "f" _ _ _ _ hf Identical.nil Identical.nil)
    (Identical.cons "h" _ _ _ _ hh Identical.nil
      (Identical.cons "l" _ _ _ _ hl Identical.nil Identical.nil))

/-- C1, applied to a tree and a later copy of it on the same device, with a directory, a
file in it, a hard link shared by both sides and a symlink -/
theorem C1_identical_trees_no_notification_witness :
    Identical c1_dir1.kids c1_dir2.kids ∧
    (cmpDirs never c1_dir1 c1_dir2 start).2.log = start.log ∧
    (cmpDirs never c1_dir1 c1_dir2 start).1 = none :=
  ⟨c1_identical,
    (C1_identical_trees_no_notification never c1_dir1 c1_dir2 start c1_identical).1,
    (C1_identical_trees_no_notification never c1_dir1 c1_dir2 start c1_identical).2
      (fun _ => rfl) (by simp [c1_dir1, rootDir]) (by simp [c1_dir2, rootDir]) rfl rfl⟩

/-! ### Pairs off the root device, the logic error, the filter -/

theorem directory_stat (dev ino : Nat) (kids : List (String × Node)) :
    (directory dev ino kids).stat = ⟨dev, ino, 0o040755, 0, 0, 4096, 0, 0⟩ := rfl

theorem directory_file (dev ino : Nat) (kids : List (String × Node)) :
    (directory dev ino kids).file = ⟨some [], none⟩ := rfl

theorem directory_kids (dev ino : Nat) (kids : List (String × Node)) :
    (directory dev ino kids).kids = kids := rfl

theorem directory_listable (dev ino : Nat) (kids : List (String × Node)) :
    (directory dev ino kids).listable = true := rfl

theorem regular_stat (dev ino uid : Nat) (sec : Int) (bytes : List Nat) :
    (regular dev ino uid sec bytes).stat = ⟨dev, ino, 0o100644, uid, 0, bytes.length, sec, 0⟩ :=
  rfl

theorem regular_file (dev ino uid : Nat) (sec : Int) (bytes : List Nat) :
    (regular dev ino uid sec bytes).file = ⟨some bytes, none⟩ := rfl


/-- C17: a same-named pair of which at least one side is not on the recorded root device
of its side is skipped by `twosome`: whatever the two entries are, and whatever
interruption is requested, the call returns without an exception in the state in which
it was entered.  Nothing was notified, and no interruption point was passed, which each
call of `cmpDirsWorker` and each dump by `listSubdirs` begins with. -/
theorem C17_twosome_skips_off_device (intr : Nat → Bool) (cmp_data : CmpData)
    (dir1 dir2 : SDir) (name : String) (node1 node2 : Node) (s : Run)
    (hd : node1.stat.st_dev ≠ cmp_data.dev1 ∨ node2.stat.st_dev ≠ cmp_data.dev2) :
    twosome intr cmp_data dir1 dir2 name node1 node2 s = (none, s) :=
  twosome_off_dev intr cmp_data dir1 dir2 name node1 node2 s (fun h => by
    rcases hd with hd | hd
    · exact hd h.1
    · exact hd h.2)

/-- C17, applied to a directory on device 99 under root 1 (device 1) against a regular
file under root 2, with an interruption requested from the start: nothing happens -/
theorem C17_twosome_skips_off_device_witness :
    (directory 99 5 [("f", regular 99 6 0 5 [1])]).stat.st_dev ≠ (CmpData.mk 1 2).dev1 ∧
    twosome (fun _ => true) ⟨1, 2⟩ (rootDir 1 []) (rootDir 2 []) "m"
      (directory 99 5 [("f", regular 99 6 0 5 [1])]) (regular 2 7 0 5 [1]) start =
      (none, start) :=
  ⟨by decide,
    C17_twosome_skips_off_device (fun _ => true) ⟨1, 2⟩ (rootDir 1 []) (rootDir 2 []) "m"
      (directory 99 5 [("f", regular 99 6 0 5 [1])]) (regular 2 7 0 5 [1]) start
      (Or.inl (by decide))⟩

/-- C19: `cmpFilesContent` throws `LogicErrorException` exactly when the type bits of
the two snapshots differ, and throws nothing else; for equal types it returns a
boolean, which is `true` when the type is neither regular file nor symlink; and
`cmpFiles` on matched metadata always returns a status, for every pair of snapshots. -/
theorem C19_logic_error_iff_types_differ (file1 file2 : SFile) (stat1 stat2 : Stat) :
    (cmpFilesContent file1 stat1 file2 stat2 = .error .LogicErrorException ↔
      stat1.st_mode &&& S_IFMT ≠ stat2.st_mode &&& S_IFMT) ∧
    (∀ e, cmpFilesContent file1 stat1 file2 stat2 = .error e → e = .LogicErrorException) ∧
    (stat1.st_mode &&& S_IFMT = stat2.st_mode &&& S_IFMT →
      ∃ b, cmpFilesContent file1 stat1 file2 stat2 = .ok b) ∧
    (stat1.st_mode &&& S_IFMT = stat2.st_mode &&& S_IFMT →
      stat1.st_mode &&& S_IFMT ≠ S_IFREG → stat1.st_mode &&& S_IFMT ≠ S_IFLNK →
      cmpFilesContent file1 stat1 file2 stat2 = .ok true) ∧
    ∃ status, cmpFiles file1 stat1 file2 stat2 = .ok status := by
  refine ⟨?_, ?_, ?_, ?_, cmpFiles_ok file1 file2 stat1 stat2⟩
  · constructor
    · intro h
      intro hne
      obtain ⟨b, hb⟩ := cmpFilesContent_of_type_eq file1 file2 stat1 stat2 hne
      rw [hb] at h
      cases h
    · intro h
      unfold cmpFilesContent
      rw [if_pos h]
  · intro e he
    unfold cmpFilesContent at he
    split at he
    · cases he; rfl
    · split at he
      · cases he
      · split at he
        · cases he
        · cases he
  · exact cmpFilesContent_of_type_eq file1 file2 stat1 stat2
  · intro ht hreg hlnk
    unfold cmpFilesContent
    rw [if_neg (not_not.mpr ht), if_neg hreg, if_neg hlnk]

/-- C19, applied to two character device nodes with different modification times: the
content comparison returns `true` -/
theorem C19_logic_error_iff_types_differ_witness :
    (c19_chr 1 10 100).st_mode &&& S_IFMT = (c19_chr 2 11 101).st_mode &&& S_IFMT ∧
    (c19_chr 1 10 100).st_mode &&& S_IFMT ≠ S_IFREG ∧
    (c19_chr 1 10 100).st_mode &&& S_IFMT ≠ S_IFLNK ∧
    cmpFilesContent ⟨none, none⟩ (c19_chr 1 10 100) ⟨none, none⟩ (c19_chr 2 11 101) =
      .ok true :=
  ⟨by decide, by decide, by decide,
    (C19_logic_error_iff_types_differ ⟨none, none⟩ ⟨none, none⟩ (c19_chr 1 10 100)
      (c19_chr 2 11 101)).2.2.2.1 (by decide) (by decide) (by decide)⟩

/-- C11 fails on the code: `cmpDirsWorker` passes to `filter` the entry name as
`readdir` delivers it, and `filter` compares it with `/.snapshots`, which no entry name
equals.  The entry `.snapshots` is therefore not skipped: when only root 1 has it, it
and the path below it are notified as DELETED, and when both roots have it, the
differences below it are notified. -/
theorem C11_snapshots_entry_not_skipped :
    filter ".snapshots" = false ∧
    (∀ name, entryName name → filter name = false) ∧
    cmpDirs never c11_dir1 c11_dir2 start =
      (none, ⟨[("/.snapshots", DELETED), ("/.snapshots/1", DELETED)], 3⟩) ∧
    cmpDirs never c11_dir1 c11_dir3 start =
      (none, ⟨[("/.snapshots/1", DELETED), ("/.snapshots/2", CREATED), ("/a", DELETED)],
        4⟩) := by
  have hdir : S_ISDIR 0o040755 = true := by decide
  have hreg : S_ISDIR 0o100644 = false := by decide
  have hn : ∀ n, never n = false := fun _ => rfl
  have hf : filter ".snapshots" = false := by decide
  have hfa : filter "a" = false := by decide
  have hf1 : filter "1" = false := by decide
  have hf2 : filter "2" = false := by decide
  have hlt : ".snapshots" < "a" := by rw [String.lt_iff_toList_lt]; decide
  have hlt12 : "1" < "2" := by rw [String.lt_iff_toList_lt]; decide
  have hsame : ∀ d1 d2 s, twosome never ⟨1, 1⟩ d1 d2 "a" (regular 1 10 0 5 [1])
      (regular 1 10 0 5 [1]) s = (none, s) := fun d1 d2 s =>
    twosome_nondir never ⟨1, 1⟩ d1 d2 "a" (regular 1 10 0 5 [1]) (regular 1 10 0 5 [1]) s 0
      rfl rfl (by decide) (by decide) rfl
  have hsnap : ∀ d1 d2 s, twosome never ⟨1, 1⟩ d1 d2 ".snapshots"
      (directory 1 5 [("1", directory 1 6 [])]) (directory 1 5 [("2", directory 1 7 [])]) s =
      cmpDirsWorker never ⟨1, 1⟩
        ⟨d1.fullname ".snapshots", some (directory 1 5 [("1", directory 1 6 [])]).stat, true,
          [("1", directory 1 6 [])]⟩
        ⟨d2.fullname ".snapshots", some (directory 1 5 [("2", directory 1 7 [])]).stat, true,
          [("2", directory 1 7 [])]⟩ s := fun d1 d2 s => by
    rw [twosome_on_dev never ⟨1, 1⟩ d1 d2 ".snapshots" (directory 1 5 [("1", directory 1 6 [])])
      (directory 1 5 [("2", directory 1 7 [])]) s 0 rfl rfl rfl, if_pos (by decide),
      if_pos (by decide), if_pos (by decide), if_pos (by decide), if_neg (by simp)]
    rfl
  refine ⟨hf, fun name h => filter_of_entryName h, ?_, ?_⟩
  · simp [cmpDirs, c11_dir1, c11_dir2, rootDir, cmpDirsWorker_eq, hn, start,
      cmpDirsWorkerLoop_cons_cons, cmpDirsWorkerLoop_nil_nil, hf, hfa, hf1, hlt,
      not_lt_of_lt hlt, hsame, lonesomeStep, lonesome_eq, listSubdirs_eq,
      listSubdirsLoop_cons, listSubdirsLoop_nil, Result.andThen_none, Result.andThen_some,
      directory_stat, directory_file, directory_kids, directory_listable, Run.cb,
      SDir.fullname, hdir]
  · simp [cmpDirs, c11_dir1, c11_dir3, rootDir, cmpDirsWorker_eq, hn, start,
      cmpDirsWorkerLoop_cons_cons, cmpDirsWorkerLoop_nil_nil, cmpDirsWorkerLoop_cons_nil,
      cmpDirsWorkerLoop_nil_cons, hf, hfa, hf1, hf2, hlt12, not_lt_of_lt hlt12, hsnap,
      lonesomeStep, lonesome_eq, listSubdirs_eq,
      listSubdirsLoop_cons, listSubdirsLoop_nil, Result.andThen_none, Result.andThen_some,
      directory_stat, directory_file, directory_kids, directory_listable, regular_stat,
      Run.cb, SDir.fullname, hdir, hreg]

/-! ### Properties that every statement of the walker keeps -/

theorem listSubdirsLoop_preserved {OK : Nat → Prop} {I : Run → Result → Prop}
    (hI : Preserved OK I) (intr : Nat → Bool) (status : Nat) (hst : OK status) :
    ∀ (entries : List (String × Node)) (dir : SDir) (s : Run),
      I s (listSubdirsLoop intr dir entries status s) := by
  refine listing_induction ?_ ?_
  · intro dir s
    rw [listSubdirsLoop_nil]
    exact hI.done _ _ (by simp)
  · intro name node rest ihk ihr dir s
    rw [listSubdirsLoop_cons]
    apply hI.notify s (dir.fullname name) status _ hst
    split
    · split
      · apply hI.seq
        · rw [listSubdirs_eq]
          split
          · exact hI.done _ _ (by simp)
          · apply hI.visit
            split
            · exact ihk _ _
            · exact hI.done _ _ (by simp)
        · intro s1
          exact ihr dir s1
      · exact hI.done _ _ (by simp)
    · exact ihr dir _

theorem listSubdirs_preserved {OK : Nat → Prop} {I : Run → Result → Prop}
    (hI : Preserved OK I) (intr : Nat → Bool) (status : Nat) (hst : OK status) (dir : SDir)
    (s : Run) : I s (listSubdirs intr dir status s) := by
  rw [listSubdirs_eq]
  split
  · exact hI.done _ _ (by simp)
  · apply hI.visit
    split
    · exact listSubdirsLoop_preserved hI intr status hst _ _ _
    · exact hI.done _ _ (by simp)

theorem lonesomeStep_preserved {OK : Nat → Prop} {I : Run → Result → Prop}
    (hI : Preserved OK I) (intr : Nat → Bool) (dev : Nat) (dir : SDir) (name : String)
    (node : Node) (status : Nat) (hst : OK status) (s : Run) :
    I s (lonesomeStep intr dev dir name node status s) := by
  unfold lonesomeStep
  split
  · rw [lonesome_eq]
    apply hI.notify s (dir.fullname name) status _ hst
    split
    · split
      · exact listSubdirs_preserved hI intr status hst _ _
      · exact hI.done _ _ (by simp)
    · exact hI.done _ _ (by simp)
  · exact hI.done _ _ (by simp)

theorem dumpStep_preserved {OK : Nat → Prop} {I : Run → Result → Prop}
    (hI : Preserved OK I) (intr : Nat → Bool) (dev : Nat) (dir : SDir) (name : String)
    (node : Node) (status : Nat) (hst : OK status) (s : Run) :
    I s (dumpStep intr dev dir name node status s) := by
  rw [dumpStep_eq]
  split
  · split
    · split
      · exact listSubdirs_preserved hI intr status hst _ _
      · exact hI.done _ _ (by simp)
    · exact hI.done _ _ (by simp)
  · exact hI.done _ _ (by simp)

theorem cmpDirsWorker_preserved_of {OK : Nat → Prop} {I : Run → Result → Prop}
    (hI : Preserved OK I) (intr : Nat → Bool) (cmp_data : CmpData) (dir1 dir2 : SDir)
    (hloop : ∀ s, I s (cmpDirsWorkerLoop intr cmp_data dir1 dir2 dir1.kids dir2.kids s))
    (s : Run) : I s (cmpDirsWorker intr cmp_data dir1 dir2 s) := by
  rw [cmpDirsWorker_eq]
  split
  · exact hI.done _ _ (by simp)
  · apply hI.visit
    split
    · split
      · exact hloop _
      · exact hI.done _ _ (by simp)
    · exact hI.done _ _ (by simp)

theorem twosome_preserved_of {OK : Nat → Prop} {I : Run → Result → Prop}
    (hI : Preserved OK I) (hC : OK CREATED) (hD : OK DELETED)
    (hcmp : ∀ file1 stat1 file2 stat2 status,
      cmpFiles file1 stat1 file2 stat2 = .ok status → OK status)
    (intr : Nat → Bool) (cmp_data : CmpData) (dir1 dir2 : SDir)
    (name : String) (node1 node2 : Node)
    (hloop : ∀ d1 d2 s, I s (cmpDirsWorkerLoop intr cmp_data d1 d2 node1.kids node2.kids s))
    (s : Run) : I s (twosome intr cmp_data dir1 dir2 name node1 node2 s) := by
  by_cases hd : node1.stat.st_dev = cmp_data.dev1 ∧ node2.stat.st_dev = cmp_data.dev2
  · obtain ⟨status, hs⟩ := cmpFiles_ok node1.file node2.file node1.stat node2.stat
    rw [twosome_on_dev intr cmp_data dir1 dir2 name node1 node2 s status hd.1 hd.2 hs]
    have hs1 : ∀ r : Result,
        I (if status ≠ 0 then s.cb (dir1.fullname name) status else s) r → I s r := by
      intro r hr
      by_cases h0 : status ≠ 0
      · rw [if_pos h0] at hr
        exact hI.notify s _ status r (hcmp _ _ _ _ _ hs) hr
      · rw [if_neg h0] at hr
        exact hr
    split
    · split
      · split
        · split
          · apply hs1
            exact cmpDirsWorker_preserved_of hI intr cmp_data _ _ (fun s => hloop _ _ s) _
          · exact hs1 _ (hI.done _ _ (by simp))
        · exact hs1 _ (hI.done _ _ (by simp))
      · exact hs1 _ (hI.done _ _ (by simp))
    · apply hs1
      apply hI.seq
      · exact dumpStep_preserved hI _ _ _ _ _ _ hD _
      · intro s1
        exact dumpStep_preserved hI _ _ _ _ _ _ hC _
  · rw [twosome_off_dev intr cmp_data dir1 dir2 name node1 node2 s hd]
    exact hI.done _ _ (by simp)

/-- Every run of the merge loop has a property that the statements of the walker keep.
The `throw LogicErrorException()` of the loop is never met: two names of which neither
is smaller than the other are equal. -/
theorem cmpDirsWorkerLoop_preserved {OK : Nat → Prop} {I : Run → Result → Prop}
    (hI : Preserved OK I) (hC : OK CREATED) (hD : OK DELETED)
    (hcmp : ∀ file1 stat1 file2 stat2 status,
      cmpFiles file1 stat1 file2 stat2 = .ok status → OK status)
    (intr : Nat → Bool) (cmp_data : CmpData) :
    ∀ (entries1 entries2 : List (String × Node)) (dir1 dir2 : SDir) (s : Run),
      I s (cmpDirsWorkerLoop intr cmp_data dir1 dir2 entries1 entries2 s) := by
  refine listing_pair_induction ?_ ?_ ?_ ?_
  · intro dir1 dir2 s
    rw [cmpDirsWorkerLoop_nil_nil]
    exact hI.done _ _ (by simp)
  · intro name2 node2 rest2 ih dir1 dir2 s
    rw [cmpDirsWorkerLoop_nil_cons]
    split
    · exact ih _ _ _
    · exact hI.seq _ _ _ (lonesomeStep_preserved hI _ _ _ _ _ _ hC _) (fun s1 => ih _ _ s1)
  · intro name1 node1 rest1 ih dir1 dir2 s
    rw [cmpDirsWorkerLoop_cons_nil]
    split
    · exact ih _ _ _
    · exact hI.seq _ _ _ (lonesomeStep_preserved hI _ _ _ _ _ _ hD _) (fun s1 => ih _ _ s1)
  · intro name1 node1 rest1 name2 node2 rest2 ih1 ih2 ih12 ihk dir1 dir2 s
    rw [cmpDirsWorkerLoop_cons_cons]
    split
    · exact ih1 _ _ _
    · split
      · exact ih2 _ _ _
      · split
        · exact hI.seq _ _ _ (lonesomeStep_preserved hI _ _ _ _ _ _ hC _)
            (fun s1 => ih2 _ _ s1)
        · split
          · exact hI.seq _ _ _ (lonesomeStep_preserved hI _ _ _ _ _ _ hD _)
              (fun s1 => ih1 _ _ s1)
          · rename_i h21 h12
            split
            · rename_i hne
              rcases lt_trichotomy name1 name2 with h | h | h
              · exact absurd h h12
              · exact absurd h hne
              · exact absurd h h21
            · exact hI.seq _ _ _
                (twosome_preserved_of hI hC hD hcmp intr cmp_data dir1 dir2 name1 node1 node2
                  ihk s)
                (fun s1 => ih12 _ _ s1)

theorem cmpDirs_preserved {OK : Nat → Prop} {I : Run → Result → Prop}
    (hI : Preserved OK I) (hC : OK CREATED) (hD : OK DELETED)
    (hcmp : ∀ file1 stat1 file2 stat2 status,
      cmpFiles file1 stat1 file2 stat2 = .ok status → OK status)
    (intr : Nat → Bool) (dir1 dir2 : SDir) (s : Run) : I s (cmpDirs intr dir1 dir2 s) := by
  unfold cmpDirs
  split
  · exact hI.done _ _ (by simp)
  · split
    · exact hI.done _ _ (by simp)
    · exact cmpDirsWorker_preserved_of hI intr _ _ _
        (fun s => cmpDirsWorkerLoop_preserved hI hC hD hcmp intr _ _ _ _ _ s) _

/-- Not ending in `LogicErrorException` is a property that the walker keeps -/
theorem preserved_no_logic_error :
    Preserved (fun _ => True) (fun _ r => r.1 ≠ some .LogicErrorException) := by
  refine ⟨fun o s h => h, fun s r h => h, fun s path status r _ h => h, ?_⟩
  intro s r k hr hk
  obtain ⟨o, s1⟩ := r
  cases o with
  | some e =>
    rw [Result.andThen_some]
    exact hr
  | none =>
    rw [Result.andThen_none]
    exact hk s1

/-! ### The logic error of the merge loop, the status values -/

/-- No run of `cmpDirsWorker` or `cmpDirs` ends in `LogicErrorException`, whatever the
two listings hold: the `throw` of the merge loop sits behind the tests that neither
name is smaller than the other, and two such names are equal.  When the names at the
two cursors differ (and are not filtered), the loop handles the smaller one as an entry
of one side only. -/
theorem merge_never_raises_logic_error (intr : Nat → Bool) (cmp_data : CmpData)
    (dir1 dir2 : SDir) (s : Run) :
    (cmpDirsWorker intr cmp_data dir1 dir2 s).1 ≠ some .LogicErrorException ∧
    (cmpDirs intr dir1 dir2 s).1 ≠ some .LogicErrorException ∧
    (∀ entries1 entries2,
      (cmpDirsWorkerLoop intr cmp_data dir1 dir2 entries1 entries2 s).1 ≠
        some .LogicErrorException) ∧
    ∀ name1 node1 rest1 name2 node2 rest2,
      filter name1 = false → filter name2 = false → name1 ≠ name2 →
      cmpDirsWorkerLoop intr cmp_data dir1 dir2 ((name1, node1) :: rest1)
          ((name2, node2) :: rest2) s =
        if name2 < name1 then
          (lonesomeStep intr cmp_data.dev2 dir2 name2 node2 CREATED s).andThen
            (cmpDirsWorkerLoop intr cmp_data dir1 dir2 ((name1, node1) :: rest1) rest2)
        else
          (lonesomeStep intr cmp_data.dev1 dir1 name1 node1 DELETED s).andThen
            (cmpDirsWorkerLoop intr cmp_data dir1 dir2 rest1 ((name2, node2) :: rest2)) := by
  have hloop := cmpDirsWorkerLoop_preserved preserved_no_logic_error trivial trivial
    (fun _ _ _ _ _ _ => trivial) intr cmp_data
  refine ⟨?_, ?_, fun entries1 entries2 => hloop entries1 entries2 dir1 dir2 s, ?_⟩
  · exact cmpDirsWorker_preserved_of preserved_no_logic_error intr cmp_data dir1 dir2
      (fun s => hloop _ _ _ _ s) s
  · exact cmpDirs_preserved preserved_no_logic_error trivial trivial
      (fun _ _ _ _ _ _ => trivial) intr dir1 dir2 s
  · intro name1 node1 rest1 name2 node2 rest2 hf1 hf2 hne
    rw [cmpDirsWorkerLoop_cons_cons]
    simp only [hf1, hf2, Bool.false_eq_true, if_false]
    by_cases h21 : name2 < name1
    · rw [if_pos h21, if_pos h21]
    · rw [if_neg h21, if_neg h21]
      have h12 : name1 < name2 := by
        rcases lt_trichotomy name1 name2 with h | h | h
        · exact h
        · exact absurd h hne
        · exact absurd h h21
      rw [if_pos h12]

/-- Appending notifications whose statuses are allowed is a property that the walker
keeps -/
theorem preserved_status :
    Preserved StatusOk (fun s r => ∃ l, r.2.log = s.log ++ l ∧ ∀ x ∈ l, StatusOk x.2) := by
  refine ⟨fun o s _ => ⟨[], by simp, by simp⟩, fun s r h => h, ?_, ?_⟩
  · rintro s path status r hst ⟨l, hl, hq⟩
    refine ⟨(path, status) :: l, by rw [hl, Run.cb_log]; simp, ?_⟩
    intro x hx
    rcases List.mem_cons.1 hx with h | h
    · rw [h]
      exact hst
    · exact hq x h
  · rintro s r k ⟨l1, h1, hq1⟩ hk
    obtain ⟨o, s1⟩ := r
    cases o with
    | some e =>
      rw [Result.andThen_some]
      exact ⟨l1, h1, hq1⟩
    | none =>
      rw [Result.andThen_none]
      obtain ⟨l2, h2, hq2⟩ := hk s1
      refine ⟨l1 ++ l2, ?_, ?_⟩
      · rw [h2]
        simp only at h1
        rw [h1, List.append_assoc]
      · intro x hx
        rcases List.mem_append.1 hx with h | h
        · exact hq1 x h
        · exact hq2 x h

/-- The status `cmpFiles` computes is a set of flags among TYPE, CONTENT, PERMISSIONS,
USER and GROUP -/
theorem cmpFiles_flags {file1 file2 : SFile} {stat1 stat2 : Stat} {status : Nat}
    (hs : cmpFiles file1 stat1 file2 stat2 = .ok status) :
    status &&& (TYPE ||| CONTENT ||| PERMISSIONS ||| USER ||| GROUP) = status := by
  obtain ⟨t, ht⟩ := exists_bool_iff (stat1.st_mode &&& S_IFMT ≠ stat2.st_mode &&& S_IFMT)
  obtain ⟨c, hc⟩ := exists_bool_iff (stat1.st_mode &&& S_IFMT = stat2.st_mode &&& S_IFMT ∧
    cmpFilesContent file1 stat1 file2 stat2 = .ok false)
  obtain ⟨p, hp⟩ := exists_bool_iff ((stat1.st_mode ^^^ stat2.st_mode) &&& permMask ≠ 0)
  obtain ⟨u, hu⟩ := exists_bool_iff (stat1.st_uid ≠ stat2.st_uid)
  obtain ⟨g, hg⟩ := exists_bool_iff (stat1.st_gid ≠ stat2.st_gid)
  have hv := cmpFiles_val file1 file2 stat1 stat2 t c p u g ht hc hp hu hg
  rw [hv] at hs
  cases hs
  exact (flag_bits t c p u g).2.2.2.2.2

/-- A set of flags among TYPE, CONTENT, PERMISSIONS, USER and GROUP holds neither
CREATED nor DELETED -/
theorem flags_exclude_created_deleted {status : Nat}
    (h : status &&& (TYPE ||| CONTENT ||| PERMISSIONS ||| USER ||| GROUP) = status) :
    status &&& CREATED = 0 ∧ status &&& DELETED = 0 := by
  constructor
  · rw [← h, Nat.and_assoc]
    have : (TYPE ||| CONTENT ||| PERMISSIONS ||| USER ||| GROUP) &&& CREATED = 0 := by decide
    rw [this, Nat.and_zero]
  · rw [← h, Nat.and_assoc]
    have : (TYPE ||| CONTENT ||| PERMISSIONS ||| USER ||| GROUP) &&& DELETED = 0 := by decide
    rw [this, Nat.and_zero]

/-- C14: with the seven flags distinct single bits, every status that a classifier
returns (`cmpFiles` on matched metadata, `cmpFiles` on a bare path) and every status
that a run of `cmpDirs` passes to the sink is exactly CREATED, exactly DELETED, or a
set of flags among TYPE, CONTENT, PERMISSIONS, USER and GROUP.  Such a status never
holds CREATED and DELETED together, and when it holds one of them it holds no other
flag. -/
theorem C14_status_values (intr : Nat → Bool) (dir1 dir2 : SDir) (s : Run)
    (base_path1 base_path2 : BasePath) (name : String) (file1 file2 : SFile)
    (stat1 stat2 : Stat) :
    (∀ status, cmpFiles file1 stat1 file2 stat2 = .ok status →
      status &&& (TYPE ||| CONTENT ||| PERMISSIONS ||| USER ||| GROUP) = status) ∧
    (∀ status, cmpFilesPaths base_path1 base_path2 name = .ok status → StatusOk status) ∧
    (∃ l, (cmpDirs intr dir1 dir2 s).2.log = s.log ++ l ∧ ∀ x ∈ l, StatusOk x.2) ∧
    (∀ status, StatusOk status →
      ¬ (status &&& CREATED ≠ 0 ∧ status &&& DELETED ≠ 0) ∧
      (status &&& CREATED ≠ 0 → status = CREATED) ∧
      (status &&& DELETED ≠ 0 → status = DELETED)) := by
  refine ⟨fun status hs => cmpFiles_flags hs, ?_, ?_, ?_⟩
  · intro status hs
    unfold cmpFilesPaths at hs
    split at hs
    · cases hs
    · split at hs
      · cases hs
      · dsimp only at hs
        split at hs
        · cases hs
          exact Or.inl rfl
        · cases hs
          exact Or.inr (Or.inl rfl)
        · cases hs
        · exact Or.inr (Or.inr (cmpFiles_flags hs))
  · exact cmpDirs_preserved preserved_status (Or.inl rfl) (Or.inr (Or.inl rfl))
      (fun _ _ _ _ _ hs => Or.inr (Or.inr (cmpFiles_flags hs))) intr dir1 dir2 s
  · intro status hst
    rcases hst with h | h | h
    · subst h
      exact ⟨by decide, fun _ => rfl, fun h => absurd h (by decide)⟩
    · subst h
      exact ⟨by decide, fun h => absurd h (by decide), fun _ => rfl⟩
    · obtain ⟨hc, hd⟩ := flags_exclude_created_deleted h
      exact ⟨fun hh => hh.1 hc, fun hh => absurd hc hh, fun hh => absurd hd hh⟩

/-- C14, applied to the example of the specification: the statuses of the run are
allowed ones -/
theorem C14_status_values_witness :
    cmpFiles ⟨none, none⟩ c6_stat1 ⟨none, none⟩ c6_stat3 = .ok CONTENT ∧
    CONTENT &&& (TYPE ||| CONTENT ||| PERMISSIONS ||| USER ||| GROUP) = CONTENT ∧
    ∃ l, (cmpDirs never c2_dir1 c2_dir2 start).2.log = start.log ++ l ∧
      ∀ x ∈ l, StatusOk x.2 :=
  ⟨rfl,
    (C14_status_values never c2_dir1 c2_dir2 start c10_empty c10_empty "f" ⟨none, none⟩
      ⟨none, none⟩ c6_stat1 c6_stat3).1 CONTENT rfl,
    (C14_status_values never c2_dir1 c2_dir2 start c10_empty c10_empty "f" ⟨none, none⟩
      ⟨none, none⟩ c6_stat1 c6_stat3).2.2.1⟩

/-! ### Pairs whose types differ -/

/-- When the type bits of the two snapshots differ, the status of `cmpFiles` has the
TYPE bit -/
theorem cmpFiles_type_bit {file1 file2 : SFile} {stat1 stat2 : Stat} {status : Nat}
    (hs : cmpFiles file1 stat1 file2 stat2 = .ok status)
    (ht : stat1.st_mode &&& S_IFMT ≠ stat2.st_mode &&& S_IFMT) : status &&& TYPE ≠ 0 := by
  obtain ⟨t, ht'⟩ := exists_bool_iff (stat1.st_mode &&& S_IFMT ≠ stat2.st_mode &&& S_IFMT)
  obtain ⟨c, hc⟩ := exists_bool_iff (stat1.st_mode &&& S_IFMT = stat2.st_mode &&& S_IFMT ∧
    cmpFilesContent file1 stat1 file2 stat2 = .ok false)
  obtain ⟨p, hp⟩ := exists_bool_iff ((stat1.st_mode ^^^ stat2.st_mode) &&& permMask ≠ 0)
  obtain ⟨u, hu⟩ := exists_bool_iff (stat1.st_uid ≠ stat2.st_uid)
  obtain ⟨g, hg⟩ := exists_bool_iff (stat1.st_gid ≠ stat2.st_gid)
  have hv := cmpFiles_val file1 file2 stat1 stat2 t c p u g ht' hc hp hu hg
  rw [hv] at hs
  cases hs
  exact (flag_bits t c p u g).1.2 (ht'.2 ht)

/-- When the subtree dump of `twosome` for one side ends without exception it has
notified every path below the entry, provided the entry is on the root device -/
theorem dumpStep_dump (intr : Nat → Bool) (dev : Nat) (dir : SDir) (name : String)
    (node : Node) (status : Nat) (s s1 : Run) (hdev : node.stat.st_dev = dev)
    (hp : Proper [(name, node)])
    (h : dumpStep intr dev dir name node status s = (none, s1)) :
    s1.log = s.log ++ (pathsBelow (dir.fullname name) node.kids).map (fun p => (p, status)) := by
  cases hp with
  | cons _ _ _ hnd hpk _ =>
    rw [dumpStep_eq] at h
    by_cases hd : S_ISDIR node.stat.st_mode = true
    · rw [if_pos hd, if_pos hdev] at h
      by_cases ho : node.file.fd.isSome = true
      · rw [if_pos ho, listSubdirs_eq] at h
        by_cases hi : intr s.visits = true
        · simp [hi] at h
        · by_cases hl : node.listable = true
          · simp only [hi, hl, if_true, if_false, Bool.false_eq_true] at h
            exact listSubdirsLoop_dump intr status _ _ _ _ hpk h
          · simp [hi, hl] at h
      · simp [ho] at h
    · rw [if_neg hd] at h
      cases h
      have hk : node.kids = [] := hnd (by simpa using hd)
      rw [hk, pathsBelow_nil]
      simp

/-- C12: for a same-named pair on the two root devices whose file types differ,
`twosome` notifies the entry once with a status that has the TYPE bit, and then runs
only the two dumps, of side 1 as DELETED and then of side 2 as CREATED, and not
`cmpDirsWorker`.  At most one side is a directory.  A call that ends without exception
has notified, after the entry, every path below the entry of root 1 as DELETED and
every path below the entry of root 2 as CREATED (a side that is no directory has none);
and the call ends without exception when no interruption is requested and the
directories below can be opened and listed. -/
theorem C12_type_change_dumps_directory (intr : Nat → Bool) (cmp_data : CmpData)
    (dir1 dir2 : SDir) (name : String) (node1 node2 : Node) (s : Run)
    (hd1 : node1.stat.st_dev = cmp_data.dev1) (hd2 : node2.stat.st_dev = cmp_data.dev2)
    (ht : node1.stat.st_mode &&& S_IFMT ≠ node2.stat.st_mode &&& S_IFMT) :
    ∃ status, cmpFiles node1.file node1.stat node2.file node2.stat = .ok status ∧
      status &&& TYPE ≠ 0 ∧
      ¬ (S_ISDIR node1.stat.st_mode = true ∧ S_ISDIR node2.stat.st_mode = true) ∧
      twosome intr cmp_data dir1 dir2 name node1 node2 s =
        (dumpStep intr cmp_data.dev1 dir1 name node1 DELETED
            (s.cb (dir1.fullname name) status)).andThen
          (dumpStep intr cmp_data.dev2 dir2 name node2 CREATED) ∧
      (∀ s', Proper [(name, node1)] → Proper [(name, node2)] →
        twosome intr cmp_data dir1 dir2 name node1 node2 s = (none, s') →
        s'.log = s.log ++ (dir1.fullname name, status) ::
          ((pathsBelow (dir1.fullname name) node1.kids).map (fun p => (p, DELETED)) ++
            (pathsBelow (dir2.fullname name) node2.kids).map (fun p => (p, CREATED)))) ∧
      ((∀ n, intr n = false) → Readable [(name, node1)] → Readable [(name, node2)] →
        ∃ s', twosome intr cmp_data dir1 dir2 name node1 node2 s = (none, s')) := by
  obtain ⟨status, hs⟩ := cmpFiles_ok node1.file node2.file node1.stat node2.stat
  have hT : status &&& TYPE ≠ 0 := cmpFiles_type_bit hs ht
  have h0 : status ≠ 0 := and_ne_zero_of_and_ne_zero hT
  have heq : twosome intr cmp_data dir1 dir2 name node1 node2 s =
      (dumpStep intr cmp_data.dev1 dir1 name node1 DELETED
          (s.cb (dir1.fullname name) status)).andThen
        (dumpStep intr cmp_data.dev2 dir2 name node2 CREATED) := by
    rw [twosome_on_dev intr cmp_data dir1 dir2 name node1 node2 s status hd1 hd2 hs,
      if_neg hT, if_pos h0]
  refine ⟨status, hs, hT, ?_, heq, ?_, ?_⟩
  · rintro ⟨h1, h2⟩
    rw [S_ISDIR_iff] at h1 h2
    exact ht (h1.trans h2.symm)
  · intro s' hp1 hp2 h
    rw [heq] at h
    obtain ⟨s1, e1, e2⟩ := Result.andThen_eq_none h
    have l1 := dumpStep_dump intr _ dir1 name node1 DELETED _ s1 hd1 hp1 e1
    have l2 := dumpStep_dump intr _ dir2 name node2 CREATED s1 s' hd2 hp2 e2
    rw [l2, l1, Run.cb_log]
    simp
  · intro hi hr1 hr2
    obtain ⟨ho1, hk1, -⟩ := hr1.cons_inv
    obtain ⟨ho2, hk2, -⟩ := hr2.cons_inv
    have hnone : (twosome intr cmp_data dir1 dir2 name node1 node2 s).1 = none := by
      rw [heq]
      exact Result.andThen_fst_none
        (dumpStep_completes intr hi _ dir1 name node1 DELETED ho1 hk1 _)
        (fun s1 => dumpStep_completes intr hi _ dir2 name node2 CREATED ho2 hk2 s1)
    exact ⟨(twosome intr cmp_data dir1 dir2 name node1 node2 s).2, Prod.ext hnone rfl⟩

theorem c12_proper1 : Proper [("x", c12_node1)] := by
  refine Proper.cons _ _ _ (fun h => absurd h (by decide)) ?_ Proper.nil
  refine Proper.cons _ _ _ (fun _ => rfl) Proper.nil ?_
  refine Proper.cons _ _ _ (fun h => absurd h (by decide)) ?_ Proper.nil
  exact Proper.cons _ _ _ (fun _ => rfl) Proper.nil Proper.nil

theorem c12_run :
    twosome never ⟨1, 2⟩ (rootDir 1 []) (rootDir 2 []) "x" c12_node1 c12_node2 start =
      (none, ⟨[("/x", TYPE ||| PERMISSIONS), ("/x/f", DELETED), ("/x/g", DELETED),
        ("/x/g/h", DELETED)], 2⟩) := by
  have hdir : S_ISDIR 0o040755 = true := by decide
  have hreg : S_ISDIR 0o100644 = false := by decide
  have hn : ∀ n, never n = false := fun _ => rfl
  have hs : cmpFiles c12_node1.file c12_node1.stat c12_node2.file c12_node2.stat =
      .ok (TYPE ||| PERMISSIONS) := rfl
  rw [twosome_on_dev never ⟨1, 2⟩ _ _ "x" c12_node1 c12_node2 start _ rfl rfl hs,
    if_neg (by decide), if_pos (by decide)]
  simp [dumpStep_eq, c12_node1, c12_node2, rootDir, hn, start, listSubdirs_eq,
    listSubdirsLoop_cons, listSubdirsLoop_nil, Result.andThen_none, Result.andThen_some,
    directory_stat, directory_file, directory_kids, directory_listable, regular_stat,
    Run.cb, SDir.fullname, hdir, hreg]

/-- C12, applied to a directory under root 1 against a regular file of the same name
under root 2: one notification with TYPE for `/x`, then the three paths below the
directory as DELETED -/
theorem C12_type_change_dumps_directory_witness :
    c12_node1.stat.st_dev = (CmpData.mk 1 2).dev1 ∧
    c12_node2.stat.st_dev = (CmpData.mk 1 2).dev2 ∧
    c12_node1.stat.st_mode &&& S_IFMT ≠ c12_node2.stat.st_mode &&& S_IFMT ∧
    twosome never ⟨1, 2⟩ (rootDir 1 []) (rootDir 2 []) "x" c12_node1 c12_node2 start =
      (none, ⟨[("/x", TYPE ||| PERMISSIONS), ("/x/f", DELETED), ("/x/g", DELETED),
        ("/x/g/h", DELETED)], 2⟩) ∧
    ∃ status, cmpFiles c12_node1.file c12_node1.stat c12_node2.file c12_node2.stat =
        .ok status ∧ status &&& TYPE ≠ 0 ∧
      (⟨[("/x", TYPE ||| PERMISSIONS), ("/x/f", DELETED), ("/x/g", DELETED),
        ("/x/g/h", DELETED)], 2⟩ : Run).log =
        start.log ++ ((rootDir 1 []).fullname "x", status) ::
          ((pathsBelow ((rootDir 1 []).fullname "x") c12_node1.kids).map
              (fun p => (p, DELETED)) ++
            (pathsBelow ((rootDir 2 []).fullname "x") c12_node2.kids).map
              (fun p => (p, CREATED))) := by
  refine ⟨rfl, rfl, by decide, c12_run, ?_⟩
  obtain ⟨status, hs, hT, -, -, hlog, -⟩ :=
    C12_type_change_dumps_directory never ⟨1, 2⟩ (rootDir 1 []) (rootDir 2 []) "x" c12_node1
      c12_node2 start rfl rfl (by decide)
  exact ⟨status, hs, hT, hlog _ c12_proper1
    (Proper.cons _ _ _ (fun _ => rfl) Proper.nil Proper.nil) c12_run⟩

/-! ### The blocks of the content comparison -/

theorem cmpBlocksTrace_fst (n : Nat) : ∀ fd1 fd2 : List Nat,
    (cmpBlocksTrace fd1 fd2 n).1 = cmpBlocks fd1 fd2 n := by
  induction n using Nat.strong_induction_on with
  | _ n ih =>
    intro fd1 fd2
    rw [cmpBlocksTrace, cmpBlocks]
    by_cases hn : 0 < n
    · simp only [hn, if_true]
      split
      · rfl
      · split
        · rfl
        · split
          · rfl
          · exact ih _ (by simp only [block_size]; omega) _ _
    · simp only [hn, if_false]

theorem blockSizes_length (n : Nat) : (blockSizes n).length = (n + 4095) / 4096 := by
  induction n using Nat.strong_induction_on with
  | _ n ih =>
    rw [blockSizes]
    by_cases hn : 0 < n
    · simp only [hn, if_true, List.length_cons]
      rw [ih _ (by simp only [block_size]; omega)]
      simp only [block_size]
      omega
    · simp only [hn, if_false, List.length_nil]
      omega

/-- The loop compares blocks of `min(4096, remaining)` bytes: the sizes of the blocks it
begins are the first sizes of a comparison that runs to the end -/
theorem cmpBlocksTrace_prefix (n : Nat) : ∀ fd1 fd2 : List Nat,
    (cmpBlocksTrace fd1 fd2 n).2 <+: blockSizes n := by
  induction n using Nat.strong_induction_on with
  | _ n ih =>
    intro fd1 fd2
    rw [cmpBlocksTrace, blockSizes]
    by_cases hn : 0 < n
    · simp only [hn, if_true]
      have hone : [min block_size n] <+:
          min block_size n :: blockSizes (n - min block_size n) :=
        ⟨blockSizes (n - min block_size n), rfl⟩
      split
      · exact hone
      · split
        · exact hone
        · split
          · exact hone
          · obtain ⟨l, hl⟩ := ih (n - min block_size n) (by simp only [block_size]; omega)
              (read fd1 (min block_size n)).2.2 (read fd2 (min block_size n)).2.2
            exact ⟨l, by rw [List.cons_append, hl]⟩
    · simp only [hn, if_false]
      exact List.prefix_refl _

/-- A comparison that finds the bytes equal has gone through every block -/
theorem cmpBlocksTrace_true (n : Nat) : ∀ fd1 fd2 : List Nat,
    (cmpBlocksTrace fd1 fd2 n).1 = true → (cmpBlocksTrace fd1 fd2 n).2 = blockSizes n := by
  induction n using Nat.strong_induction_on with
  | _ n ih =>
    intro fd1 fd2
    rw [cmpBlocksTrace, blockSizes]
    by_cases hn : 0 < n
    · simp only [hn, if_true]
      split
      · intro h
        cases h
      · split
        · intro h
          cases h
        · split
          · intro h
            cases h
          · intro h
            simp only at h ⊢
            rw [ih _ (by simp only [block_size]; omega) _ _ h]
    · simp only [hn, if_false, implies_true]

/-- A comparison of bytes that can all be read which finds a difference stops at the
first block that differs: the blocks before the last one it began are equal, and the
last one differs -/
theorem cmpBlocksTrace_false (n : Nat) : ∀ fd1 fd2 : List Nat,
    n ≤ fd1.length → n ≤ fd2.length → (cmpBlocksTrace fd1 fd2 n).1 = false →
    ∃ pre t, (cmpBlocksTrace fd1 fd2 n).2 = pre ++ [t] ∧
      fd1.take pre.sum = fd2.take pre.sum ∧
      (fd1.drop pre.sum).take t ≠ (fd2.drop pre.sum).take t := by
  induction n using Nat.strong_induction_on with
  | _ n ih =>
    intro fd1 fd2 h1 h2
    rw [cmpBlocksTrace]
    by_cases hn : 0 < n
    · have e1 : min (min block_size n) fd1.length = min block_size n := by omega
      have e2 : min (min block_size n) fd2.length = min block_size n := by omega
      simp only [hn, if_true, read_count, e1, e2, ne_eq, not_true_eq_false, if_false]
      by_cases hb : fd1.take (min block_size n) = fd2.take (min block_size n)
      · simp only [read, hb, not_true_eq_false, if_false]
        intro h
        obtain ⟨pre, t, ht, hpre, hlast⟩ := ih (n - min block_size n)
          (by simp only [block_size]; omega)
          (fd1.drop (min block_size n)) (fd2.drop (min block_size n))
          (by simp only [List.length_drop]; omega) (by simp only [List.length_drop]; omega) h
        refine ⟨min block_size n :: pre, t, by rw [ht]; rfl, ?_, ?_⟩
        · rw [List.sum_cons, List.take_add, List.take_add, hb, hpre]
        · rw [List.sum_cons, ← List.drop_drop, ← List.drop_drop]
          exact hlast
      · simp only [read, hb, not_false_eq_true, if_true]
        intro _
        exact ⟨[], min block_size n, rfl, rfl, hb⟩
    · simp only [hn, if_false]
      intro h
      cases h

/-- C16: for two files with different modification times, the same size `n`, not 0,
and different (device, inode), that both open and deliver the `n` bytes in full reads,
`cmpFilesContentReg` returns true exactly when the first `n` bytes are the same.  The
loop compares blocks of `min(4096, remaining)` bytes and begins at most `ceil(n/4096)`
of them; it goes through all blocks when the bytes are the same, and otherwise the
last block it begins is the first one that differs. -/
theorem C16_block_comparison (file1 file2 : SFile) (stat1 stat2 : Stat) (fd1 fd2 : List Nat)
    (hm : ¬ (stat1.tv_sec = stat2.tv_sec ∧ stat1.tv_nsec = stat2.tv_nsec))
    (hsize : stat1.st_size = stat2.st_size) (hnz : stat1.st_size ≠ 0)
    (hino : ¬ (stat1.st_dev = stat2.st_dev ∧ stat1.st_ino = stat2.st_ino))
    (ho1 : file1.fd = some fd1) (ho2 : file2.fd = some fd2)
    (hr1 : stat1.st_size ≤ fd1.length) (hr2 : stat1.st_size ≤ fd2.length) :
    (cmpFilesContentReg file1 stat1 file2 stat2 = true ↔
      fd1.take stat1.st_size = fd2.take stat1.st_size) ∧
    cmpFilesContentReg file1 stat1 file2 stat2 = (cmpBlocksTrace fd1 fd2 stat1.st_size).1 ∧
    (cmpBlocksTrace fd1 fd2 stat1.st_size).2 <+: blockSizes stat1.st_size ∧
    (cmpBlocksTrace fd1 fd2 stat1.st_size).2.length ≤ (stat1.st_size + 4095) / 4096 ∧
    (fd1.take stat1.st_size = fd2.take stat1.st_size →
      (cmpBlocksTrace fd1 fd2 stat1.st_size).2 = blockSizes stat1.st_size) ∧
    (fd1.take stat1.st_size ≠ fd2.take stat1.st_size →
      ∃ pre t, (cmpBlocksTrace fd1 fd2 stat1.st_size).2 = pre ++ [t] ∧
        fd1.take pre.sum = fd2.take pre.sum ∧
        (fd1.drop pre.sum).take t ≠ (fd2.drop pre.sum).take t) := by
  have hreg : cmpFilesContentReg file1 stat1 file2 stat2 =
      cmpBlocks fd1 fd2 stat1.st_size := by
    unfold cmpFilesContentReg
    rw [if_neg hm, if_neg (not_not.mpr hsize), if_neg (fun h => hnz h.1), if_neg hino, ho1, ho2]
  have hfull := cmpBlocks_full stat1.st_size fd1 fd2 hr1 hr2
  have hfst := cmpBlocksTrace_fst stat1.st_size fd1 fd2
  have hpre := cmpBlocksTrace_prefix stat1.st_size fd1 fd2
  refine ⟨?_, ?_, hpre, ?_, ?_, ?_⟩
  · rw [hreg, hfull]
    exact decide_eq_true_iff
  · rw [hreg, hfst]
  · have := hpre.length_le
    rw [blockSizes_length] at this
    exact this
  · intro heq
    apply cmpBlocksTrace_true
    rw [hfst, hfull]
    exact decide_eq_true heq
  · intro hne
    apply cmpBlocksTrace_false _ _ _ hr1 hr2
    rw [hfst, hfull]
    exact decide_eq_false hne

/-- C16, applied to two files of 5000 bytes that differ in the last byte only: the
comparison takes at most two blocks -/
theorem C16_block_comparison_witness :
    ¬ (c16_stat1.tv_sec = c16_stat2.tv_sec ∧ c16_stat1.tv_nsec = c16_stat2.tv_nsec) ∧
    c16_stat1.st_size = c16_stat2.st_size ∧ c16_stat1.st_size ≠ 0 ∧
    ¬ (c16_stat1.st_dev = c16_stat2.st_dev ∧ c16_stat1.st_ino = c16_stat2.st_ino) ∧
    c16_stat1.st_size ≤ (List.replicate 5000 0).length ∧
    c16_stat1.st_size ≤ (List.replicate 4999 0 ++ [1]).length ∧
    (cmpFilesContentReg ⟨some (List.replicate 5000 0), none⟩ c16_stat1
        ⟨some (List.replicate 4999 0 ++ [1]), none⟩ c16_stat2 = true ↔
      (List.replicate 5000 0).take c16_stat1.st_size =
        (List.replicate 4999 0 ++ [1]).take c16_stat1.st_size) ∧
    (cmpBlocksTrace (List.replicate 5000 0) (List.replicate 4999 0 ++ [1])
      c16_stat1.st_size).2.length ≤ (c16_stat1.st_size + 4095) / 4096 ∧
    (c16_stat1.st_size + 4095) / 4096 = 2 :=
  have h := C16_block_comparison ⟨some (List.replicate 5000 0), none⟩
    ⟨some (List.replicate 4999 0 ++ [1]), none⟩ c16_stat1 c16_stat2 (List.replicate 5000 0)
    (List.replicate 4999 0 ++ [1]) (by decide) (by decide) (by decide) (by decide) rfl rfl
    (by rw [List.length_replicate]; decide)
    (by rw [List.length_append, List.length_replicate]; decide)
  ⟨by decide, by decide, by decide, by decide, by rw [List.length_replicate]; decide,
    by rw [List.length_append, List.length_replicate]; decide, h.1, h.2.2.2.1, by decide⟩

/-! ### Cancellation -/

/-- A step that passes no interruption point and leaves the log as it is -/
theorem Cancels.pure (intr : Nat → Bool) (o : Option Exception) (s : Run) :
    Cancels intr s (o, s) (o, s) :=
  ⟨le_refl _, ⟨[], by simp⟩, Or.inl ⟨rfl, fun n h1 h2 => absurd h2 (by simp only; omega)⟩⟩

theorem Cancels.past_cb {intr : Nat → Bool} {s : Run} (path : String) (status : Nat)
    {r0 r : Result} (h : Cancels intr (s.cb path status) r0 r) : Cancels intr s r0 r := by
  obtain ⟨hv, ⟨l0, hl0⟩, hc⟩ := h
  rw [Run.cb_visits] at hv
  rw [Run.cb_log] at hl0
  refine ⟨hv, ⟨(path, status) :: l0, by rw [hl0]; simp⟩, ?_⟩
  rcases hc with ⟨he, hn⟩ | ⟨ht, hi, hn, hle, hlt, ⟨l, hl⟩, hpre⟩
  · exact Or.inl ⟨he, fun n h1 h2 => hn n (by rw [Run.cb_visits]; exact h1) h2⟩
  · refine Or.inr ⟨ht, hi, fun n h1 h2 => hn n (by rw [Run.cb_visits]; exact h1) h2, ?_, hlt,
      ⟨(path, status) :: l, ?_⟩, hpre⟩
    · rw [Run.cb_visits] at hle
      exact hle
    · rw [hl, Run.cb_log]
      simp

theorem Cancels.past_ite_cb {intr : Nat → Bool} {s : Run} (path : String) (status : Nat)
    {r0 r : Result}
    (h : Cancels intr (if status ≠ 0 then s.cb path status else s) r0 r) :
    Cancels intr s r0 r := by
  by_cases h0 : status ≠ 0
  · rw [if_pos h0] at h
    exact h.past_cb
  · rw [if_neg h0] at h
    exact h

theorem Cancels.sequence {intr : Nat → Bool} {s : Run} {r0 r : Result} {k0 k : Run → Result}
    (hr : Cancels intr s r0 r) (hk : ∀ s1, Cancels intr s1 (k0 s1) (k s1)) :
    Cancels intr s (r0.andThen k0) (r.andThen k) := by
  obtain ⟨o0, s0⟩ := r0
  obtain ⟨hv, ⟨l0, hl0⟩, hc⟩ := hr
  simp only at hv hl0
  cases o0 with
  | some e0 =>
    rw [Result.andThen_some]
    refine ⟨hv, ⟨l0, hl0⟩, ?_⟩
    rcases hc with ⟨he, hn⟩ | ⟨ht, hi, hn, hle, hlt, hl, hpre⟩
    · rw [he, Result.andThen_some]
      exact Or.inl ⟨rfl, hn⟩
    · obtain ⟨o, s'⟩ := r
      simp only at ht
      subst ht
      rw [Result.andThen_some]
      exact Or.inr ⟨rfl, hi, hn, hle, hlt, hl, hpre⟩
  | none =>
    rw [Result.andThen_none]
    obtain ⟨hv1, ⟨l1, hl1⟩, hc1⟩ := hk s0
    refine ⟨le_trans hv hv1, ⟨l0 ++ l1, by rw [hl1, hl0, List.append_assoc]⟩, ?_⟩
    rcases hc with ⟨he, hn⟩ | ⟨ht, hi, hn, hle, hlt, hl, ⟨lp, hpre⟩⟩
    · rw [he, Result.andThen_none]
      simp only at hn
      rcases hc1 with ⟨he1, hn1⟩ | ⟨ht1, hi1, hn1, hle1, hlt1, ⟨l2, hl2⟩, hpre1⟩
      · refine Or.inl ⟨he1, fun n h1 h2 => ?_⟩
        by_cases hlt : n < s0.visits
        · exact hn n h1 hlt
        · exact hn1 n (by omega) h2
      · refine Or.inr ⟨ht1, hi1, fun n h1 h2 => ?_, le_trans hv hle1, hlt1,
          ⟨l0 ++ l2, by rw [hl2, hl0, List.append_assoc]⟩, hpre1⟩
        by_cases hlt : n < s0.visits
        · exact hn n h1 hlt
        · exact hn1 n (by omega) h2
    · obtain ⟨o, s'⟩ := r
      simp only at ht hi hn hle hlt hl hpre
      subst ht
      rw [Result.andThen_some]
      refine Or.inr ⟨rfl, hi, hn, hle, lt_of_lt_of_le hlt hv1, hl,
        ⟨lp ++ l1, by rw [hl1, hpre, List.append_assoc]⟩⟩

/-- An interruption point followed by a body: the uninterrupted call passes the point -/
theorem Cancels.visit {intr : Nat → Bool} {s : Run} {r0 r : Result}
    (h : Cancels intr { s with visits := s.visits + 1 } r0 r) :
    Cancels intr s r0 (if intr s.visits then (some .thread_interrupted, s) else r) := by
  obtain ⟨hv, ⟨l0, hl0⟩, hc⟩ := h
  simp only at hv hl0
  refine ⟨by omega, ⟨l0, hl0⟩, ?_⟩
  by_cases hi : intr s.visits = true
  · rw [if_pos hi]
    exact Or.inr ⟨rfl, hi, fun n h1 h2 => absurd h2 (by simp only; omega), le_refl _,
      by simp only; omega, ⟨[], by simp⟩, ⟨l0, hl0⟩⟩
  · rw [if_neg hi]
    have hfalse : intr s.visits = false := by simpa using hi
    rcases hc with ⟨he, hn⟩ | ⟨ht, hi1, hn, hle, hlt, hl, hpre⟩
    · refine Or.inl ⟨he, fun n h1 h2 => ?_⟩
      by_cases hn0 : n = s.visits
      · rw [hn0]
        exact hfalse
      · exact hn n (by simp only; omega) h2
    · refine Or.inr ⟨ht, hi1, fun n h1 h2 => ?_, by simp only at hle; omega, hlt, hl, hpre⟩
      by_cases hn0 : n = s.visits
      · rw [hn0]
        exact hfalse
      · exact hn n (by simp only; omega) h2

theorem listSubdirs_cancels_of (intr : Nat → Bool) (dir : SDir) (status : Nat)
    (hloop : ∀ s, Cancels intr s (listSubdirsLoop never dir dir.kids status s)
      (listSubdirsLoop intr dir dir.kids status s)) (s : Run) :
    Cancels intr s (listSubdirs never dir status s) (listSubdirs intr dir status s) := by
  rw [listSubdirs_eq, listSubdirs_eq]
  have hn : never s.visits = false := rfl
  rw [hn, if_neg (by simp)]
  apply Cancels.visit
  by_cases hl : dir.listable = true
  · rw [if_pos hl, if_pos hl]
    exact hloop _
  · rw [if_neg hl, if_neg hl]
    exact Cancels.pure _ _ _

theorem listSubdirsLoop_cancels (intr : Nat → Bool) (status : Nat) :
    ∀ (entries : List (String × Node)) (dir : SDir) (s : Run),
      Cancels intr s (listSubdirsLoop never dir entries status s)
        (listSubdirsLoop intr dir entries status s) := by
  refine listing_induction ?_ ?_
  · intro dir s
    rw [listSubdirsLoop_nil, listSubdirsLoop_nil]
    exact Cancels.pure _ _ _
  · intro name node rest ihk ihr dir s
    rw [listSubdirsLoop_cons, listSubdirsLoop_cons]
    apply Cancels.past_cb (dir.fullname name) status
    by_cases hd : S_ISDIR node.stat.st_mode = true
    · rw [if_pos hd, if_pos hd]
      by_cases ho : node.file.fd.isSome = true
      · rw [if_pos ho, if_pos ho]
        exact Cancels.sequence (listSubdirs_cancels_of intr _ status (fun s => ihk _ s) _)
          (fun s1 => ihr dir s1)
      · rw [if_neg ho, if_neg ho]
        exact Cancels.pure _ _ _
    · rw [if_neg hd, if_neg hd]
      exact ihr dir _

theorem listSubdirs_cancels (intr : Nat → Bool) (dir : SDir) (status : Nat) (s : Run) :
    Cancels intr s (listSubdirs never dir status s) (listSubdirs intr dir status s) :=
  listSubdirs_cancels_of intr dir status
    (fun s => listSubdirsLoop_cancels intr status _ dir s) s

theorem lonesomeStep_cancels (intr : Nat → Bool) (dev : Nat) (dir : SDir) (name : String)
    (node : Node) (status : Nat) (s : Run) :
    Cancels intr s (lonesomeStep never dev dir name node status s)
      (lonesomeStep intr dev dir name node status s) := by
  unfold lonesomeStep
  by_cases hdev : node.stat.st_dev = dev
  · rw [if_pos hdev, if_pos hdev, lonesome_eq, lonesome_eq]
    apply Cancels.past_cb (dir.fullname name) status
    by_cases hd : S_ISDIR node.stat.st_mode = true
    · rw [if_pos hd, if_pos hd]
      by_cases ho : node.file.fd.isSome = true
      · rw [if_pos ho, if_pos ho]
        exact listSubdirs_cancels intr _ status _
      · rw [if_neg ho, if_neg ho]
        exact Cancels.pure _ _ _
    · rw [if_neg hd, if_neg hd]
      exact Cancels.pure _ _ _
  · rw [if_neg hdev, if_neg hdev]
    exact Cancels.pure _ _ _

theorem dumpStep_cancels (intr : Nat → Bool) (dev : Nat) (dir : SDir) (name : String)
    (node : Node) (status : Nat) (s : Run) :
    Cancels intr s (dumpStep never dev dir name node status s)
      (dumpStep intr dev dir name node status s) := by
  rw [dumpStep_eq, dumpStep_eq]
  by_cases hd : S_ISDIR node.stat.st_mode = true
  · rw [if_pos hd, if_pos hd]
    by_cases hdev : node.stat.st_dev = dev
    · rw [if_pos hdev, if_pos hdev]
      by_cases ho : node.file.fd.isSome = true
      · rw [if_pos ho, if_pos ho]
        exact listSubdirs_cancels intr _ status _
      · rw [if_neg ho, if_neg ho]
        exact Cancels.pure _ _ _
    · rw [if_neg hdev, if_neg hdev]
      exact Cancels.pure _ _ _
  · rw [if_neg hd, if_neg hd]
    exact Cancels.pure _ _ _

theorem cmpDirsWorker_cancels_of (intr : Nat → Bool) (cmp_data : CmpData) (dir1 dir2 : SDir)
    (hloop : ∀ s, Cancels intr s
      (cmpDirsWorkerLoop never cmp_data dir1 dir2 dir1.kids dir2.kids s)
      (cmpDirsWorkerLoop intr cmp_data dir1 dir2 dir1.kids dir2.kids s)) (s : Run) :
    Cancels intr s (cmpDirsWorker never cmp_data dir1 dir2 s)
      (cmpDirsWorker intr cmp_data dir1 dir2 s) := by
  rw [cmpDirsWorker_eq, cmpDirsWorker_eq]
  have hn : never s.visits = false := rfl
  rw [hn, if_neg (by simp)]
  apply Cancels.visit
  by_cases hl1 : dir1.listable = true
  · rw [if_pos hl1, if_pos hl1]
    by_cases hl2 : dir2.listable = true
    · rw [if_pos hl2, if_pos hl2]
      exact hloop _
    · rw [if_neg hl2, if_neg hl2]
      exact Cancels.pure _ _ _
  · rw [if_neg hl1, if_neg hl1]
    exact Cancels.pure _ _ _

theorem twosome_cancels_of (intr : Nat → Bool) (cmp_data : CmpData) (dir1 dir2 : SDir)
    (name : String) (node1 node2 : Node)
    (hloop : ∀ d1 d2 s, Cancels intr s
      (cmpDirsWorkerLoop never cmp_data d1 d2 node1.kids node2.kids s)
      (cmpDirsWorkerLoop intr cmp_data d1 d2 node1.kids node2.kids s)) (s : Run) :
    Cancels intr s (twosome never cmp_data dir1 dir2 name node1 node2 s)
      (twosome intr cmp_data dir1 dir2 name node1 node2 s) := by
  by_cases hd : node1.stat.st_dev = cmp_data.dev1 ∧ node2.stat.st_dev = cmp_data.dev2
  · obtain ⟨status, hs⟩ := cmpFiles_ok node1.file node2.file node1.stat node2.stat
    rw [twosome_on_dev intr cmp_data dir1 dir2 name node1 node2 s status hd.1 hd.2 hs,
      twosome_on_dev never cmp_data dir1 dir2 name node1 node2 s status hd.1 hd.2 hs]
    apply Cancels.past_ite_cb (dir1.fullname name) status
    by_cases hT : status &&& TYPE = 0
    · rw [if_pos hT, if_pos hT]
      by_cases hdir : S_ISDIR node1.stat.st_mode = true
      · rw [if_pos hdir, if_pos hdir]
        by_cases ho1 : node1.file.fd.isSome = true
        · rw [if_pos ho1, if_pos ho1]
          by_cases ho2 : node2.file.fd.isSome = true
          · rw [if_pos ho2, if_pos ho2]
            exact cmpDirsWorker_cancels_of intr cmp_data _ _ (fun s => hloop _ _ s) _
          · rw [if_neg ho2, if_neg ho2]
            exact Cancels.pure _ _ _
        · rw [if_neg ho1, if_neg ho1]
          exact Cancels.pure _ _ _
      · rw [if_neg hdir, if_neg hdir]
        exact Cancels.pure _ _ _
    · rw [if_neg hT, if_neg hT]
      exact Cancels.sequence (dumpStep_cancels intr _ _ _ _ _ _)
        (fun s1 => dumpStep_cancels intr _ _ _ _ _ s1)
  · rw [twosome_off_dev intr cmp_data dir1 dir2 name node1 node2 s hd,
      twosome_off_dev never cmp_data dir1 dir2 name node1 node2 s hd]
    exact Cancels.pure _ _ _

theorem cmpDirsWorkerLoop_cancels (intr : Nat → Bool) (cmp_data : CmpData) :
    ∀ (entries1 entries2 : List (String × Node)) (dir1 dir2 : SDir) (s : Run),
      Cancels intr s (cmpDirsWorkerLoop never cmp_data dir1 dir2 entries1 entries2 s)
        (cmpDirsWorkerLoop intr cmp_data dir1 dir2 entries1 entries2 s) := by
  refine listing_pair_induction ?_ ?_ ?_ ?_
  · intro dir1 dir2 s
    rw [cmpDirsWorkerLoop_nil_nil, cmpDirsWorkerLoop_nil_nil]
    exact Cancels.pure _ _ _
  · intro name2 node2 rest2 ih dir1 dir2 s
    rw [cmpDirsWorkerLoop_nil_cons, cmpDirsWorkerLoop_nil_cons]
    by_cases hf : filter name2 = true
    · rw [if_pos hf, if_pos hf]
      exact ih _ _ _
    · rw [if_neg hf, if_neg hf]
      exact Cancels.sequence (lonesomeStep_cancels intr _ _ _ _ _ _) (fun s1 => ih _ _ s1)
  · intro name1 node1 rest1 ih dir1 dir2 s
    rw [cmpDirsWorkerLoop_cons_nil, cmpDirsWorkerLoop_cons_nil]
    by_cases hf : filter name1 = true
    · rw [if_pos hf, if_pos hf]
      exact ih _ _ _
    · rw [if_neg hf, if_neg hf]
      exact Cancels.sequence (lonesomeStep_cancels intr _ _ _ _ _ _) (fun s1 => ih _ _ s1)
  · intro name1 node1 rest1 name2 node2 rest2 ih1 ih2 ih12 ihk dir1 dir2 s
    rw [cmpDirsWorkerLoop_cons_cons, cmpDirsWorkerLoop_cons_cons]
    by_cases hf1 : filter name1 = true
    · rw [if_pos hf1, if_pos hf1]
      exact ih1 _ _ _
    · rw [if_neg hf1, if_neg hf1]
      by_cases hf2 : filter name2 = true
      · rw [if_pos hf2, if_pos hf2]
        exact ih2 _ _ _
      · rw [if_neg hf2, if_neg hf2]
        by_cases h21 : name2 < name1
        · rw [if_pos h21, if_pos h21]
          exact Cancels.sequence (lonesomeStep_cancels intr _ _ _ _ _ _) (fun s1 => ih2 _ _ s1)
        · rw [if_neg h21, if_neg h21]
          by_cases h12 : name1 < name2
          · rw [if_pos h12, if_pos h12]
            exact Cancels.sequence (lonesomeStep_cancels intr _ _ _ _ _ _) (fun s1 => ih1 _ _ s1)
          · rw [if_neg h12, if_neg h12]
            by_cases hne : name1 ≠ name2
            · rw [if_pos hne, if_pos hne]
              exact Cancels.pure _ _ _
            · rw [if_neg hne, if_neg hne]
              exact Cancels.sequence
                (twosome_cancels_of intr cmp_data dir1 dir2 name1 node1 node2 ihk s)
                (fun s1 => ih12 _ _ s1)

theorem cmpDirs_cancels (intr : Nat → Bool) (dir1 dir2 : SDir) (s : Run) :
    Cancels intr s (cmpDirs never dir1 dir2 s) (cmpDirs intr dir1 dir2 s) := by
  unfold cmpDirs
  split
  · exact Cancels.pure _ _ _
  · split
    · exact Cancels.pure _ _ _
    · exact cmpDirsWorker_cancels_of intr _ _ _
        (fun s => cmpDirsWorkerLoop_cancels intr _ _ _ _ _ s) _

/-- C13: cancellation of a run of `cmpDirs` entered with `s.visits` interruption points
passed.  When the request is pending at none of the interruption points that the
uninterrupted run passes, the run is the uninterrupted run.  When the request is first
pending at the point number `k` and the uninterrupted run passes that point, the run
ends with the interruption in a state with exactly `k` points passed, so no further
directory is visited; its log continues the log at entry and is a beginning of the log
of the uninterrupted run, nothing being notified after the interruption; and when `k`
is the first point of the run, the state is the state at entry: nothing was notified. -/
theorem C13_cancellation (intr : Nat → Bool) (dir1 dir2 : SDir) (s : Run) :
    ((∀ n, s.visits ≤ n → n < (cmpDirs never dir1 dir2 s).2.visits → intr n = false) →
      cmpDirs intr dir1 dir2 s = cmpDirs never dir1 dir2 s) ∧
    ∀ k, intr k = true → (∀ n, s.visits ≤ n → n < k → intr n = false) → s.visits ≤ k →
      k < (cmpDirs never dir1 dir2 s).2.visits →
      ∃ s', cmpDirs intr dir1 dir2 s = (some .thread_interrupted, s') ∧ s'.visits = k ∧
        (∃ l, s'.log = s.log ++ l) ∧
        (∃ l, (cmpDirs never dir1 dir2 s).2.log = s'.log ++ l) ∧
        (k = s.visits → s' = s) := by
  obtain ⟨-, -, hc⟩ := cmpDirs_cancels intr dir1 dir2 s
  constructor
  · intro hnone
    rcases hc with ⟨he, -⟩ | ⟨-, hi, -, hle, hlt, -, -⟩
    · exact he
    · rw [hnone _ hle hlt] at hi
      cases hi
  · intro k hk hfirst hs hreach
    rcases hc with ⟨-, hn⟩ | ⟨ht, hi, hn, hle, hlt, hl, hpre⟩
    · rw [hn k hs hreach] at hk
      cases hk
    · have hvis : (cmpDirs intr dir1 dir2 s).2.visits = k := by
        by_contra hne
        rcases Nat.lt_or_gt_of_ne hne with h | h
        · rw [hfirst _ hle h] at hi
          cases hi
        · rw [hn k hs h] at hk
          cases hk
      have hres : cmpDirs intr dir1 dir2 s =
          (some .thread_interrupted, (cmpDirs intr dir1 dir2 s).2) := Prod.ext ht rfl
      refine ⟨(cmpDirs intr dir1 dir2 s).2, hres, hvis, hl, hpre, ?_⟩
      intro hks
      rw [hks] at hk
      generalize (cmpDirs intr dir1 dir2 s).2 = s' at hres
      unfold cmpDirs at hres
      split at hres
      · cases hres
      · split at hres
        · cases hres
        · rw [cmpDirsWorker_eq, if_pos hk] at hres
          cases hres
          rfl

theorem c13_run :
    cmpDirs (firesAt 1) c3_dir1 c3_dir2 start =
      (some .thread_interrupted, ⟨[("/b", DELETED)], 1⟩) := by
  have hdir : S_ISDIR 0o040755 = true := by decide
  have hf : filter "b" = false := by decide
  have h0 : firesAt 1 0 = false := rfl
  have h1 : firesAt 1 1 = true := rfl
  simp [cmpDirs, c3_dir1, c3_dir2, rootDir, cmpDirsWorker_eq, h0, h1, start,
    cmpDirsWorkerLoop_cons_nil, hf, lonesomeStep, lonesome_eq, listSubdirs_eq,
    Result.andThen_some, directory_stat, directory_file, Run.cb, SDir.fullname, hdir]

/-- C13, applied to the tree with `/b`, `/b/f`, `/b/g`, `/b/g/h` against an empty tree,
with the interruption requested at the second directory visit, the one of `/b`: the run
ends with the interruption after notifying `/b`, a beginning of the four notifications
of the uninterrupted run -/
theorem C13_cancellation_witness :
    firesAt 1 1 = true ∧ start.visits ≤ 1 ∧
    1 < (cmpDirs never c3_dir1 c3_dir2 start).2.visits ∧
    cmpDirs (firesAt 1) c3_dir1 c3_dir2 start =
      (some .thread_interrupted, ⟨[("/b", DELETED)], 1⟩) ∧
    ∃ s', cmpDirs (firesAt 1) c3_dir1 c3_dir2 start = (some .thread_interrupted, s') ∧
      s'.visits = 1 ∧ (∃ l, s'.log = start.log ++ l) ∧
      (∃ l, (cmpDirs never c3_dir1 c3_dir2 start).2.log = s'.log ++ l) ∧
      (1 = start.visits → s' = start) := by
  have hrun : cmpDirs never c3_dir1 c3_dir2 start =
      cmpDirsWorker never ⟨1, 2⟩ c3_dir1 c3_dir2 start := rfl
  have hreach : 1 < (cmpDirs never c3_dir1 c3_dir2 start).2.visits := by
    rw [hrun, c3_run]
    decide
  refine ⟨rfl, by decide, hreach, c13_run, ?_⟩
  refine (C13_cancellation (firesAt 1) c3_dir1 c3_dir2 start).2 1 rfl ?_ (by decide) hreach
  intro n _ hn
  have : n = 0 := by omega
  subst this
  rfl

/-! ### Exchanging the two roots -/

theorem cmpBlocks_symm (n : Nat) : ∀ fd1 fd2 : List Nat,
    cmpBlocks fd2 fd1 n = cmpBlocks fd1 fd2 n := by
  induction n using Nat.strong_induction_on with
  | _ n ih =>
    intro fd1 fd2
    rw [cmpBlocks, cmpBlocks.eq_1 fd1 fd2 n]
    by_cases hn : 0 < n
    · simp only [hn, if_true]
      by_cases h1 : (read fd1 (min block_size n)).1 = min block_size n
      · by_cases h2 : (read fd2 (min block_size n)).1 = min block_size n
        · simp only [h1, h2, ne_eq, not_true_eq_false, if_false]
          by_cases hb : (read fd1 (min block_size n)).2.1 = (read fd2 (min block_size n)).2.1
          · simp only [hb, not_true_eq_false, if_false]
            exact ih _ (by simp only [block_size]; omega) _ _
          · have hb' : ¬ (read fd2 (min block_size n)).2.1 = (read fd1 (min block_size n)).2.1 :=
              fun h => hb h.symm
            simp only [hb, hb', not_false_eq_true, if_true]
        · simp only [h1, h2, ne_eq, not_true_eq_false, not_false_eq_true, if_true, if_false]
      · by_cases h2 : (read fd2 (min block_size n)).1 = min block_size n
        · simp only [h1, h2, ne_eq, not_true_eq_false, not_false_eq_true, if_true, if_false]
        · simp only [h1, h2, ne_eq, not_false_eq_true, if_true]
    · simp only [hn, if_false]

theorem cmpFilesContentReg_symm (file1 file2 : SFile) (stat1 stat2 : Stat) :
    cmpFilesContentReg file2 stat2 file1 stat1 = cmpFilesContentReg file1 stat1 file2 stat2 := by
  unfold cmpFilesContentReg
  by_cases hm : stat1.tv_sec = stat2.tv_sec ∧ stat1.tv_nsec = stat2.tv_nsec
  · rw [if_pos hm, if_pos ⟨hm.1.symm, hm.2.symm⟩]
  · rw [if_neg hm, if_neg (fun h => hm ⟨h.1.symm, h.2.symm⟩)]
    by_cases hsize : stat1.st_size = stat2.st_size
    · rw [if_neg (not_not.mpr hsize), if_neg (not_not.mpr hsize.symm)]
      by_cases hz : stat1.st_size = 0 ∧ stat2.st_size = 0
      · rw [if_pos hz, if_pos ⟨hz.2, hz.1⟩]
      · rw [if_neg hz, if_neg (fun h => hz ⟨h.2, h.1⟩)]
        by_cases hino : stat1.st_dev = stat2.st_dev ∧ stat1.st_ino = stat2.st_ino
        · rw [if_pos hino, if_pos ⟨hino.1.symm, hino.2.symm⟩]
        · rw [if_neg hino, if_neg (fun h => hino ⟨h.1.symm, h.2.symm⟩)]
          cases h1 : file1.fd with
          | none => cases h2 : file2.fd <;> rfl
          | some fd1 =>
            cases h2 : file2.fd with
            | none => rfl
            | some fd2 =>
              simp only
              rw [← hsize]
              exact cmpBlocks_symm _ fd1 fd2
    · rw [if_pos hsize, if_pos (fun h => hsize h.symm)]

theorem cmpFilesContentLnk_symm (file1 file2 : SFile) (stat1 stat2 : Stat) :
    cmpFilesContentLnk file2 stat2 file1 stat1 = cmpFilesContentLnk file1 stat1 file2 stat2 := by
  unfold cmpFilesContentLnk
  by_cases hm : stat1.tv_sec = stat2.tv_sec ∧ stat1.tv_nsec = stat2.tv_nsec
  · rw [if_pos hm, if_pos ⟨hm.1.symm, hm.2.symm⟩]
  · rw [if_neg hm, if_neg (fun h => hm ⟨h.1.symm, h.2.symm⟩)]
    by_cases h1 : file1.readlink.1 = 0
    · by_cases h2 : file2.readlink.1 = 0
      · simp [h1, h2]
      · simp [h1, h2]
    · by_cases h2 : file2.readlink.1 = 0
      · simp [h1, h2]
      · simp only [h1, h2, ne_eq, not_false_eq_true, decide_True, Bool.not_true,
          Bool.false_eq_true, if_false]
        by_cases he : file1.readlink.2 = file2.readlink.2
        · simp [he]
        · have he' : ¬ file2.readlink.2 = file1.readlink.2 := fun h => he h.symm
          simp [he, he']

theorem cmpFilesContent_symm (file1 file2 : SFile) (stat1 stat2 : Stat) :
    cmpFilesContent file2 stat2 file1 stat1 = cmpFilesContent file1 stat1 file2 stat2 := by
  unfold cmpFilesContent
  by_cases ht : stat1.st_mode &&& S_IFMT = stat2.st_mode &&& S_IFMT
  · rw [if_neg (not_not.mpr ht), if_neg (not_not.mpr ht.symm), ← ht,
      cmpFilesContentReg_symm, cmpFilesContentLnk_symm]
  · rw [if_pos ht, if_pos (fun h => ht h.symm)]

/-- The status of `cmpFiles` on matched metadata does not depend on the order of the two
entries -/
theorem cmpFiles_symm (file1 file2 : SFile) (stat1 stat2 : Stat) :
    cmpFiles file2 stat2 file1 stat1 = cmpFiles file1 stat1 file2 stat2 := by
  obtain ⟨t, ht⟩ := exists_bool_iff (stat1.st_mode &&& S_IFMT ≠ stat2.st_mode &&& S_IFMT)
  obtain ⟨c, hc⟩ := exists_bool_iff (stat1.st_mode &&& S_IFMT = stat2.st_mode &&& S_IFMT ∧
    cmpFilesContent file1 stat1 file2 stat2 = .ok false)
  obtain ⟨p, hp⟩ := exists_bool_iff ((stat1.st_mode ^^^ stat2.st_mode) &&& permMask ≠ 0)
  obtain ⟨u, hu⟩ := exists_bool_iff (stat1.st_uid ≠ stat2.st_uid)
  obtain ⟨g, hg⟩ := exists_bool_iff (stat1.st_gid ≠ stat2.st_gid)
  rw [cmpFiles_val file1 file2 stat1 stat2 t c p u g ht hc hp hu hg]
  apply cmpFiles_val file2 file1 stat2 stat1 t c p u g
  · rw [ht]
    exact ne_comm
  · rw [hc, cmpFilesContent_symm]
    exact ⟨fun h => ⟨h.1.symm, h.2⟩, fun h => ⟨h.1.symm, h.2⟩⟩
  · rw [hp, Nat.xor_comm]
  · rw [hu]
    exact ne_comm
  · rw [hg]
    exact ne_comm

theorem Run.mirror_cb (s : Run) (path : String) (status : Nat) :
    (s.cb path status).mirror = s.mirror.cb path (swapStatus status) := by
  simp [Run.mirror, Run.cb]

theorem Run.mirror_visit (s : Run) :
    ({ s with visits := s.visits + 1 } : Run).mirror =
      { s.mirror with visits := s.mirror.visits + 1 } := rfl

theorem Result.mirror_mk (o : Option Exception) (s : Run) :
    Result.mirror (o, s) = (o, s.mirror) := rfl

/-- Mirroring commutes with the sequencing of two steps -/
theorem Result.mirror_andThen {r r' : Result} {k k' : Run → Result} (hr : r' = r.mirror)
    (hk : ∀ s1, k' s1.mirror = (k s1).mirror) :
    r'.andThen k' = (r.andThen k).mirror := by
  obtain ⟨o, s1⟩ := r
  subst hr
  cases o with
  | some e => rw [Result.mirror_mk, Result.andThen_some, Result.andThen_some, Result.mirror_mk]
  | none => rw [Result.mirror_mk, Result.andThen_none, Result.andThen_none, hk]

/-- A status that `cmpFiles` computes is neither CREATED nor DELETED, so exchanging the
two leaves it as it is -/
theorem swapStatus_flags {status : Nat}
    (h : status &&& (TYPE ||| CONTENT ||| PERMISSIONS ||| USER ||| GROUP) = status) :
    swapStatus status = status := by
  obtain ⟨hc, hd⟩ := flags_exclude_created_deleted h
  unfold swapStatus
  by_cases h1 : status = CREATED
  · rw [h1] at hc
    exact absurd hc (by decide)
  · by_cases h2 : status = DELETED
    · rw [h2] at hd
      exact absurd hd (by decide)
    · rw [if_neg h1, if_neg h2]

theorem listSubdirs_mirror_of (intr : Nat → Bool) (dir : SDir) (status : Nat)
    (hloop : ∀ s, listSubdirsLoop intr dir dir.kids (swapStatus status) s.mirror =
      (listSubdirsLoop intr dir dir.kids status s).mirror) (s : Run) :
    listSubdirs intr dir (swapStatus status) s.mirror =
      (listSubdirs intr dir status s).mirror := by
  rw [listSubdirs_eq, listSubdirs_eq]
  by_cases hi : intr s.visits = true
  · rw [if_pos (show intr s.mirror.visits = true from hi), if_pos hi, Result.mirror_mk]
  · rw [if_neg (show ¬ intr s.mirror.visits = true from hi), if_neg hi]
    by_cases hl : dir.listable = true
    · rw [if_pos hl, if_pos hl]
      exact hloop { s with visits := s.visits + 1 }
    · rw [if_neg hl, if_neg hl]
      rfl

theorem listSubdirsLoop_mirror (intr : Nat → Bool) (status : Nat) :
    ∀ (entries : List (String × Node)) (dir : SDir) (s : Run),
      listSubdirsLoop intr dir entries (swapStatus status) s.mirror =
        (listSubdirsLoop intr dir entries status s).mirror := by
  refine listing_induction ?_ ?_
  · intro dir s
    rw [listSubdirsLoop_nil, listSubdirsLoop_nil, Result.mirror_mk]
  · intro name node rest ihk ihr dir s
    rw [listSubdirsLoop_cons, listSubdirsLoop_cons, ← Run.mirror_cb]
    by_cases hd : S_ISDIR node.stat.st_mode = true
    · rw [if_pos hd, if_pos hd]
      by_cases ho : node.file.fd.isSome = true
      · rw [if_pos ho, if_pos ho]
        exact Result.mirror_andThen
          (listSubdirs_mirror_of intr _ status (fun s => ihk _ s) _) (fun s1 => ihr dir s1)
      · rw [if_neg ho, if_neg ho, Result.mirror_mk]
    · rw [if_neg hd, if_neg hd]
      exact ihr dir _

theorem listSubdirs_mirror (intr : Nat → Bool) (dir : SDir) (status : Nat) (s : Run) :
    listSubdirs intr dir (swapStatus status) s.mirror =
      (listSubdirs intr dir status s).mirror :=
  listSubdirs_mirror_of intr dir status (fun s => listSubdirsLoop_mirror intr status _ dir s) s

theorem lonesomeStep_mirror (intr : Nat → Bool) (dev : Nat) (dir : SDir) (name : String)
    (node : Node) (status : Nat) (s : Run) :
    lonesomeStep intr dev dir name node (swapStatus status) s.mirror =
      (lonesomeStep intr dev dir name node status s).mirror := by
  unfold lonesomeStep
  by_cases hdev : node.stat.st_dev = dev
  · rw [if_pos hdev, if_pos hdev, lonesome_eq, lonesome_eq, ← Run.mirror_cb]
    by_cases hd : S_ISDIR node.stat.st_mode = true
    · rw [if_pos hd, if_pos hd]
      by_cases ho : node.file.fd.isSome = true
      · rw [if_pos ho, if_pos ho]
        exact listSubdirs_mirror intr _ status _
      · rw [if_neg ho, if_neg ho, Result.mirror_mk]
    · rw [if_neg hd, if_neg hd, Result.mirror_mk]
  · rw [if_neg hdev, if_neg hdev, Result.mirror_mk]

theorem dumpStep_mirror (intr : Nat → Bool) (dev : Nat) (dir : SDir) (name : String)
    (node : Node) (status : Nat) (s : Run) :
    dumpStep intr dev dir name node (swapStatus status) s.mirror =
      (dumpStep intr dev dir name node status s).mirror := by
  rw [dumpStep_eq, dumpStep_eq]
  by_cases hd : S_ISDIR node.stat.st_mode = true
  · rw [if_pos hd, if_pos hd]
    by_cases hdev : node.stat.st_dev = dev
    · rw [if_pos hdev, if_pos hdev]
      by_cases ho : node.file.fd.isSome = true
      · rw [if_pos ho, if_pos ho]
        exact listSubdirs_mirror intr _ status _
      · rw [if_neg ho, if_neg ho, Result.mirror_mk]
    · rw [if_neg hdev, if_neg hdev, Result.mirror_mk]
  · rw [if_neg hd, if_neg hd, Result.mirror_mk]

/-- The subtree dump of `twosome` does nothing for an entry that is no directory -/
theorem dumpStep_nondir (intr : Nat → Bool) (dev : Nat) (dir : SDir) (name : String)
    (node : Node) (status : Nat) (s : Run) (hd : S_ISDIR node.stat.st_mode = false) :
    dumpStep intr dev dir name node status s = (none, s) := by
  rw [dumpStep_eq, hd]
  rfl

theorem Result.andThen_nondir (r : Result) (intr : Nat → Bool) (dev : Nat) (dir : SDir)
    (name : String) (node : Node) (status : Nat) (hd : S_ISDIR node.stat.st_mode = false) :
    r.andThen (dumpStep intr dev dir name node status) = r := by
  obtain ⟨o, s⟩ := r
  cases o with
  | some e => rw [Result.andThen_some]
  | none => rw [Result.andThen_none, dumpStep_nondir intr dev dir name node status s hd]

theorem cmpDirsWorker_mirror_of (intr : Nat → Bool) (cmp_data : CmpData) (dir1 dir2 : SDir)
    (hloop : ∀ s, cmpDirsWorkerLoop intr cmp_data.swap dir2 dir1 dir2.kids dir1.kids s.mirror =
      (cmpDirsWorkerLoop intr cmp_data dir1 dir2 dir1.kids dir2.kids s).mirror) (s : Run) :
    cmpDirsWorker intr cmp_data.swap dir2 dir1 s.mirror =
      (cmpDirsWorker intr cmp_data dir1 dir2 s).mirror := by
  rw [cmpDirsWorker_eq, cmpDirsWorker_eq]
  by_cases hi : intr s.visits = true
  · rw [if_pos (show intr s.mirror.visits = true from hi), if_pos hi, Result.mirror_mk]
  · rw [if_neg (show ¬ intr s.mirror.visits = true from hi), if_neg hi]
    by_cases hl1 : dir1.listable = true
    · by_cases hl2 : dir2.listable = true
      · simp only [hl1, hl2, if_true]
        exact hloop { s with visits := s.visits + 1 }
      · simp only [hl1, hl2, if_true, if_false, Bool.false_eq_true]
        rfl
    · by_cases hl2 : dir2.listable = true
      · simp only [hl1, hl2, if_true, if_false, Bool.false_eq_true]
        rfl
      · simp only [hl1, hl2, if_false, Bool.false_eq_true]
        rfl

theorem twosome_mirror_of (intr : Nat → Bool) (cmp_data : CmpData) (dir1 dir2 : SDir)
    (name : String) (node1 node2 : Node) (hpath : dir1.path = dir2.path)
    (hloop : ∀ d1 d2 s, d1.path = d2.path →
      cmpDirsWorkerLoop intr cmp_data.swap d2 d1 node2.kids node1.kids s.mirror =
        (cmpDirsWorkerLoop intr cmp_data d1 d2 node1.kids node2.kids s).mirror) (s : Run) :
    twosome intr cmp_data.swap dir2 dir1 name node2 node1 s.mirror =
      (twosome intr cmp_data dir1 dir2 name node1 node2 s).mirror := by
  have hfull : dir2.fullname name = dir1.fullname name := by
    unfold SDir.fullname
    rw [hpath]
  by_cases hd : node1.stat.st_dev = cmp_data.dev1 ∧ node2.stat.st_dev = cmp_data.dev2
  · obtain ⟨status, hs⟩ := cmpFiles_ok node1.file node2.file node1.stat node2.stat
    have hs' : cmpFiles node2.file node2.stat node1.file node1.stat = .ok status := by
      rw [cmpFiles_symm, hs]
    have hsw : swapStatus status = status := swapStatus_flags (cmpFiles_flags hs)
    rw [twosome_on_dev intr cmp_data dir1 dir2 name node1 node2 s status hd.1 hd.2 hs,
      twosome_on_dev intr cmp_data.swap dir2 dir1 name node2 node1 s.mirror status hd.2 hd.1
        hs', hfull]
    have hstate : (if status ≠ 0 then s.mirror.cb (dir1.fullname name) status else s.mirror) =
        (if status ≠ 0 then s.cb (dir1.fullname name) status else s).mirror := by
      by_cases h0 : status ≠ 0
      · rw [if_pos h0, if_pos h0, Run.mirror_cb, hsw]
      · rw [if_neg h0, if_neg h0]
    rw [hstate]
    generalize (if status ≠ 0 then s.cb (dir1.fullname name) status else s) = s1
    by_cases hT : status &&& TYPE = 0
    · rw [if_pos hT, if_pos hT]
      have htype := cmpFiles_no_type hs hT
      have hdir : S_ISDIR node2.stat.st_mode = S_ISDIR node1.stat.st_mode := by
        unfold S_ISDIR
        rw [htype]
      rw [hdir]
      by_cases hdd : S_ISDIR node1.stat.st_mode = true
      · rw [if_pos hdd, if_pos hdd]
        by_cases ho1 : node1.file.fd.isSome = true
        · by_cases ho2 : node2.file.fd.isSome = true
          · simp only [ho1, ho2, if_true]
            exact cmpDirsWorker_mirror_of intr cmp_data
              ⟨dir1.fullname name, some node1.stat, node1.listable, node1.kids⟩
              ⟨dir1.fullname name, some node2.stat, node2.listable, node2.kids⟩
              (fun s => hloop ⟨dir1.fullname name, some node1.stat, node1.listable, node1.kids⟩
                ⟨dir1.fullname name, some node2.stat, node2.listable, node2.kids⟩ s rfl) s1
          · simp only [ho1, ho2, if_true, if_false, Bool.false_eq_true]
            rfl
        · by_cases ho2 : node2.file.fd.isSome = true
          · simp only [ho1, ho2, if_true, if_false, Bool.false_eq_true]
            rfl
          · simp only [ho1, ho2, if_false, Bool.false_eq_true]
            rfl
      · rw [if_neg hdd, if_neg hdd]
        rfl
    · rw [if_neg hT, if_neg hT]
      have htype : node1.stat.st_mode &&& S_IFMT ≠ node2.stat.st_mode &&& S_IFMT := by
        intro h
        obtain ⟨t, ht⟩ := exists_bool_iff
          (node1.stat.st_mode &&& S_IFMT ≠ node2.stat.st_mode &&& S_IFMT)
        obtain ⟨c, hc⟩ := exists_bool_iff
          (node1.stat.st_mode &&& S_IFMT = node2.stat.st_mode &&& S_IFMT ∧
            cmpFilesContent node1.file node1.stat node2.file node2.stat = .ok false)
        obtain ⟨p, hp⟩ := exists_bool_iff
          ((node1.stat.st_mode ^^^ node2.stat.st_mode) &&& permMask ≠ 0)
        obtain ⟨u, hu⟩ := exists_bool_iff (node1.stat.st_uid ≠ node2.stat.st_uid)
        obtain ⟨g, hg⟩ := exists_bool_iff (node1.stat.st_gid ≠ node2.stat.st_gid)
        have hv := cmpFiles_val node1.file node2.file node1.stat node2.stat t c p u g ht hc hp
          hu hg
        rw [hv] at hs
        cases hs
        exact (ht.1 ((flag_bits t c p u g).1.1 hT)) h
      by_cases hd1 : S_ISDIR node1.stat.st_mode = true
      · have hd2 : S_ISDIR node2.stat.st_mode = false := by
          by_contra h2
          have h2' : S_ISDIR node2.stat.st_mode = true := by simpa using h2
          rw [S_ISDIR_iff] at hd1 h2'
          exact htype (hd1.trans h2'.symm)
        rw [Result.andThen_nondir _ intr _ dir2 name node2 CREATED hd2,
          dumpStep_nondir intr _ dir2 name node2 DELETED _ hd2, Result.andThen_none]
        exact dumpStep_mirror intr _ dir1 name node1 DELETED s1
      · have hd1' : S_ISDIR node1.stat.st_mode = false := by simpa using hd1
        rw [Result.andThen_nondir _ intr _ dir1 name node1 CREATED hd1',
          dumpStep_nondir intr _ dir1 name node1 DELETED _ hd1', Result.andThen_none]
        exact (dumpStep_mirror intr _ dir2 name node2 CREATED s1).symm ▸ rfl
  · rw [twosome_off_dev intr cmp_data dir1 dir2 name node1 node2 s hd,
      twosome_off_dev intr cmp_data.swap dir2 dir1 name node2 node1 s.mirror
        (fun h => hd ⟨h.2, h.1⟩), Result.mirror_mk]

/-- The merge loop with the two roots exchanged notifies the same paths in the same
order, with CREATED and DELETED exchanged, and ends in the same way -/
theorem cmpDirsWorkerLoop_mirror (intr : Nat → Bool) (cmp_data : CmpData) :
    ∀ (entries1 entries2 : List (String × Node)) (dir1 dir2 : SDir) (s : Run),
      dir1.path = dir2.path →
      cmpDirsWorkerLoop intr cmp_data.swap dir2 dir1 entries2 entries1 s.mirror =
        (cmpDirsWorkerLoop intr cmp_data dir1 dir2 entries1 entries2 s).mirror := by
  refine listing_pair_induction ?_ ?_ ?_ ?_
  · intro dir1 dir2 s _
    rw [cmpDirsWorkerLoop_nil_nil, cmpDirsWorkerLoop_nil_nil, Result.mirror_mk]
  · intro name2 node2 rest2 ih dir1 dir2 s hpath
    rw [cmpDirsWorkerLoop_nil_cons, cmpDirsWorkerLoop_cons_nil]
    by_cases hf : filter name2 = true
    · rw [if_pos hf, if_pos hf]
      exact ih _ _ _ hpath
    · rw [if_neg hf, if_neg hf]
      exact Result.mirror_andThen
        (lonesomeStep_mirror intr cmp_data.dev2 dir2 name2 node2 CREATED s)
        (fun s1 => ih _ _ s1 hpath)
  · intro name1 node1 rest1 ih dir1 dir2 s hpath
    rw [cmpDirsWorkerLoop_cons_nil, cmpDirsWorkerLoop_nil_cons]
    by_cases hf : filter name1 = true
    · rw [if_pos hf, if_pos hf]
      exact ih _ _ _ hpath
    · rw [if_neg hf, if_neg hf]
      exact Result.mirror_andThen
        (lonesomeStep_mirror intr cmp_data.dev1 dir1 name1 node1 DELETED s)
        (fun s1 => ih _ _ s1 hpath)
  · intro name1 node1 rest1 name2 node2 rest2 ih1 ih2 ih12 ihk dir1 dir2 s hpath
    rw [cmpDirsWorkerLoop_cons_cons intr cmp_data dir1 dir2]
    by_cases hf1 : filter name1 = true
    · rw [if_pos hf1,
        cmpDirsWorkerLoop_skip_right intr cmp_data.swap dir2 dir1 name1 node1 rest1 hf1]
      exact ih1 _ _ _ hpath
    · rw [if_neg hf1, cmpDirsWorkerLoop_cons_cons]
      by_cases hf2 : filter name2 = true
      · rw [if_pos hf2, if_pos hf2]
        exact ih2 _ _ _ hpath
      · rw [if_neg hf2, if_neg hf2, if_neg hf1]
        by_cases h21 : name2 < name1
        · have h12 : ¬ name1 < name2 := not_lt_of_lt h21
          simp only [h21, h12, if_true, if_false]
          exact Result.mirror_andThen
            (lonesomeStep_mirror intr cmp_data.dev2 dir2 name2 node2 CREATED s)
            (fun s1 => ih2 _ _ s1 hpath)
        · by_cases h12 : name1 < name2
          · simp only [h21, h12, if_true, if_false]
            exact Result.mirror_andThen
              (lonesomeStep_mirror intr cmp_data.dev1 dir1 name1 node1 DELETED s)
              (fun s1 => ih1 _ _ s1 hpath)
          · have hname : name1 = name2 := by
              rcases lt_trichotomy name1 name2 with h | h | h
              · exact absurd h h12
              · exact h
              · exact absurd h h21
            subst hname
            simp only [h21, if_false, ne_eq, not_true_eq_false]
            exact Result.mirror_andThen
              (twosome_mirror_of intr cmp_data dir1 dir2 name1 node1 node2 hpath ihk s)
              (fun s1 => ih12 _ _ s1 hpath)

theorem cmpDirs_mirror (intr : Nat → Bool) (dir1 dir2 : SDir) (s : Run)
    (hpath : dir1.path = dir2.path) :
    cmpDirs intr dir2 dir1 s.mirror = (cmpDirs intr dir1 dir2 s).mirror := by
  unfold cmpDirs
  cases h1 : dir1.dot with
  | none => cases h2 : dir2.dot <;> rfl
  | some stat1 =>
    cases h2 : dir2.dot with
    | none => rfl
    | some stat2 =>
      exact cmpDirsWorker_mirror_of intr ⟨stat1.st_dev, stat2.st_dev⟩ dir1 dir2
        (fun s => cmpDirsWorkerLoop_mirror intr _ _ _ dir1 dir2 s hpath) s

/-- C20: exchanging the two roots mirrors the run.  For two roots with the same
relative path (the empty one for the roots `cmpDirs` is called with), the run on
(root 2, root 1) ends as the run on (root 1, root 2) does, with the same number of
directory visits, and its notifications are those of the run on (root 1, root 2), the
same paths in the same order, with CREATED replaced by DELETED, DELETED by CREATED and
every other status unchanged.  The status of `cmpFiles` on matched metadata is the
same for both orders of its arguments. -/
theorem C20_swapping_roots_mirrors (intr : Nat → Bool) (dir1 dir2 : SDir)
    (hpath : dir1.path = dir2.path) :
    (∀ s : Run, cmpDirs intr dir2 dir1 s.mirror = (cmpDirs intr dir1 dir2 s).mirror) ∧
    (cmpDirs intr dir2 dir1 start).1 = (cmpDirs intr dir1 dir2 start).1 ∧
    (cmpDirs intr dir2 dir1 start).2.visits = (cmpDirs intr dir1 dir2 start).2.visits ∧
    (cmpDirs intr dir2 dir1 start).2.log =
      (cmpDirs intr dir1 dir2 start).2.log.map (fun x => (x.1, swapStatus x.2)) ∧
    ∀ (file1 file2 : SFile) (stat1 stat2 : Stat),
      cmpFiles file2 stat2 file1 stat1 = cmpFiles file1 stat1 file2 stat2 := by
  have h := cmpDirs_mirror intr dir1 dir2 start hpath
  have hs : start.mirror = start := rfl
  rw [hs] at h
  refine ⟨fun s => cmpDirs_mirror intr dir1 dir2 s hpath, ?_, ?_, ?_, cmpFiles_symm⟩
  · rw [h]
    rfl
  · rw [h]
    rfl
  · rw [h]
    rfl

/-- C20, applied to the example of the specification with the roots exchanged: `/b` is
now CREATED and `/d` DELETED, `/a` and `/c` keep their status -/
theorem C20_swapping_roots_mirrors_witness :
    c2_dir1.path = c2_dir2.path ∧
    cmpDirs never c2_dir1 c2_dir2 start =
      (none, ⟨[("/a", USER), ("/b", DELETED), ("/c", CONTENT), ("/d", CREATED)], 1⟩) ∧
    (cmpDirs never c2_dir2 c2_dir1 start).2.log =
      [("/a", USER), ("/b", CREATED), ("/c", CONTENT), ("/d", DELETED)] := by
  refine ⟨rfl, merge_example, ?_⟩
  rw [(C20_swapping_roots_mirrors never c2_dir1 c2_dir2 rfl).2.2.2.1, merge_example]
  decide

/-! ### No path is notified twice -/

theorem joinPath_shape : ∀ (chain : List String) (path : String),
    joinPath path chain = path ∨ ∃ r, joinPath path chain = path ++ "/" ++ r := by
  intro chain
  induction chain with
  | nil => exact fun path => Or.inl rfl
  | cons name chain ih =>
    intro path
    rw [joinPath]
    rcases ih (path ++ "/" ++ name) with h | ⟨r, h⟩
    · exact Or.inr ⟨name, h⟩
    · refine Or.inr ⟨name ++ "/" ++ r, ?_⟩
      rw [h]
      simp only [String.append_assoc]

/-- The path of an entry in the tree of a listing is the path of an entry of the listing
or a path below one -/
theorem ChainPath.inEntry {path q : String} {entries : List (String × Node)}
    (h : ChainPath path entries q) : ∃ n ∈ entries.map Prod.fst, InEntry path n q := by
  obtain ⟨chain, hc, hq⟩ := h
  cases hc with
  | entry _ name node hmem =>
    exact ⟨name, mem_names hmem, by rw [hq]; exact Or.inl rfl⟩
  | step _ name node chain hmem hk =>
    refine ⟨name, mem_names hmem, ?_⟩
    rw [hq, joinPath]
    rcases joinPath_shape chain (path ++ "/" ++ name) with h | ⟨r, h⟩
    · exact Or.inl h
    · exact Or.inr ⟨r, h⟩

theorem ChainPath.of_subset {path q : String} {entries entries' : List (String × Node)}
    (h : ChainPath path entries q) (hsub : ∀ e ∈ entries, e ∈ entries') :
    ChainPath path entries' q := by
  obtain ⟨chain, hc, hq⟩ := h
  cases hc with
  | entry _ name node hmem => exact ⟨_, Chain.entry _ name node (hsub _ hmem), hq⟩
  | step _ name node chain hmem hk => exact ⟨_, Chain.step _ name node chain (hsub _ hmem) hk, hq⟩

theorem ChainPath.tail {path q : String} {e : String × Node} {rest : List (String × Node)}
    (h : ChainPath path rest q) : ChainPath path (e :: rest) q :=
  h.of_subset (fun _ hx => List.mem_cons_of_mem _ hx)

/-- The path of an entry of a listing is the path of an entry in its tree -/
theorem ChainPath.head_self (path name : String) (node : Node) (rest : List (String × Node)) :
    ChainPath path ((name, node) :: rest) (path ++ "/" ++ name) :=
  ⟨[name], Chain.entry _ name node (List.mem_cons_self _ _), rfl⟩

/-- A path in the tree below an entry of a listing is the path of an entry in the tree of
the listing -/
theorem ChainPath.head_below {path name q : String} {node : Node}
    {rest : List (String × Node)} (h : ChainPath (path ++ "/" ++ name) node.kids q) :
    ChainPath path ((name, node) :: rest) q := by
  obtain ⟨chain, hc, hq⟩ := h
  exact ⟨name :: chain, Chain.step _ name node chain (List.mem_cons_self _ _) hc, hq⟩

theorem ChainPath.below_inEntry {path name q : String} {kids : List (String × Node)}
    (h : ChainPath (path ++ "/" ++ name) kids q) : InEntry path name q := by
  obtain ⟨k, -, hk⟩ := h.inEntry
  exact InEntry.of_sub hk

theorem ChainPath.below_ne {path q : String} {kids : List (String × Node)}
    (h : ChainPath path kids q) : q ≠ path := by
  obtain ⟨k, -, hk⟩ := h.inEntry
  exact hk.ne_dir

theorem Ascending.cons_facts {name : String} {node : Node} {rest : List (String × Node)}
    (h : Ascending ((name, node) :: rest)) :
    entryName name ∧ (∀ m ∈ rest.map Prod.fst, name < m) ∧ Ascending node.kids ∧
      Ascending rest := by
  cases h with
  | cons _ _ _ h1 h2 h3 h4 => exact ⟨h1, h2, h3, h4⟩

theorem Ascending.entry_names {entries : List (String × Node)} (h : Ascending entries) :
    ∀ n ∈ entries.map Prod.fst, entryName n := by
  induction entries with
  | nil => intro n hn; cases hn
  | cons e rest ih =>
    obtain ⟨name, node⟩ := e
    obtain ⟨h1, -, -, h4⟩ := h.cons_facts
    intro n hn
    rw [names_cons] at hn
    rcases List.mem_cons.1 hn with hn | hn
    · rw [hn]
      exact h1
    · exact ih h4 n hn

theorem AddsOnce.nothing (Q : String → Prop) (o : Option Exception) (s : Run) :
    AddsOnce Q s (o, s) :=
  ⟨[], by simp, by simp, by simp⟩

theorem AddsOnce.same_log (Q : String → Prop) {s : Run} {r : Result} (h : r.2.log = s.log) :
    AddsOnce Q s r :=
  ⟨[], by simp [h], by simp, by simp⟩

theorem AddsOnce.of_state {Q : String → Prop} {s s1 : Run} {r : Result}
    (h : AddsOnce Q s1 r) (hlog : s1.log = s.log) : AddsOnce Q s r := by
  obtain ⟨l, hl, hn, hq⟩ := h
  exact ⟨l, by rw [hl, hlog], hn, hq⟩

theorem AddsOnce.weaken {Q Q' : String → Prop} {s : Run} {r : Result} (h : AddsOnce Q s r)
    (hq : ∀ q, Q q → Q' q) : AddsOnce Q' s r := by
  obtain ⟨l, hl, hn, hx⟩ := h
  exact ⟨l, hl, hn, fun x hx' => hq _ (hx x hx')⟩

/-- Two steps in sequence notify no path twice when neither does and the paths of the
first are none of the second -/
theorem AddsOnce.then_disjoint {Q1 Q2 : String → Prop} {s : Run} {r : Result} {k : Run → Result}
    (hr : AddsOnce Q1 s r) (hk : ∀ s1, AddsOnce Q2 s1 (k s1))
    (hdis : ∀ q, Q1 q → Q2 q → False) :
    AddsOnce (fun q => Q1 q ∨ Q2 q) s (r.andThen k) := by
  obtain ⟨o, s1⟩ := r
  obtain ⟨l1, h1, hn1, hq1⟩ := hr
  cases o with
  | some e =>
    rw [Result.andThen_some]
    exact ⟨l1, h1, hn1, fun x hx => Or.inl (hq1 x hx)⟩
  | none =>
    rw [Result.andThen_none]
    obtain ⟨l2, h2, hn2, hq2⟩ := hk s1
    simp only at h1
    refine ⟨l1 ++ l2, by rw [h2, h1, List.append_assoc], ?_, ?_⟩
    · rw [List.map_append]
      refine List.Nodup.append hn1 hn2 ?_
      intro q hq1' hq2'
      obtain ⟨x, hx, rfl⟩ := List.mem_map.1 hq1'
      obtain ⟨y, hy, hxy⟩ := List.mem_map.1 hq2'
      exact hdis x.1 (hq1 x hx) (hxy ▸ hq2 y hy)
    · intro x hx
      rcases List.mem_append.1 hx with h | h
      · exact Or.inl (hq1 x h)
      · exact Or.inr (hq2 x h)

/-- A notification followed by a step that does not notify its path again -/
theorem AddsOnce.cb_first {Q : String → Prop} {s : Run} (path : String) (status : Nat)
    {r : Result} (h : AddsOnce Q (s.cb path status) r) (hne : ∀ q, Q q → q ≠ path) :
    AddsOnce (fun q => q = path ∨ Q q) s r := by
  obtain ⟨l, hl, hn, hq⟩ := h
  refine ⟨(path, status) :: l, by rw [hl, Run.cb_log]; simp, ?_, ?_⟩
  · rw [List.map_cons, List.nodup_cons]
    refine ⟨?_, hn⟩
    intro hmem
    obtain ⟨x, hx, hxp⟩ := List.mem_map.1 hmem
    exact hne x.1 (hq x hx) hxp
  · intro x hx
    rcases List.mem_cons.1 hx with h | h
    · rw [h]
      exact Or.inl rfl
    · exact Or.inr (hq x h)

theorem AddsOnce.cb_if_first {Q : String → Prop} {s : Run} (path : String) (status : Nat)
    {r : Result} (h : AddsOnce Q (if status ≠ 0 then s.cb path status else s) r)
    (hne : ∀ q, Q q → q ≠ path) : AddsOnce (fun q => q = path ∨ Q q) s r := by
  by_cases h0 : status ≠ 0
  · rw [if_pos h0] at h
    exact h.cb_first path status hne
  · rw [if_neg h0] at h
    exact h.weaken (fun q hq => Or.inr hq)

/-- The path of an entry, or a path in the tree below it, is a path of the entry -/
theorem inEntry_of_entry_or_below {path name q : String} {kids : List (String × Node)}
    (h : q = path ++ "/" ++ name ∨ ChainPath (path ++ "/" ++ name) kids q) :
    InEntry path name q := by
  rcases h with h | h
  · exact Or.inl h
  · exact h.below_inEntry

/-- A path of the entry `name` is not in the trees of two listings that do not hold the
name -/
theorem InEntry.not_chainPath {path name q : String} {l1 l2 : List (String × Node)}
    (hname : entryName name) (h1 : InEntry path name q)
    (hn1 : ∀ m ∈ l1.map Prod.fst, entryName m ∧ name ≠ m)
    (hn2 : ∀ m ∈ l2.map Prod.fst, entryName m ∧ name ≠ m)
    (h2 : ChainPath path l1 q ∨ ChainPath path l2 q) : False := by
  rcases h2 with h2 | h2
  · obtain ⟨m, hm, hq⟩ := h2.inEntry
    exact (hn1 m hm).2 (InEntry.same_name hname (hn1 m hm).1 h1 hq)
  · obtain ⟨m, hm, hq⟩ := h2.inEntry
    exact (hn2 m hm).2 (InEntry.same_name hname (hn2 m hm).1 h1 hq)

/-- The names of an ascending listing after the first are names that `readdir` can
deliver and differ from every name that is not above the first -/
theorem Ascending.rest_ne {name name' : String} {node : Node} {rest : List (String × Node)}
    (h : Ascending ((name, node) :: rest)) (hle : name' ≤ name) :
    ∀ m ∈ rest.map Prod.fst, entryName m ∧ name' ≠ m := by
  obtain ⟨-, hlt, -, har⟩ := h.cons_facts
  intro m hm
  refine ⟨har.entry_names m hm, ?_⟩
  intro he
  rw [← he] at hm
  exact absurd (lt_of_le_of_lt hle (hlt name' hm)) (lt_irrefl _)

/-- The names of an ascending listing are names that `readdir` can deliver and differ
from every name below the first -/
theorem Ascending.all_ne {name name' : String} {node : Node} {rest : List (String × Node)}
    (h : Ascending ((name, node) :: rest)) (hlt : name' < name) :
    ∀ m ∈ ((name, node) :: rest).map Prod.fst, entryName m ∧ name' ≠ m := by
  intro m hm
  rw [names_cons] at hm
  rcases List.mem_cons.1 hm with hm | hm
  · rw [hm]
    exact ⟨h.cons_facts.1, ne_of_lt hlt⟩
  · exact h.rest_ne (le_of_lt hlt) m hm

theorem listSubdirs_once_of (intr : Nat → Bool) (dir : SDir) (status : Nat)
    (hloop : ∀ s, AddsOnce (ChainPath dir.path dir.kids) s
      (listSubdirsLoop intr dir dir.kids status s)) (s : Run) :
    AddsOnce (ChainPath dir.path dir.kids) s (listSubdirs intr dir status s) := by
  rw [listSubdirs_eq]
  split
  · exact AddsOnce.nothing _ _ _
  · split
    · exact AddsOnce.of_state (hloop _) rfl
    · exact AddsOnce.same_log _ rfl

/-- The loop of `listSubdirs` over an ascending listing notifies paths in the tree of the
listing, none of them twice -/
theorem listSubdirsLoop_once (intr : Nat → Bool) (status : Nat) :
    ∀ (entries : List (String × Node)) (dir : SDir) (s : Run), Ascending entries →
      AddsOnce (ChainPath dir.path entries) s (listSubdirsLoop intr dir entries status s) := by
  refine listing_induction ?_ ?_
  · intro dir s _
    rw [listSubdirsLoop_nil]
    exact AddsOnce.nothing _ _ _
  · intro name node rest ihk ihr dir s ha
    obtain ⟨hname, hlt, hak, har⟩ := ha.cons_facts
    rw [listSubdirsLoop_cons]
    have hdis : ∀ q, InEntry dir.path name q → ChainPath dir.path rest q → False :=
      fun q h1 h2 => InEntry.not_chainPath hname h1 (ha.rest_ne (le_refl _))
        (ha.rest_ne (le_refl _)) (Or.inl h2)
    have hstep : AddsOnce (fun q => ChainPath (dir.path ++ "/" ++ name) node.kids q ∨
        ChainPath dir.path rest q) (s.cb (dir.fullname name) status)
        (if S_ISDIR node.stat.st_mode then
          if node.file.fd.isSome then
            (listSubdirs intr ⟨dir.fullname name, some node.stat, node.listable, node.kids⟩
              status (s.cb (dir.fullname name) status)).andThen
              (listSubdirsLoop intr dir rest status)
          else (some .IOErrorException, s.cb (dir.fullname name) status)
        else listSubdirsLoop intr dir rest status (s.cb (dir.fullname name) status)) := by
      split
      · split
        · refine AddsOnce.then_disjoint
            (listSubdirs_once_of intr
              ⟨dir.fullname name, some node.stat, node.listable, node.kids⟩ status
              (fun s1 => ihk _ s1 hak) _)
            (fun s1 => ihr dir s1 har) ?_
          intro q h1 h2
          exact hdis q h1.below_inEntry h2
        · exact AddsOnce.nothing _ _ _
      · exact (ihr dir _ har).weaken (fun q hq => Or.inr hq)
    refine (hstep.cb_first (dir.fullname name) status ?_).weaken ?_
    · rintro q (h | h) he
      · exact h.below_ne he
      · exact hdis q (he ▸ InEntry.self _ _) h
    · rintro q (h | h | h)
      · rw [h]
        exact ChainPath.head_self _ _ _ _
      · exact h.head_below
      · exact h.tail

theorem listSubdirs_once (intr : Nat → Bool) (dir : SDir) (status : Nat) (s : Run)
    (ha : Ascending dir.kids) :
    AddsOnce (ChainPath dir.path dir.kids) s (listSubdirs intr dir status s) :=
  listSubdirs_once_of intr dir status (fun s => listSubdirsLoop_once intr status _ dir s ha) s

theorem lonesomeStep_once (intr : Nat → Bool) (dev : Nat) (dir : SDir) (name : String)
    (node : Node) (status : Nat) (s : Run) (ha : Ascending node.kids) :
    AddsOnce (fun q => q = dir.path ++ "/" ++ name ∨
      ChainPath (dir.path ++ "/" ++ name) node.kids q) s
      (lonesomeStep intr dev dir name node status s) := by
  unfold lonesomeStep
  split
  · rw [lonesome_eq]
    refine AddsOnce.cb_first (dir.fullname name) status ?_ (fun q h => h.below_ne)
    split
    · split
      · exact listSubdirs_once intr
          ⟨dir.fullname name, some node.stat, node.listable, node.kids⟩ status _ ha
      · exact AddsOnce.nothing _ _ _
    · exact AddsOnce.nothing _ _ _
  · exact AddsOnce.nothing _ _ _

theorem dumpStep_once (intr : Nat → Bool) (dev : Nat) (dir : SDir) (name : String)
    (node : Node) (status : Nat) (s : Run) (ha : Ascending node.kids) :
    AddsOnce (ChainPath (dir.path ++ "/" ++ name) node.kids) s
      (dumpStep intr dev dir name node status s) := by
  rw [dumpStep_eq]
  split
  · split
    · split
      · exact listSubdirs_once intr
          ⟨dir.fullname name, some node.stat, node.listable, node.kids⟩ status _ ha
      · exact AddsOnce.nothing _ _ _
    · exact AddsOnce.nothing _ _ _
  · exact AddsOnce.nothing _ _ _

/-- When the status of `cmpFiles` has the TYPE bit, at most one of the two entries is a
directory -/
theorem cmpFiles_type_not_both_dirs {file1 file2 : SFile} {stat1 stat2 : Stat} {status : Nat}
    (hs : cmpFiles file1 stat1 file2 stat2 = .ok status) (hT : ¬ status &&& TYPE = 0) :
    ¬ (S_ISDIR stat1.st_mode = true ∧ S_ISDIR stat2.st_mode = true) := by
  rintro ⟨h1, h2⟩
  obtain ⟨t, ht⟩ := exists_bool_iff (stat1.st_mode &&& S_IFMT ≠ stat2.st_mode &&& S_IFMT)
  obtain ⟨c, hc⟩ := exists_bool_iff (stat1.st_mode &&& S_IFMT = stat2.st_mode &&& S_IFMT ∧
    cmpFilesContent file1 stat1 file2 stat2 = .ok false)
  obtain ⟨p, hp⟩ := exists_bool_iff ((stat1.st_mode ^^^ stat2.st_mode) &&& permMask ≠ 0)
  obtain ⟨u, hu⟩ := exists_bool_iff (stat1.st_uid ≠ stat2.st_uid)
  obtain ⟨g, hg⟩ := exists_bool_iff (stat1.st_gid ≠ stat2.st_gid)
  have hv := cmpFiles_val file1 file2 stat1 stat2 t c p u g ht hc hp hu hg
  rw [hv] at hs
  cases hs
  rw [S_ISDIR_iff] at h1 h2
  exact ht.1 ((flag_bits t c p u g).1.1 hT) (h1.trans h2.symm)

theorem twosome_once_of (intr : Nat → Bool) (cmp_data : CmpData) (dir1 dir2 : SDir)
    (name : String) (node1 node2 : Node) (hpath : dir1.path = dir2.path)
    (ha1 : Ascending node1.kids) (ha2 : Ascending node2.kids)
    (hloop : ∀ d1 d2 s, d1.path = d2.path →
      AddsOnce (fun q => ChainPath d1.path node1.kids q ∨ ChainPath d1.path node2.kids q) s
        (cmpDirsWorkerLoop intr cmp_data d1 d2 node1.kids node2.kids s))
    (s : Run) :
    AddsOnce (fun q => q = dir1.path ++ "/" ++ name ∨
      (ChainPath (dir1.path ++ "/" ++ name) node1.kids q ∨
        ChainPath (dir1.path ++ "/" ++ name) node2.kids q)) s
      (twosome intr cmp_data dir1 dir2 name node1 node2 s) := by
  by_cases hd : node1.stat.st_dev = cmp_data.dev1 ∧ node2.stat.st_dev = cmp_data.dev2
  · obtain ⟨status, hs⟩ := cmpFiles_ok node1.file node2.file node1.stat node2.stat
    rw [twosome_on_dev intr cmp_data dir1 dir2 name node1 node2 s status hd.1 hd.2 hs]
    refine AddsOnce.cb_if_first (dir1.fullname name) status ?_ ?_
    · generalize (if status ≠ 0 then s.cb (dir1.fullname name) status else s) = s0
      by_cases hT : status &&& TYPE = 0
      · rw [if_pos hT]
        split
        · split
          · split
            · rw [cmpDirsWorker_eq]
              split
              · exact AddsOnce.nothing _ _ _
              · split
                · split
                  · exact AddsOnce.of_state (hloop
                      ⟨dir1.fullname name, some node1.stat, node1.listable, node1.kids⟩
                      ⟨dir2.fullname name, some node2.stat, node2.listable, node2.kids⟩ _
                      (by simp only [SDir.fullname, hpath])) rfl
                  · exact AddsOnce.same_log _ rfl
                · exact AddsOnce.same_log _ rfl
            · exact AddsOnce.nothing _ _ _
          · exact AddsOnce.nothing _ _ _
        · exact AddsOnce.nothing _ _ _
      · rw [if_neg hT]
        have hnot := cmpFiles_type_not_both_dirs hs hT
        by_cases hd1 : S_ISDIR node1.stat.st_mode = true
        · have hd2 : S_ISDIR node2.stat.st_mode = false := by
            by_contra h2
            exact hnot ⟨hd1, by simpa using h2⟩
          rw [Result.andThen_nondir _ intr _ dir2 name node2 CREATED hd2]
          exact (dumpStep_once intr _ dir1 name node1 DELETED s0 ha1).weaken
            (fun q hq => Or.inl hq)
        · have hd1' : S_ISDIR node1.stat.st_mode = false := by simpa using hd1
          rw [dumpStep_nondir intr _ dir1 name node1 DELETED s0 hd1', Result.andThen_none,
            hpath]
          exact (dumpStep_once intr _ dir2 name node2 CREATED s0 ha2).weaken
            (fun q hq => Or.inr hq)
    · rintro q (h | h)
      · exact h.below_ne
      · exact h.below_ne
  · rw [twosome_off_dev intr cmp_data dir1 dir2 name node1 node2 s hd]
    exact AddsOnce.nothing _ _ _

/-- The merge loop over two ascending listings notifies paths in the trees of the two
listings, none of them twice -/
theorem cmpDirsWorkerLoop_once (intr : Nat → Bool) (cmp_data : CmpData) :
    ∀ (entries1 entries2 : List (String × Node)) (dir1 dir2 : SDir) (s : Run),
      dir1.path = dir2.path → Ascending entries1 → Ascending entries2 →
      AddsOnce (fun q => ChainPath dir1.path entries1 q ∨ ChainPath dir1.path entries2 q) s
        (cmpDirsWorkerLoop intr cmp_data dir1 dir2 entries1 entries2 s) := by
  refine listing_pair_induction ?_ ?_ ?_ ?_
  · intro dir1 dir2 s _ _ _
    rw [cmpDirsWorkerLoop_nil_nil]
    exact AddsOnce.nothing _ _ _
  · intro name2 node2 rest2 ih dir1 dir2 s hpath ha1 ha2
    obtain ⟨hname, -, hak, har⟩ := ha2.cons_facts
    rw [cmpDirsWorkerLoop_nil_cons, filter_of_entryName hname, if_neg (by simp)]
    have hstep := lonesomeStep_once intr cmp_data.dev2 dir2 name2 node2 CREATED s hak
    rw [← hpath] at hstep
    refine (AddsOnce.then_disjoint hstep (fun s1 => ih dir1 dir2 s1 hpath ha1 har) ?_).weaken ?_
    · intro q h1 h2
      exact InEntry.not_chainPath hname (inEntry_of_entry_or_below h1)
        (fun m hm => by cases hm) (ha2.rest_ne (le_refl _)) h2
    · rintro q ((h | h) | (h | h))
      · rw [h]
        exact Or.inr (ChainPath.head_self _ _ _ _)
      · exact Or.inr h.head_below
      · exact Or.inl h
      · exact Or.inr h.tail
  · intro name1 node1 rest1 ih dir1 dir2 s hpath ha1 ha2
    obtain ⟨hname, -, hak, har⟩ := ha1.cons_facts
    rw [cmpDirsWorkerLoop_cons_nil, filter_of_entryName hname, if_neg (by simp)]
    have hstep := lonesomeStep_once intr cmp_data.dev1 dir1 name1 node1 DELETED s hak
    refine (AddsOnce.then_disjoint hstep (fun s1 => ih dir1 dir2 s1 hpath har ha2) ?_).weaken ?_
    · intro q h1 h2
      exact InEntry.not_chainPath hname (inEntry_of_entry_or_below h1)
        (ha1.rest_ne (le_refl _)) (fun m hm => by cases hm) h2
    · rintro q ((h | h) | (h | h))
      · rw [h]
        exact Or.inl (ChainPath.head_self _ _ _ _)
      · exact Or.inl h.head_below
      · exact Or.inl h.tail
      · exact Or.inr h
  · intro name1 node1 rest1 name2 node2 rest2 ih1 ih2 ih12 ihk dir1 dir2 s hpath ha1 ha2
    obtain ⟨hname1, -, hak1, har1⟩ := ha1.cons_facts
    obtain ⟨hname2, -, hak2, har2⟩ := ha2.cons_facts
    rw [cmpDirsWorkerLoop_cons_cons, filter_of_entryName hname1, if_neg (by simp),
      filter_of_entryName hname2, if_neg (by simp)]
    by_cases h21 : name2 < name1
    · rw [if_pos h21]
      have hstep := lonesomeStep_once intr cmp_data.dev2 dir2 name2 node2 CREATED s hak2
      rw [← hpath] at hstep
      refine (AddsOnce.then_disjoint hstep (fun s1 => ih2 dir1 dir2 s1 hpath ha1 har2) ?_).weaken ?_
      · intro q h1 h2
        exact InEntry.not_chainPath hname2 (inEntry_of_entry_or_below h1)
          (ha1.all_ne h21) (ha2.rest_ne (le_refl _)) h2
      · rintro q ((h | h) | (h | h))
        · rw [h]
          exact Or.inr (ChainPath.head_self _ _ _ _)
        · exact Or.inr h.head_below
        · exact Or.inl h
        · exact Or.inr h.tail
    · rw [if_neg h21]
      by_cases h12 : name1 < name2
      · rw [if_pos h12]
        have hstep := lonesomeStep_once intr cmp_data.dev1 dir1 name1 node1 DELETED s hak1
        refine (AddsOnce.then_disjoint hstep (fun s1 => ih1 dir1 dir2 s1 hpath har1 ha2) ?_).weaken ?_
        · intro q h1 h2
          exact InEntry.not_chainPath hname1 (inEntry_of_entry_or_below h1)
            (ha1.rest_ne (le_refl _)) (ha2.all_ne h12) h2
        · rintro q ((h | h) | (h | h))
          · rw [h]
            exact Or.inl (ChainPath.head_self _ _ _ _)
          · exact Or.inl h.head_below
          · exact Or.inl h.tail
          · exact Or.inr h
      · rw [if_neg h12]
        have hname : name1 = name2 := by
          rcases lt_trichotomy name1 name2 with h | h | h
          · exact absurd h h12
          · exact h
          · exact absurd h h21
        subst hname
        rw [if_neg (by simp)]
        have hstep := twosome_once_of intr cmp_data dir1 dir2 name1 node1 node2 hpath hak1 hak2
          (fun d1 d2 s hp => ihk d1 d2 s hp hak1 hak2) s
        refine (AddsOnce.then_disjoint hstep (fun s1 => ih12 dir1 dir2 s1 hpath har1 har2) ?_).weaken ?_
        · intro q h1 h2
          have hin : InEntry dir1.path name1 q := by
            rcases h1 with h | h | h
            · exact Or.inl h
            · exact h.below_inEntry
            · exact h.below_inEntry
          exact InEntry.not_chainPath hname1 hin (ha1.rest_ne (le_refl _))
            (ha2.rest_ne (le_refl _)) h2
        · rintro q ((h | h | h) | (h | h))
          · rw [h]
            exact Or.inl (ChainPath.head_self _ _ _ _)
          · exact Or.inl h.head_below
          · exact Or.inr h.head_below
          · exact Or.inl h.tail
          · exact Or.inr h.tail

/-- C15: a run of `cmpDirs` on two roots (relative path empty) whose listings are,
hereditarily, strictly ascending lists of names that `readdir` can deliver notifies no
path twice, whether the run ends normally or not; and every path it notifies starts
with `/` and is the chain of entry names from one of the roots down to an entry, each
name preceded by `/`. -/
theorem C15_paths_notified_once (intr : Nat → Bool) (dir1 dir2 : SDir) (s : Run)
    (hp1 : dir1.path = "") (hp2 : dir2.path = "")
    (ha1 : Ascending dir1.kids) (ha2 : Ascending dir2.kids) :
    ∃ l, (cmpDirs intr dir1 dir2 s).2.log = s.log ++ l ∧ (l.map Prod.fst).Nodup ∧
      ∀ x ∈ l, (∃ t, x.1 = "/" ++ t) ∧
        ∃ chain, (Chain dir1.kids chain ∨ Chain dir2.kids chain) ∧
          x.1 = joinPath "" chain := by
  have hpath : dir1.path = dir2.path := by rw [hp1, hp2]
  have hrun : AddsOnce (fun q => ChainPath dir1.path dir1.kids q ∨
      ChainPath dir1.path dir2.kids q) s (cmpDirs intr dir1 dir2 s) := by
    unfold cmpDirs
    split
    · exact AddsOnce.nothing _ _ _
    · split
      · exact AddsOnce.nothing _ _ _
      · rw [cmpDirsWorker_eq]
        split
        · exact AddsOnce.nothing _ _ _
        · split
          · split
            · exact AddsOnce.of_state
                (cmpDirsWorkerLoop_once intr _ _ _ dir1 dir2 _ hpath ha1 ha2) rfl
            · exact AddsOnce.same_log _ rfl
          · exact AddsOnce.same_log _ rfl
  obtain ⟨l, hl, hn, hq⟩ := hrun
  refine ⟨l, hl, hn, fun x hx => ?_⟩
  have hslash : ∀ entries, ChainPath dir1.path entries x.1 → ∃ t, x.1 = "/" ++ t := by
    intro entries h
    obtain ⟨n, -, hin⟩ := h.inEntry
    rw [hp1] at hin
    rcases hin with h | ⟨r, h⟩
    · exact ⟨n, by rw [h, String.empty_append]⟩
    · exact ⟨n ++ "/" ++ r, by rw [h, String.empty_append]; simp only [String.append_assoc]⟩
  rcases hq x hx with h | h
  · refine ⟨hslash _ h, ?_⟩
    obtain ⟨chain, hc, he⟩ := h
    exact ⟨chain, Or.inl hc, by rw [he, hp1]⟩
  · refine ⟨hslash _ h, ?_⟩
    obtain ⟨chain, hc, he⟩ := h
    exact ⟨chain, Or.inr hc, by rw [he, hp1]⟩

theorem c3_ascending : Ascending c3_dir1.kids := by
  have hname : ∀ n : String, n = "b" ∨ n = "f" ∨ n = "g" ∨ n = "h" → entryName n := by
    rintro n (h | h | h | h) <;> subst h <;> unfold entryName <;> decide
  have hfg : "f" < "g" := by rw [String.lt_iff_toList_lt]; decide
  refine Ascending.cons _ _ _ (hname _ (Or.inl rfl)) (fun m hm => by cases hm) ?_ Ascending.nil
  refine Ascending.cons _ _ _ (hname _ (Or.inr (Or.inl rfl))) ?_ Ascending.nil ?_
  · intro m hm
    have hm' : m = "g" := by simpa [directory, regular] using hm
    rw [hm']
    exact hfg
  · refine Ascending.cons _ _ _ (hname _ (Or.inr (Or.inr (Or.inl rfl))))
      (fun m hm => by cases hm) ?_ Ascending.nil
    exact Ascending.cons _ _ _ (hname _ (Or.inr (Or.inr (Or.inr rfl))))
      (fun m hm => by cases hm) Ascending.nil Ascending.nil

/-- C15, applied to the tree with `/b`, `/b/f`, `/b/g`, `/b/g/h` against an empty tree -/
theorem C15_paths_notified_once_witness :
    c3_dir1.path = "" ∧ c3_dir2.path = "" ∧ Ascending c3_dir1.kids ∧ Ascending c3_dir2.kids ∧
    (cmpDirs never c3_dir1 c3_dir2 start).2.log =
      [("/b", DELETED), ("/b/f", DELETED), ("/b/g", DELETED), ("/b/g/h", DELETED)] ∧
    ∃ l, (cmpDirs never c3_dir1 c3_dir2 start).2.log = start.log ++ l ∧
      (l.map Prod.fst).Nodup ∧
      ∀ x ∈ l, (∃ t, x.1 = "/" ++ t) ∧
        ∃ chain, (Chain c3_dir1.kids chain ∨ Chain c3_dir2.kids chain) ∧
          x.1 = joinPath "" chain := by
  have hrun : cmpDirs never c3_dir1 c3_dir2 start =
      cmpDirsWorker never ⟨1, 2⟩ c3_dir1 c3_dir2 start := rfl
  refine ⟨rfl, rfl, c3_ascending, Ascending.nil, by rw [hrun, c3_run], ?_⟩
  exact C15_paths_notified_once never c3_dir1 c3_dir2 start rfl rfl c3_ascending
    Ascending.nil

end snapper
